import Mathlib

/-!
Shallow embedding of the skiplist implementation in `src/skiplist.c`
(Matthew Clegg, 1990; after Pugh's CACM article).

Nodes live in a heap (`Store`) keyed by stable identifiers, mirroring the
pointer structure of the C code: node id 0 is the sentinel header; a C
`NULL` pointer is `none`; freeing a node removes it from the store.  Keys
and data are instantiated at `Int`, with the three-way comparator
`Member_Compare` playing the role of the user-supplied comparison
callback.  The level-assignment counter `Current_Random_Level` is a C
file-scope `static`, so it is threaded explicitly as a `Nat` that is
shared by every skip list in the process.
-/

set_option maxHeartbeats 1000000

/-- `MAX_LEVEL` from skiplist.h. -/
def MAX_LEVEL : Nat := 20

/-- The integer three-way comparator used to instantiate the user-supplied
`Member_Compare` callback (returns -1, 0, 1). -/
def Member_Compare (a b : Int) : Int := if a < b then -1 else if a = b then 0 else 1

/-- Comparator applied as `cmp(k, x->key)` where the node key may be the
header's NULL key (a case the C code only reaches through corrupt
pointers; the result is arbitrary there). -/
def cmpK (k : Int) : Option Int → Int
  | none => 1
  | some b => Member_Compare k b

/-- Comparator applied as `cmp(x->key, k)`. -/
def cmpKO : Option Int → Int → Int
  | none, _ => 1
  | some a, k => Member_Compare a k

/-- `struct SkipList_element_struct`: key (NULL for the header), data,
height, and the `forward` and `diff` arrays (their length is the node's
height; `MAX_LEVEL` for the header). -/
structure Node where
  key : Option Int
  data : Int
  height : Nat
  forward : List (Option Nat)
  diff : List Int
deriving DecidableEq

/-- The value produced by dereferencing a dangling or null pointer in the
model; never reached on the states the theorems quantify over. -/
def defaultNode : Node := ⟨none, 0, 0, [], []⟩

/-- The heap of allocated nodes, addressed by stable ids. -/
abbrev Store := List (Nat × Node)

def nodeGet (st : Store) (x : Nat) : Node := (List.lookup x st).getD defaultNode

def storeSet (st : Store) (x : Nat) (nd : Node) : Store :=
  st.map (fun p => if p.1 = x then (x, nd) else p)

def keyN (st : Store) (x : Nat) : Option Int := (nodeGet st x).key
def dataN (st : Store) (x : Nat) : Int := (nodeGet st x).data
def heightN (st : Store) (x : Nat) : Nat := (nodeGet st x).height
def forwardN (st : Store) (x i : Nat) : Option Nat := (nodeGet st x).forward.getD i none
def diffN (st : Store) (x i : Nat) : Int := (nodeGet st x).diff.getD i 0

def setForward (st : Store) (x i : Nat) (v : Option Nat) : Store :=
  storeSet st x { nodeGet st x with forward := (nodeGet st x).forward.set i v }

def setDiff (st : Store) (x i : Nat) (v : Int) : Store :=
  storeSet st x { nodeGet st x with diff := (nodeGet st x).diff.set i v }

def setData (st : Store) (x : Nat) (v : Int) : Store :=
  storeSet st x { nodeGet st x with data := v }

/-- `struct SkipList_struct`: the node heap, the cached `finger` and
`distance` arrays of the most recent search, the active level count, the
length, and the next fresh node id (modelling `malloc`). -/
structure SL where
  store : Store
  finger : List Nat
  distance : List Int
  level : Nat
  length : Int
  nextId : Nat
deriving DecidableEq

/-- The header made by `SkipList_Create`: `forward[i] = NULL`,
`diff[i] = 1` at all `MAX_LEVEL` levels. -/
def headerNode : Node :=
  { key := none, data := 0, height := MAX_LEVEL,
    forward := List.replicate MAX_LEVEL none, diff := List.replicate MAX_LEVEL 1 }

/-- `SkipList_Create`: level 1, length 0, every cached finger is the
header and every cached distance is 1. -/
def SkipList_Create : SL :=
  { store := [(0, headerNode)],
    finger := List.replicate MAX_LEVEL 0,
    distance := List.replicate MAX_LEVEL (1 : Int),
    level := 1, length := 0, nextId := 1 }

/-- Helper for `countLow1`: structurally recursive on a fuel that bounds
the number of halvings. -/
def countLow1Fuel : Nat → Nat → Nat
  | 0, _ => 0
  | fuel + 1, c => if c % 2 = 1 then countLow1Fuel fuel (c / 2) + 1 else 0

/-- Number of consecutive set low-order bits (the loop
`for (i = c; i & 1; i >>= 1) n++` of `Choose_Random_Level`); `c` itself
is enough fuel since a number with `t` trailing ones is at least
`2^t - 1 >= t`. -/
def countLow1 (c : Nat) : Nat := countLow1Fuel c c

/-- `Choose_Random_Level`: reads the shared counter `Current_Random_Level`,
increments it, and returns `1 + (consecutive low set bits)` capped at
`MAX_LEVEL`, together with the advanced counter. -/
def Choose_Random_Level (g : Nat) : Nat × Nat :=
  (min (countLow1 g + 1) MAX_LEVEL, g + 1)

/-- The inner `while` loop of `Search_by_Key`: advance along level `cur`
while the next key is strictly below `k`, accumulating `diff` into the
running rank.  Fuel bounds the walk (always sufficient on list-shaped
heaps). -/
def advanceK (st : Store) (k : Int) (cur : Nat) : Nat → Nat → Int → Nat × Int
  | 0, f, d => (f, d)
  | fuel + 1, f, d =>
    match forwardN st f cur with
    | none => (f, d)
    | some nxt =>
      if cmpK k (keyN st nxt) > 0 then
        advanceK st k cur fuel nxt (d + diffN st f cur)
      else (f, d)

/-- The cache consultation of `Search_by_Key` at level `cur`: the cached
finger/distance pair is used as the starting point only when the cached
node's key is non-NULL and strictly less than the search key; otherwise
the search continues from the point `(f, last)` reached on the level
above. -/
def searchKStart (sl : SL) (k : Int) (cur : Nat) (f : Nat) (last : Int) : Nat × Int :=
  let cid := sl.finger.getD cur 0
  let useCache : Bool :=
    match keyN sl.store cid with
    | none => false
    | some kk => Member_Compare k kk > 0
  if useCache then (cid, sl.distance.getD cur 0) else (f, last)

/-- The level loop of `Search_by_Key`, descending from level `cur - 1`
down to level 0.  Returns the updated skip list (cache written back) and
the `finger` and `delta` arrays, indexed by level. -/
def searchKAux (k : Int) : Nat → SL → Nat → Int → SL × List Nat × List Int
  | 0, sl, _, _ => (sl, [], [])
  | cur + 1, sl, f, last =>
    let start := searchKStart sl k cur f last
    let fin := advanceK sl.store k cur (sl.store.length + 1) start.1 start.2
    let sl' : SL :=
      { sl with finger := sl.finger.set cur fin.1, distance := sl.distance.set cur fin.2 }
    let rest := searchKAux k cur sl' fin.1 fin.2
    (rest.1, rest.2.1 ++ [fin.1], rest.2.2 ++ [fin.2])

/-- `Search_by_Key`. -/
def Search_by_Key (sl : SL) (k : Int) : SL × List Nat × List Int :=
  searchKAux k sl.level sl 0 0

/-- The inner `while` loop of `Search_by_Index`. -/
def advanceI (st : Store) (n : Int) (cur : Nat) : Nat → Nat → Int → Nat × Int
  | 0, f, p => (f, p)
  | fuel + 1, f, p =>
    match forwardN st f cur with
    | none => (f, p)
    | some nxt =>
      if diffN st f cur + p < n then
        advanceI st n cur fuel nxt (p + diffN st f cur)
      else (f, p)

/-- The level loop of `Search_by_Index`; returns the updated skip list,
the finger array, and the final `place`. -/
def searchIAux (n : Int) : Nat → SL → Nat → Int → SL × List Nat × Int
  | 0, sl, _, p => (sl, [], p)
  | cur + 1, sl, f, p =>
    let start :=
      if sl.distance.getD cur 0 < n then (sl.finger.getD cur 0, sl.distance.getD cur 0)
      else (f, p)
    let fin := advanceI sl.store n cur (sl.store.length + 1) start.1 start.2
    let sl' : SL :=
      { sl with finger := sl.finger.set cur fin.1, distance := sl.distance.set cur fin.2 }
    let rest := searchIAux n cur sl' fin.1 fin.2
    (rest.1, rest.2.1 ++ [fin.1], rest.2.2)

/-- `Search_by_Index`: the boolean is `(n - place) == 1`. -/
def Search_by_Index (sl : SL) (n : Int) : SL × List Nat × Bool :=
  let r := searchIAux n sl.level sl 0 0
  (r.1, r.2.1, n - r.2.2 = 1)

/-- `MakeNode`: a fresh node of the given height with zeroed `diff`. -/
def MakeNode (nl : Nat) (k d : Int) : Node :=
  { key := some k, data := d, height := nl,
    forward := List.replicate nl none, diff := List.replicate nl 0 }

/-- The level-growth loop of `SkipList_Insert`:
`u[i]->diff[i] = sl->length + 1` for the header at the newly active
levels `i`, `i+1`, ..., `i+c-1`. -/
def growLoop (len : Int) : Store → Nat → Nat → Store
  | st, _, 0 => st
  | st, i, c + 1 => growLoop len (setDiff st 0 i (len + 1)) (i + 1) c

/-- The first index-counter loop of `SkipList_Insert`, for `i < nl`:
`n->diff[i] = u[i]->diff[i] - d[0] + d[i]; u[i]->diff[i] = d[0] - d[i] + 1`.
Processes levels `0 .. nl-1` in ascending order. -/
def insDiffLoop (u : List Nat) (d : List Int) (d0 : Int) (nid : Nat) (st : Store) :
    Nat → Store
  | 0 => st
  | i + 1 =>
    let st' := insDiffLoop u d d0 nid st i
    let ui := u.getD i 0
    let di := d.getD i 0
    let v := diffN st' ui i
    setDiff (setDiff st' nid i (v - d0 + di)) ui i (d0 - di + 1)

/-- The second index-counter loop of `SkipList_Insert`, for
`nl <= i < level`: `u[i]->diff[i] += 1`, over levels `i .. i+c-1`. -/
def insBumpLoop (u : List Nat) : Store → Nat → Nat → Store
  | st, _, 0 => st
  | st, i, c + 1 =>
    insBumpLoop u (setDiff st (u.getD i 0) i (diffN st (u.getD i 0) i + 1)) (i + 1) c

/-- The forward-pointer splice loop of `SkipList_Insert`, for `i < nl`:
`n->forward[i] = u[i]->forward[i]; u[i]->forward[i] = n`. -/
def insSpliceLoop (u : List Nat) (nid : Nat) (st : Store) : Nat → Store
  | 0 => st
  | i + 1 =>
    let st' := insSpliceLoop u nid st i
    let ui := u.getD i 0
    setForward (setForward st' nid i (forwardN st' ui i)) ui i (some nid)

/-- `SkipList_Insert` with the chosen node level `nl` given explicitly
(the result of `Choose_Random_Level` in the C code). -/
def SkipList_Insert_h (sl : SL) (k m : Int) (nl : Nat) : SL :=
  let s1 := Search_by_Key sl k
  let sl1 := s1.1
  let grow := decide (sl1.level < nl)
  let st2 := if grow then growLoop sl1.length sl1.store sl1.level (nl - sl1.level)
             else sl1.store
  let u := if grow then s1.2.1 ++ List.replicate (nl - sl1.level) 0 else s1.2.1
  let d := if grow then s1.2.2 ++ List.replicate (nl - sl1.level) (0 : Int) else s1.2.2
  let lvl2 := if grow then nl else sl1.level
  let nid := sl1.nextId
  let st3 := (nid, MakeNode nl k m) :: st2
  let d0 := d.getD 0 0
  let st4 := insDiffLoop u d d0 nid st3 nl
  let st5 := insBumpLoop u st4 nl (lvl2 - nl)
  let st6 := insSpliceLoop u nid st5 nl
  { store := st6, finger := sl1.finger, distance := sl1.distance,
    level := lvl2, length := sl1.length + 1, nextId := nid + 1 }

/-- `SkipList_Insert` proper: consumes the shared `Current_Random_Level`
counter. -/
def SkipList_Insert (g : Nat) (sl : SL) (k m : Int) : Nat × SL :=
  let c := Choose_Random_Level g
  (c.2, SkipList_Insert_h sl k m c.1)

/-- The unlink loop of `SkipList_Delete`, over levels `0 .. c-1`:
levels whose forward pointer does not hit the deleted node lose one unit
of span; levels that point at it are spliced around it. -/
def delLoop (u : List Nat) (nid : Nat) (st : Store) : Nat → Store
  | 0 => st
  | i + 1 =>
    let st' := delLoop u nid st i
    let ui := u.getD i 0
    if forwardN st' ui i = some nid then
      setForward (setDiff st' ui i (diffN st' ui i + diffN st' nid i - 1)) ui i
        (forwardN st' nid i)
    else
      setDiff st' ui i (diffN st' ui i - 1)

/-- The level-shrink loop of `SkipList_Delete`:
`while (level > 1 && header->forward[level-1] == NULL) level--`. -/
def shrinkLoop (st : Store) : Nat → Nat
  | 0 => 0
  | 1 => 1
  | l + 2 => if forwardN st 0 (l + 1) = none then shrinkLoop st (l + 1) else l + 2

/-- `SkipList_Delete`: removes the first node with key equal to `k`, if
any, and returns the new state together with the removal count. -/
def SkipList_Delete (sl : SL) (k : Int) : SL × Int :=
  let s1 := Search_by_Key sl k
  let sl1 := s1.1
  let u := s1.2.1
  match forwardN sl1.store (u.getD 0 0) 0 with
  | none => (sl1, 0)
  | some nid =>
    if cmpKO (keyN sl1.store nid) k = 0 then
      let st2 := delLoop u nid sl1.store sl1.level
      let st3 := st2.filter (fun p => decide (p.1 ≠ nid))
      let lvl := shrinkLoop st3 sl1.level
      ({ store := st3, finger := sl1.finger, distance := sl1.distance,
         level := lvl, length := sl1.length - 1, nextId := sl1.nextId }, 1)
    else (sl1, 0)

/-- `SkipList_Search`: data of the member with key `k`, or `NULL`.  Also
returns the post-search state since the search writes the cache. -/
def SkipList_Search (sl : SL) (k : Int) : Option Int × SL :=
  let s1 := Search_by_Key sl k
  let sl1 := s1.1
  let f0 := s1.2.1.getD 0 0
  match forwardN sl1.store f0 0 with
  | none => (none, sl1)
  | some nid =>
    if cmpK k (keyN sl1.store nid) ≠ 0 then (none, sl1)
    else (some (dataN sl1.store nid), sl1)

/-- The walk of `SkipList_Iterate`, collecting the `(key, data)` pairs
passed to the visitor, in order. -/
def iterLoop (st : Store) : Nat → Nat → List (Option Int × Int)
  | 0, _ => []
  | fuel + 1, f =>
    match forwardN st f 0 with
    | none => []
    | some nxt => (keyN st nxt, dataN st nxt) :: iterLoop st fuel nxt

/-- `SkipList_Iterate`: the sequence of visitor calls. -/
def SkipList_Iterate (sl : SL) : List (Option Int × Int) :=
  iterLoop sl.store sl.store.length 0

/-- `SkipList_Length`. -/
def SkipList_Length (sl : SL) : Int := sl.length

/-- `SkipList_Indexed_Key`.  Result encoding: `some (some k)` - returned
the key `k`; `some none` - returned `NULL` (not found); `none` - the C
code dereferenced a `NULL` `forward[0]` pointer (undefined behaviour). -/
def SkipList_Indexed_Key (sl : SL) (n : Int) : Option (Option Int) × SL :=
  let r := Search_by_Index sl n
  if r.2.2 then
    match forwardN r.1.store (r.2.1.getD 0 0) 0 with
    | none => (none, r.1)
    | some nid => (some (keyN r.1.store nid), r.1)
  else (some none, r.1)

/-- `SkipList_Indexed_Member`, with the same result encoding as
`SkipList_Indexed_Key`. -/
def SkipList_Indexed_Member (sl : SL) (n : Int) : Option (Option Int) × SL :=
  let r := Search_by_Index sl n
  if r.2.2 then
    match forwardN r.1.store (r.2.1.getD 0 0) 0 with
    | none => (none, r.1)
    | some nid => (some (some (dataN r.1.store nid)), r.1)
  else (some none, r.1)

/-- `SkipList_Indexed_Update`: `none` marks the NULL dereference. -/
def SkipList_Indexed_Update (sl : SL) (n : Int) (d : Int) : Option SL :=
  let r := Search_by_Index sl n
  if r.2.2 then
    match forwardN r.1.store (r.2.1.getD 0 0) 0 with
    | none => none
    | some nid => some { r.1 with store := setData r.1.store nid d }
  else some r.1

/-- The level-0 chain of node ids reachable from the header, in order. -/
def spineLoop (st : Store) : Nat → Nat → List Nat
  | 0, _ => []
  | fuel + 1, f =>
    match forwardN st f 0 with
    | none => []
    | some nxt => nxt :: spineLoop st fuel nxt

/-- The spine of a skip list: its elements in level-0 order. -/
def spine (sl : SL) : List Nat := spineLoop sl.store sl.store.length 0

/-- Pair every element of a list with its 1-based position. -/
def numberFrom (r : Int) : List Nat → List (Nat × Int)
  | [] => []
  | x :: xs => (x, r) :: numberFrom (r + 1) xs

/-- The 1-based rank of node `y` in the skip list. -/
def rankOf (sl : SL) (y : Nat) : Int := ((numberFrom 1 (spine sl)).lookup y).getD 0

/-- Walk the level-`i` chain from the header, accumulating `diff[i]` of
every node passed, and return the accumulated sum upon arriving at `y`
(so the sum covers the header up to and including the predecessor of `y`
on that chain); `none` if `y` is never reached. -/
def spanWalk (st : Store) (i y : Nat) : Nat → Nat → Int → Option Int
  | 0, _, _ => none
  | fuel + 1, cur, acc =>
    if cur = y then some acc
    else
      match forwardN st cur i with
      | none => none
      | some nxt => spanWalk st i y fuel nxt (acc + diffN st cur i)

/-- States reachable from `SkipList_Create` by any sequence of
`SkipList_Insert` and `SkipList_Delete` calls; the inserted node level is
any value `Choose_Random_Level` can produce. -/
inductive Reach : SL → Prop where
  | create : Reach SkipList_Create
  | insert (sl : SL) (k m : Int) (nl : Nat) :
      Reach sl → 1 ≤ nl → nl ≤ MAX_LEVEL → Reach (SkipList_Insert_h sl k m nl)
  | delete (sl : SL) (k : Int) : Reach sl → Reach (SkipList_Delete sl k).1

/-- Modelled from the spec: the same rank search "run from the header with
no cache" (the cached finger/distance arrays are never consulted, and the
cache is observation-only).  Used to compare against `Search_by_Index`. -/
def searchIAuxFromHeader (st : Store) (n : Int) : Nat → Nat → Int → Nat × Int
  | 0, f, p => (f, p)
  | cur + 1, f, p =>
    let fin := advanceI st n cur (st.length + 1) f p
    searchIAuxFromHeader st n cur fin.1 fin.2

/-- Modelled from the spec: `Search_by_Index` without the cache seed;
returns the level-0 finger and the found flag `(n - place) == 1`. -/
def Search_by_Index_fromHeader (sl : SL) (n : Int) : Nat × Bool :=
  let r := searchIAuxFromHeader sl.store n sl.level 0 0
  (r.1, n - r.2 = 1)

/-- Claim C1 as stated: along every level-`i` chain, the accumulated span
from the header up to and including the predecessor of `y` equals the
1-based rank of `y` minus 1. -/
def C1_claim (sl : SL) : Prop :=
  ∀ i < sl.level, ∀ y ∈ spine sl, i < heightN sl.store y →
    spanWalk sl.store i y (sl.store.length + 1) 0 0 = some (rankOf sl y - 1)

instance C1_claim_decidable (sl : SL) : Decidable (C1_claim sl) := by
  unfold C1_claim
  infer_instance

/-- One element `(10, 10)`, inserted with the shared counter at 0
(so the node has level 1). -/
def oneElem : SL := (SkipList_Insert 0 SkipList_Create 10 10).2

/-- Two members with the equal key 10 (data 1 then data 2), inserted with
the shared counter starting at 0. -/
def dupPair : SL :=
  (SkipList_Insert 1 (SkipList_Insert 0 SkipList_Create 10 1).2 10 2).2

/-- Keys 10, 20, 30, 40 inserted in ascending order with the shared
counter starting at 0 (node levels 1, 2, 1, 3). -/
def fourAsc : SL :=
  (SkipList_Insert 3 (SkipList_Insert 2 (SkipList_Insert 1
    (SkipList_Insert 0 SkipList_Create 10 10).2 20 20).2 30 30).2 40 40).2

/-- Container A after inserting keys 1 and 2, with no other container
active: the counter runs 0, 1, so the two nodes get levels 1 and 2. -/
def A_alone : SL :=
  (SkipList_Insert 1 (SkipList_Insert 0 SkipList_Create 1 1).2 2 2).2

/-- The same two inserts into container A, but with a second container B
performing one insert in between; B's insert advances the shared counter
from 1 to 2, so A's second node gets level 1 instead of 2. -/
def A_shared : SL :=
  (SkipList_Insert (SkipList_Insert 1 SkipList_Create 5 5).1
    (SkipList_Insert 0 SkipList_Create 1 1).2 2 2).2

/-- C1 (counterexample): in the one-element state, at level 0 the span
accumulated from the header up to the predecessor of the sole node is 1,
but the claim demands rank - 1 = 0; so the invariant as stated (with the
"minus 1") already fails after a single insertion. -/
theorem C1_counterexample : ¬ C1_claim oneElem := by decide

/-- C2: deleting key 10 from a list holding two members with key 10
removes only one of them: the call returns 1, one matching member
remains, and a subsequent search still finds key 10.  This contradicts
the code's own contract "Deletes all members of the skip list whose key
matches k." -/
theorem C2_delete_leaves_duplicate :
    (SkipList_Delete dupPair 10).2 = 1 ∧
    (SkipList_Delete dupPair 10).1.length = 1 ∧
    (SkipList_Search (SkipList_Delete dupPair 10).1 10).1 = some 1 := by decide

/-- C3: on the state reached by inserting 10, 20, 30, 40 (counter from
0), iteration yields 10, 20, 30, 40, so the rank-2 element is 20 - yet
`SkipList_Indexed_Key` at rank 2 returns 10.  The stale initial
`distance` cache entry (1, with the header at rank 0) corrupts
`Search_by_Index` at the level that was freshly activated by the last
insert. -/
theorem C3_indexed_key_mismatch :
    (SkipList_Iterate fourAsc).map Prod.fst = [some 10, some 20, some 30, some 40] ∧
    (SkipList_Indexed_Key fourAsc 2).1 = some (some 10) := by decide

/-- C5: on the freshly created (empty) container, `Search_by_Index`
seeded from the cached finger/distance arrays reports rank 2 as found,
while the same search run from the header with no cache reports not
found; the cache reuse changes the computed result, not just its cost. -/
theorem C5_cache_changes_result :
    (Search_by_Index SkipList_Create 2).2.2 = true ∧
    (Search_by_Index_fromHeader SkipList_Create 2).2 = false ∧
    SkipList_Create.length = 0 := by decide

/-- C6 (counterexample): two inserts into container A assign its second
node level 2 when A is alone, but level 1 when another container B
performs one insert in between - the level sequence assigned to A's
inserts is changed by operations on B, because `Current_Random_Level`
is a process-wide `static`, not per-container state. -/
theorem C6_counterexample :
    A_alone.level = 2 ∧ A_shared.level = 1 ∧ A_alone.level ≠ A_shared.level := by decide

/-- C6 (amended): the level-assignment counter is a single process-wide
generator: every insert consumes one tick of the shared counter, and the
assigned level is a pure function of that counter - 1 plus the number of
consecutive set low-order bits, capped at `MAX_LEVEL` - always lying in
`[1, MAX_LEVEL]`.  Two containers therefore share one level sequence
rather than owning independent ones. -/
theorem C6_shared_counter (g : Nat) (sl : SL) (k m : Int) :
    1 ≤ (Choose_Random_Level g).1 ∧ (Choose_Random_Level g).1 ≤ MAX_LEVEL ∧
    (Choose_Random_Level g).2 = g + 1 ∧
    (SkipList_Insert g sl k m).1 = g + 1 ∧
    (SkipList_Insert g sl k m).2 =
      SkipList_Insert_h sl k m (min (countLow1 g + 1) MAX_LEVEL) := by
  refine ⟨?_, ?_, rfl, rfl, rfl⟩
  · simp [Choose_Random_Level, MAX_LEVEL]
  · simp [Choose_Random_Level]

/-- C8: on a one-element list, the out-of-range rank 2 makes
`Search_by_Index` report "found" (contradicting its contract that it
returns 1 exactly when the rank is present), whereupon
`SkipList_Indexed_Key` and `SkipList_Indexed_Update` dereference the
NULL `forward[0]` pointer (the `none` results) instead of returning the
not-found outcome / leaving the list unchanged.  Rank 0 does produce the
documented not-found result. -/
theorem C8_out_of_range_crash :
    oneElem.length = 1 ∧
    (Search_by_Index oneElem 2).2.2 = true ∧
    (SkipList_Indexed_Key oneElem 2).1 = none ∧
    SkipList_Indexed_Update oneElem 2 99 = none ∧
    (SkipList_Indexed_Key oneElem 0).1 = some none := by decide

/-- Key of a node, unwrapped (real nodes always carry `some`; 0 is only
the fallback for the header, whose key is never compared on well-formed
states). -/
def keyD (st : Store) (x : Nat) : Int := (keyN st x).getD 0

/-- The level-`i` chain: the rank-annotated members whose height exceeds
`i`, in level-0 order. -/
def chainF (st : Store) (i : Nat) (l : List (Nat × Int)) : List (Nat × Int) :=
  l.filter (fun p => decide (i < heightN st p.1))

/-- Successive forward links along level `i`, starting at node `x` and
running through the listed nodes in order. -/
def linkedR (st : Store) (i : Nat) : Nat → List (Nat × Int) → Prop
  | _, [] => True
  | x, y :: rest => forwardN st x i = some y.1 ∧ linkedR st i y.1 rest

/-- Successive span values along level `i`: each node's `diff[i]` is the
rank difference to its listed successor. -/
def spansR (st : Store) (i : Nat) : Nat × Int → List (Nat × Int) → Prop
  | _, [] => True
  | xr, y :: rest => diffN st xr.1 i = y.2 - xr.2 ∧ spansR st i y rest

/-- Last node id of `x` followed by the listed nodes. -/
def lastIdOf (x : Nat) (l : List (Nat × Int)) : Nat := (l.map Prod.fst).getLastD x

/-- Last rank-annotated node of `xr` followed by the listed nodes. -/
def lastPairOf (xr : Nat × Int) (l : List (Nat × Int)) : Nat × Int := l.getLastD xr

theorem lastIdOf_nil (x : Nat) : lastIdOf x [] = x := rfl

theorem lastIdOf_cons (x : Nat) (a : Nat × Int) (l : List (Nat × Int)) :
    lastIdOf x (a :: l) = lastIdOf a.1 l := by
  unfold lastIdOf
  rw [List.map_cons]
  exact List.getLastD_cons x a.1 (l.map Prod.fst)

theorem lastPairOf_nil (xr : Nat × Int) : lastPairOf xr [] = xr := rfl

theorem lastPairOf_cons (xr : Nat × Int) (a : Nat × Int) (l : List (Nat × Int)) :
    lastPairOf xr (a :: l) = lastPairOf a l :=
  List.getLastD_cons xr a l

theorem lastIdOf_eq_lastPairOf (x : Nat) (r : Int) (l : List (Nat × Int)) :
    lastIdOf x l = (lastPairOf (x, r) l).1 := by
  induction l generalizing x r with
  | nil => rfl
  | cons a t ih => rw [lastIdOf_cons, lastPairOf_cons, ih a.1 a.2]

theorem lastPairOf_mem (xr : Nat × Int) (l : List (Nat × Int)) :
    lastPairOf xr l = xr ∨ lastPairOf xr l ∈ l := by
  induction l generalizing xr with
  | nil => exact Or.inl rfl
  | cons a t ih =>
    rw [lastPairOf_cons]
    rcases ih a with h | h
    · exact Or.inr (by rw [h]; exact List.mem_cons_self a t)
    · exact Or.inr (List.mem_cons_of_mem a h)

theorem lastIdOf_append (x : Nat) (A B : List (Nat × Int)) :
    lastIdOf x (A ++ B) = lastIdOf (lastIdOf x A) B := by
  induction A generalizing x with
  | nil => rfl
  | cons a t ih => rw [List.cons_append, lastIdOf_cons, lastIdOf_cons, ih]

theorem lastPairOf_append (xr : Nat × Int) (A B : List (Nat × Int)) :
    lastPairOf xr (A ++ B) = lastPairOf (lastPairOf xr A) B := by
  induction A generalizing xr with
  | nil => rfl
  | cons a t ih => rw [List.cons_append, lastPairOf_cons, lastPairOf_cons, ih]

theorem linkedR_append (st : Store) (i : Nat) (x : Nat) (A B : List (Nat × Int)) :
    linkedR st i x (A ++ B) ↔ linkedR st i x A ∧ linkedR st i (lastIdOf x A) B := by
  induction A generalizing x with
  | nil => simp [linkedR, lastIdOf_nil]
  | cons a t ih =>
    rw [List.cons_append]
    show (forwardN st x i = some a.1 ∧ _) ↔ (forwardN st x i = some a.1 ∧ _) ∧ _
    rw [ih, lastIdOf_cons, and_assoc]

theorem spansR_append (st : Store) (i : Nat) (xr : Nat × Int) (A B : List (Nat × Int)) :
    spansR st i xr (A ++ B) ↔ spansR st i xr A ∧ spansR st i (lastPairOf xr A) B := by
  induction A generalizing xr with
  | nil => simp [spansR, lastPairOf_nil]
  | cons a t ih =>
    rw [List.cons_append]
    show (diffN st xr.1 i = a.2 - xr.2 ∧ _) ↔ (diffN st xr.1 i = a.2 - xr.2 ∧ _) ∧ _
    rw [ih, lastPairOf_cons, and_assoc]

theorem linkedR_congr {st st' : Store} {i : Nat} {x : Nat} {l : List (Nat × Int)}
    (hf : ∀ y, (y = x ∨ ∃ p ∈ l, p.1 = y) → forwardN st' y i = forwardN st y i)
    (h : linkedR st i x l) : linkedR st' i x l := by
  induction l generalizing x with
  | nil => trivial
  | cons a t ih =>
    obtain ⟨h1, h2⟩ := h
    refine ⟨(hf x (Or.inl rfl)).trans h1, ih ?_ h2⟩
    intro y hy
    apply hf
    rcases hy with rfl | ⟨p, hp, hpe⟩
    · exact Or.inr ⟨a, List.mem_cons_self a t, rfl⟩
    · exact Or.inr ⟨p, List.mem_cons_of_mem a hp, hpe⟩

theorem spansR_congr {st st' : Store} {i : Nat} {xr : Nat × Int} {l : List (Nat × Int)}
    (hf : ∀ y, (y = xr.1 ∨ ∃ p ∈ l, p.1 = y) → diffN st' y i = diffN st y i)
    (h : spansR st i xr l) : spansR st' i xr l := by
  induction l generalizing xr with
  | nil => trivial
  | cons a t ih =>
    obtain ⟨h1, h2⟩ := h
    refine ⟨(hf xr.1 (Or.inl rfl)).trans h1, ih ?_ h2⟩
    intro y hy
    apply hf
    rcases hy with rfl | ⟨p, hp, hpe⟩
    · exact Or.inr ⟨a, List.mem_cons_self a t, rfl⟩
    · exact Or.inr ⟨p, List.mem_cons_of_mem a hp, hpe⟩

theorem lookup_cons_store (y a1 : Nat) (a2 : Node) (t : Store) :
    List.lookup y ((a1, a2) :: t) = if y = a1 then some a2 else List.lookup y t := by
  by_cases h : y = a1
  · simp [List.lookup, h]
  · have hb : (y == a1) = false := beq_false_of_ne h
    simp [List.lookup, hb, h]

theorem lookup_storeSet (st : Store) (x : Nat) (nd : Node) (y : Nat) :
    List.lookup y (storeSet st x nd) =
      if y = x then (List.lookup x st).map (fun _ => nd) else List.lookup y st := by
  induction st with
  | nil => by_cases h : y = x <;> simp [storeSet, List.lookup, h]
  | cons a t ih =>
    obtain ⟨a1, a2⟩ := a
    unfold storeSet at ih ⊢
    rw [List.map_cons]
    by_cases hax : a1 = x
    · subst hax
      by_cases hyx : y = a1
      · subst hyx
        simp [lookup_cons_store, ih]
      · simp [lookup_cons_store, hyx, ih]
    · have hifa : (if (a1, a2).1 = x then (x, nd) else (a1, a2)) = (a1, a2) := if_neg hax
      rw [hifa]
      have hxa : ¬ x = a1 := fun h => hax h.symm
      by_cases hyx : y = x
      · subst hyx
        have hya : ¬ y = a1 := fun h => hax h.symm
        simp [lookup_cons_store, hya, hxa, ih]
      · by_cases hya : y = a1
        · subst hya
          simp [lookup_cons_store, hyx]
        · simp [lookup_cons_store, hyx, hya, ih]

theorem nodeGet_storeSet (st : Store) (x : Nat) (nd : Node) (y : Nat) :
    nodeGet (storeSet st x nd) y =
      if y = x ∧ (List.lookup x st).isSome = true then nd else nodeGet st y := by
  unfold nodeGet
  rw [lookup_storeSet]
  by_cases h : y = x
  · subst h
    cases hl : List.lookup y st <;> simp [hl]
  · simp [h]

theorem getD_set_list {α : Type} (l : List α) (i j : Nat) (v d : α) :
    (l.set i v).getD j d = if i = j ∧ i < l.length then v else l.getD j d := by
  by_cases hij : i = j
  · subst hij
    by_cases hlen : i < l.length
    · simp [List.getD, List.getElem?_set_self, hlen]
    · rw [List.set_eq_of_length_le (Nat.le_of_not_lt hlen)]
      simp [hlen]
  · simp [List.getD, List.getElem?_set_ne hij, hij]

theorem getD_append_left {α : Type} (l m : List α) (i : Nat) (d : α) (h : i < l.length) :
    (l ++ m).getD i d = l.getD i d := by
  simp [List.getD, List.getElem?_append, h]

theorem getD_append_right {α : Type} (l m : List α) (d : α) :
    (l ++ m).getD l.length d = m.getD 0 d := by
  simp [List.getD, List.getElem?_append]

theorem getD_replicate {α : Type} (n i : Nat) (v d : α) (h : i < n) :
    (List.replicate n v).getD i d = v := by
  simp [List.getD, List.getElem?_replicate, h]

theorem isSome_lookup_storeSet (st : Store) (x : Nat) (nd : Node) (y : Nat) :
    (List.lookup y (storeSet st x nd)).isSome = (List.lookup y st).isSome := by
  rw [lookup_storeSet]
  by_cases h : y = x
  · subst h; cases List.lookup y st <;> simp
  · simp [h]

theorem length_storeSet (st : Store) (x : Nat) (nd : Node) :
    (storeSet st x nd).length = st.length := by
  simp [storeSet]

theorem map_fst_storeSet (st : Store) (x : Nat) (nd : Node) :
    (storeSet st x nd).map Prod.fst = st.map Prod.fst := by
  unfold storeSet
  rw [List.map_map]
  apply List.map_congr_left
  intro p _
  by_cases h : p.1 = x <;> simp [h]

theorem nodeGet_setDiff (st : Store) (x i : Nat) (v : Int) (y : Nat) :
    nodeGet (setDiff st x i v) y =
      if y = x ∧ (List.lookup x st).isSome = true then
        { nodeGet st x with diff := (nodeGet st x).diff.set i v }
      else nodeGet st y := by
  unfold setDiff
  rw [nodeGet_storeSet]

theorem nodeGet_setForward (st : Store) (x i : Nat) (v : Option Nat) (y : Nat) :
    nodeGet (setForward st x i v) y =
      if y = x ∧ (List.lookup x st).isSome = true then
        { nodeGet st x with forward := (nodeGet st x).forward.set i v }
      else nodeGet st y := by
  unfold setForward
  rw [nodeGet_storeSet]

theorem keyN_setDiff (st : Store) (x i : Nat) (v : Int) (y : Nat) :
    keyN (setDiff st x i v) y = keyN st y := by
  unfold keyN
  rw [nodeGet_setDiff]
  split
  · next h => rw [h.1]
  · rfl

theorem dataN_setDiff (st : Store) (x i : Nat) (v : Int) (y : Nat) :
    dataN (setDiff st x i v) y = dataN st y := by
  unfold dataN
  rw [nodeGet_setDiff]
  split
  · next h => rw [h.1]
  · rfl

theorem heightN_setDiff (st : Store) (x i : Nat) (v : Int) (y : Nat) :
    heightN (setDiff st x i v) y = heightN st y := by
  unfold heightN
  rw [nodeGet_setDiff]
  split
  · next h => rw [h.1]
  · rfl

theorem forwardN_setDiff (st : Store) (x i : Nat) (v : Int) (y j : Nat) :
    forwardN (setDiff st x i v) y j = forwardN st y j := by
  unfold forwardN
  rw [nodeGet_setDiff]
  split
  · next h => rw [h.1]
  · rfl

theorem fwdLen_setDiff (st : Store) (x i : Nat) (v : Int) (y : Nat) :
    (nodeGet (setDiff st x i v) y).forward.length = (nodeGet st y).forward.length := by
  rw [nodeGet_setDiff]
  split
  · next h => rw [h.1]
  · rfl

theorem diffLen_setDiff (st : Store) (x i : Nat) (v : Int) (y : Nat) :
    (nodeGet (setDiff st x i v) y).diff.length = (nodeGet st y).diff.length := by
  rw [nodeGet_setDiff]
  split
  · next h => simp [h.1]
  · rfl

theorem diffN_setDiff (st : Store) (x i : Nat) (v : Int) (y j : Nat) :
    diffN (setDiff st x i v) y j =
      if y = x ∧ (List.lookup x st).isSome = true ∧ i = j ∧ i < (nodeGet st x).diff.length
      then v else diffN st y j := by
  unfold diffN
  rw [nodeGet_setDiff]
  by_cases h1 : y = x ∧ (List.lookup x st).isSome = true
  · rw [if_pos h1]
    show (List.set _ i v).getD j 0 = _
    rw [getD_set_list]
    by_cases h2 : i = j ∧ i < (nodeGet st x).diff.length
    · rw [if_pos h2, if_pos ⟨h1.1, h1.2, h2⟩]
    · rw [if_neg h2, if_neg (by tauto), h1.1]
  · rw [if_neg h1, if_neg (by tauto)]

theorem keyN_setForward (st : Store) (x i : Nat) (v : Option Nat) (y : Nat) :
    keyN (setForward st x i v) y = keyN st y := by
  unfold keyN
  rw [nodeGet_setForward]
  split
  · next h => rw [h.1]
  · rfl

theorem dataN_setForward (st : Store) (x i : Nat) (v : Option Nat) (y : Nat) :
    dataN (setForward st x i v) y = dataN st y := by
  unfold dataN
  rw [nodeGet_setForward]
  split
  · next h => rw [h.1]
  · rfl

theorem heightN_setForward (st : Store) (x i : Nat) (v : Option Nat) (y : Nat) :
    heightN (setForward st x i v) y = heightN st y := by
  unfold heightN
  rw [nodeGet_setForward]
  split
  · next h => rw [h.1]
  · rfl

theorem diffN_setForward (st : Store) (x i : Nat) (v : Option Nat) (y j : Nat) :
    diffN (setForward st x i v) y j = diffN st y j := by
  unfold diffN
  rw [nodeGet_setForward]
  split
  · next h => rw [h.1]
  · rfl

theorem diffLen_setForward (st : Store) (x i : Nat) (v : Option Nat) (y : Nat) :
    (nodeGet (setForward st x i v) y).diff.length = (nodeGet st y).diff.length := by
  rw [nodeGet_setForward]
  split
  · next h => rw [h.1]
  · rfl

theorem fwdLen_setForward (st : Store) (x i : Nat) (v : Option Nat) (y : Nat) :
    (nodeGet (setForward st x i v) y).forward.length = (nodeGet st y).forward.length := by
  rw [nodeGet_setForward]
  split
  · next h => simp [h.1]
  · rfl

theorem forwardN_setForward (st : Store) (x i : Nat) (v : Option Nat) (y j : Nat) :
    forwardN (setForward st x i v) y j =
      if y = x ∧ (List.lookup x st).isSome = true ∧ i = j ∧ i < (nodeGet st x).forward.length
      then v else forwardN st y j := by
  unfold forwardN
  rw [nodeGet_setForward]
  by_cases h1 : y = x ∧ (List.lookup x st).isSome = true
  · rw [if_pos h1]
    show (List.set _ i v).getD j none = _
    rw [getD_set_list]
    by_cases h2 : i = j ∧ i < (nodeGet st x).forward.length
    · rw [if_pos h2, if_pos ⟨h1.1, h1.2, h2⟩]
    · rw [if_neg h2, if_neg (by tauto), h1.1]
  · rw [if_neg h1, if_neg (by tauto)]

theorem isSome_lookup_setDiff (st : Store) (x i : Nat) (v : Int) (y : Nat) :
    (List.lookup y (setDiff st x i v)).isSome = (List.lookup y st).isSome :=
  isSome_lookup_storeSet _ _ _ _

theorem isSome_lookup_setForward (st : Store) (x i : Nat) (v : Option Nat) (y : Nat) :
    (List.lookup y (setForward st x i v)).isSome = (List.lookup y st).isSome :=
  isSome_lookup_storeSet _ _ _ _

theorem length_setDiff (st : Store) (x i : Nat) (v : Int) :
    (setDiff st x i v).length = st.length := length_storeSet _ _ _

theorem length_setForward (st : Store) (x i : Nat) (v : Option Nat) :
    (setForward st x i v).length = st.length := length_storeSet _ _ _

theorem map_fst_setDiff (st : Store) (x i : Nat) (v : Int) :
    (setDiff st x i v).map Prod.fst = st.map Prod.fst := map_fst_storeSet _ _ _

theorem map_fst_setForward (st : Store) (x i : Nat) (v : Option Nat) :
    (setForward st x i v).map Prod.fst = st.map Prod.fst := map_fst_storeSet _ _ _

/-- Structural facts about the level-`i` chain of a well-formed skip
list: the chain members are linked in order by `forward[i]` starting at
the header, the chain ends with a null forward pointer, each member's
`diff[i]` is the rank difference to its chain successor, and the last
member's `diff[i]` runs to `length + 1`. -/
def chainWF (st : Store) (len : Int) (i : Nat) (spR : List (Nat × Int)) : Prop :=
  linkedR st i 0 (chainF st i spR) ∧
  forwardN st (lastIdOf 0 (chainF st i spR)) i = none ∧
  spansR st i (0, 0) (chainF st i spR) ∧
  diffN st (lastPairOf (0, 0) (chainF st i spR)).1 i =
    len + 1 - (lastPairOf (0, 0) (chainF st i spR)).2

/-- Validity of one cached finger/distance pair: either the header, or a
member of the level-`i` chain paired with its true rank. -/
def cacheWF (st : Store) (i : Nat) (spR : List (Nat × Int)) (fid : Nat) (dist : Int) : Prop :=
  fid = 0 ∨ (fid, dist) ∈ chainF st i spR

/-- Well-formedness of a skip list with spine `sp` (its member ids in
level-0 order). -/
structure WF (sl : SL) (sp : List Nat) : Prop where
  ids_nodup : (sl.store.map Prod.fst).Nodup
  dom : ∀ x : Nat, (List.lookup x sl.store).isSome = true ↔ x = 0 ∨ x ∈ sp
  hdr_key : keyN sl.store 0 = none
  hdr_height : heightN sl.store 0 = MAX_LEVEL
  hdr_fwd_len : (nodeGet sl.store 0).forward.length = MAX_LEVEL
  hdr_diff_len : (nodeGet sl.store 0).diff.length = MAX_LEVEL
  sp_nodup : (0 :: sp).Nodup
  sp_key : ∀ y ∈ sp, keyN sl.store y = some (keyD sl.store y)
  sp_hpos : ∀ y ∈ sp, 1 ≤ heightN sl.store y
  sp_hle : ∀ y ∈ sp, heightN sl.store y ≤ sl.level
  sp_fwd_len : ∀ y ∈ sp, (nodeGet sl.store y).forward.length = heightN sl.store y
  sp_diff_len : ∀ y ∈ sp, (nodeGet sl.store y).diff.length = heightN sl.store y
  level_pos : 1 ≤ sl.level
  level_le : sl.level ≤ MAX_LEVEL
  len_eq : sl.length = (sp.length : Int)
  sorted : (sp.map (keyD sl.store)).Pairwise (· ≤ ·)
  chains : ∀ i < sl.level, chainWF sl.store sl.length i (numberFrom 1 sp)
  fwd_high : ∀ i, sl.level ≤ i → i < MAX_LEVEL → forwardN sl.store 0 i = none
  finger_len : sl.finger.length = MAX_LEVEL
  distance_len : sl.distance.length = MAX_LEVEL
  cache : ∀ i < sl.level,
    cacheWF sl.store i (numberFrom 1 sp) (sl.finger.getD i 0) (sl.distance.getD i 0)
  cache_high : ∀ i, sl.level ≤ i → i < MAX_LEVEL → sl.finger.getD i 0 = 0
  id_lt : ∀ y ∈ sp, y < sl.nextId
  id_pos : 0 < sl.nextId

theorem WF_create : WF SkipList_Create [] := by
  refine ⟨?_, ?_, ?_, ?_, ?_, ?_, ?_, ?_, ?_, ?_, ?_, ?_, ?_, ?_, ?_, ?_, ?_, ?_, ?_, ?_,
    ?_, ?_, ?_, ?_⟩
  · decide
  · intro x
    show (List.lookup x [(0, headerNode)]).isSome = true ↔ x = 0 ∨ x ∈ ([] : List Nat)
    rw [lookup_cons_store]
    by_cases h : x = 0 <;> simp [h, List.lookup]
  · decide
  · decide
  · decide
  · decide
  · decide
  · intro y hy; cases hy
  · intro y hy; cases hy
  · intro y hy; cases hy
  · intro y hy; cases hy
  · intro y hy; cases hy
  · decide
  · decide
  · decide
  · simp
  · intro i hi
    have h0 : i = 0 := Nat.lt_one_iff.mp hi
    subst h0
    exact ⟨trivial, by decide, trivial, by decide⟩
  · intro i h1 h2
    show forwardN SkipList_Create.store 0 i = none
    have : ∀ j : Nat, forwardN SkipList_Create.store 0 j = none := by
      intro j
      show (List.replicate MAX_LEVEL (none : Option Nat)).getD j none = none
      by_cases hj : j < MAX_LEVEL
      · exact getD_replicate _ _ _ _ hj
      · simp [List.getD, List.getElem?_replicate, hj]
    exact this i
  · decide
  · decide
  · intro i hi
    have h0 : i = 0 := Nat.lt_one_iff.mp hi
    subst h0
    exact Or.inl (by decide)
  · intro i h1 h2
    show (List.replicate MAX_LEVEL 0).getD i 0 = 0
    by_cases hj : i < MAX_LEVEL
    · exact getD_replicate _ _ _ _ hj
    · simp [List.getD, List.getElem?_replicate, hj]
  · intro y hy; cases hy
  · decide

theorem Member_Compare_pos_iff (k b : Int) : Member_Compare k b > 0 ↔ b < k := by
  unfold Member_Compare
  split_ifs with h1 h2
  · constructor
    · intro h; exact absurd h (by decide)
    · intro h; omega
  · constructor
    · intro h; exact absurd h (by decide)
    · intro h; omega
  · constructor
    · intro h; omega
    · intro h; omega

theorem Member_Compare_eq_zero_iff (k b : Int) : Member_Compare k b = 0 ↔ k = b := by
  unfold Member_Compare
  split_ifs with h1 h2
  · constructor
    · intro h; exact absurd h (by decide)
    · intro h; omega
  · constructor
    · intro h; omega
    · intro h; rfl
  · constructor
    · intro h; exact absurd h (by decide)
    · intro h; omega

theorem cmpK_some (k b : Int) : cmpK k (some b) = Member_Compare k b := rfl

theorem cmpKO_some (a k : Int) : cmpKO (some a) k = Member_Compare a k := rfl

theorem map_fst_numberFrom (r : Int) (sp : List Nat) :
    (numberFrom r sp).map Prod.fst = sp := by
  induction sp generalizing r with
  | nil => rfl
  | cons a t ih => simp [numberFrom, ih]

theorem length_numberFrom (r : Int) (sp : List Nat) :
    (numberFrom r sp).length = sp.length := by
  induction sp generalizing r with
  | nil => rfl
  | cons a t ih => simp [numberFrom, ih]

theorem mem_numberFrom {p : Nat × Int} {r : Int} {sp : List Nat} (h : p ∈ numberFrom r sp) :
    p.1 ∈ sp ∧ r ≤ p.2 ∧ p.2 < r + sp.length := by
  induction sp generalizing r with
  | nil => cases h
  | cons a t ih =>
    rcases List.mem_cons.mp h with h1 | h1
    · subst h1
      refine ⟨List.mem_cons_self a t, le_refl r, ?_⟩
      simp
    · obtain ⟨hm, hlo, hhi⟩ := ih h1
      refine ⟨List.mem_cons_of_mem a hm, by omega, ?_⟩
      simp
      omega

theorem numberFrom_append (r : Int) (l m : List Nat) :
    numberFrom r (l ++ m) = numberFrom r l ++ numberFrom (r + l.length) m := by
  induction l generalizing r with
  | nil => simp [numberFrom]
  | cons a t ih =>
    have harg : r + 1 + (t.length : Int) = r + ((a :: t).length : Int) := by
      push_cast [List.length_cons]
      ring
    show (a, r) :: numberFrom (r + 1) (t ++ m) =
      (a, r) :: (numberFrom (r + 1) t ++ numberFrom (r + ((a :: t).length : Int)) m)
    rw [ih, harg]

theorem chainF_subset {st : Store} {i : Nat} {spR : List (Nat × Int)} {p : Nat × Int}
    (h : p ∈ chainF st i spR) : p ∈ spR ∧ i < heightN st p.1 := by
  have := List.mem_filter.mp h
  exact ⟨this.1, by simpa using this.2⟩

theorem mem_chainF {st : Store} {i : Nat} {spR : List (Nat × Int)} {p : Nat × Int}
    (h1 : p ∈ spR) (h2 : i < heightN st p.1) : p ∈ chainF st i spR :=
  List.mem_filter.mpr ⟨h1, by simpa using h2⟩

theorem chainF_mono {st : Store} {i j : Nat} {spR : List (Nat × Int)} {p : Nat × Int}
    (hij : i ≤ j) (h : p ∈ chainF st j spR) : p ∈ chainF st i spR := by
  obtain ⟨h1, h2⟩ := chainF_subset h
  exact mem_chainF h1 (lt_of_le_of_lt hij h2)

theorem chainF_sublist (st : Store) (i : Nat) (spR : List (Nat × Int)) :
    (chainF st i spR).Sublist spR := List.filter_sublist spR

theorem chainF_nil_of_high (st : Store) (L : Nat) (spR : List (Nat × Int))
    (h : ∀ p ∈ spR, heightN st p.1 ≤ L) : chainF st L spR = [] := by
  rw [chainF, List.filter_eq_nil_iff]
  intro p hp
  simp [Nat.not_lt.mpr (h p hp)]

/-- The level-`i` search finger for key `k`: the last rank-annotated node
on the level-`i` chain whose key is strictly below `k` (the header pair
`(0, 0)` if there is none). -/
def lastLt (st : Store) (k : Int) (i : Nat) (spR : List (Nat × Int)) : Nat × Int :=
  lastPairOf (0, 0) ((chainF st i spR).takeWhile (fun p => decide (keyD st p.1 < k)))

theorem advanceK_spec (st : Store) (k : Int) (i : Nat) (B : List (Nat × Int)) :
    ∀ (A : List (Nat × Int)) (fuel : Nat) (x : Nat) (rx : Int),
      A.length + 1 ≤ fuel →
      linkedR st i x (A ++ B) →
      spansR st i (x, rx) (A ++ B) →
      (∀ p ∈ A, cmpK k (keyN st p.1) > 0) →
      (B = [] → forwardN st (lastIdOf x (A ++ B)) i = none) →
      (∀ b bs, B = b :: bs → ¬ cmpK k (keyN st b.1) > 0) →
      advanceK st k i fuel x rx = lastPairOf (x, rx) A := by
  intro A
  induction A with
  | nil =>
    intro fuel x rx hfuel hlink hspan hA hBnil hBcons
    obtain ⟨f, rfl⟩ : ∃ f, fuel = f + 1 := ⟨fuel - 1, by omega⟩
    rw [lastPairOf_nil]
    cases hfw : forwardN st x i with
    | none => simp [advanceK, hfw]
    | some nxt =>
      cases B with
      | nil =>
        have hn := hBnil rfl
        simp only [List.nil_append, lastIdOf_nil] at hn
        rw [hn] at hfw
        cases hfw
      | cons b bs =>
        obtain ⟨h1, _⟩ := hlink
        rw [hfw] at h1
        have hb : nxt = b.1 := Option.some_inj.mp h1
        subst hb
        have hnc := hBcons b bs rfl
        simp [advanceK, hfw, hnc]
  | cons a t ih =>
    intro fuel x rx hfuel hlink hspan hA hBnil hBcons
    obtain ⟨f, rfl⟩ : ∃ f, fuel = f + 1 := ⟨fuel - 1, by omega⟩
    rw [List.cons_append] at hlink hspan
    obtain ⟨h1, h2⟩ := hlink
    obtain ⟨h3, h4⟩ := hspan
    have hcond : cmpK k (keyN st a.1) > 0 := hA a (List.mem_cons_self a t)
    have hstep : advanceK st k i (f + 1) x rx = advanceK st k i f a.1 (rx + diffN st x i) := by
      simp [advanceK, h1, hcond]
    rw [hstep, h3]
    have hacc : rx + (a.2 - rx) = a.2 := by ring
    rw [hacc, lastPairOf_cons]
    have hfuel' : t.length + 1 ≤ f := by
      simp at hfuel
      omega
    refine ih f a.1 a.2 hfuel' h2 h4 (fun p hp => hA p (List.mem_cons_of_mem a hp)) ?_ hBcons
    intro hB
    have := hBnil hB
    rwa [List.cons_append, lastIdOf_cons] at this

theorem linkedR_split (st : Store) (i : Nat) (x : Nat) (P S : List (Nat × Int)) (s : Nat × Int)
    (h : linkedR st i x (P ++ s :: S)) : linkedR st i s.1 S := by
  rw [linkedR_append] at h
  exact h.2.2

theorem spansR_split (st : Store) (i : Nat) (xr : Nat × Int) (P S : List (Nat × Int))
    (s : Nat × Int) (h : spansR st i xr (P ++ s :: S)) : spansR st i s S := by
  rw [spansR_append] at h
  exact h.2.2

theorem sorted_lt_mem_takeWhile (st : Store) (k : Int) (C : List (Nat × Int))
    (hsorted : C.Pairwise (fun p q => keyD st p.1 ≤ keyD st q.1))
    (s : Nat × Int) (hs : s ∈ C) (hk : keyD st s.1 < k) :
    s ∈ C.takeWhile (fun p => decide (keyD st p.1 < k)) := by
  set P := fun p : Nat × Int => decide (keyD st p.1 < k) with hP
  have hsplit : C.takeWhile P ++ C.dropWhile P = C := List.takeWhile_append_dropWhile P C
  rcases List.mem_append.mp (by rw [hsplit]; exact hs) with h | h
  · exact h
  · exfalso
    cases hD : C.dropWhile P with
    | nil => rw [hD] at h; cases h
    | cons b bs =>
      have hne : C.dropWhile P ≠ [] := by rw [hD]; simp
      have hbf := List.head_dropWhile_not P C hne
      have hbeq : (C.dropWhile P).head hne = b := by
        have h2 : (C.dropWhile P).head? = some b := by rw [hD]; rfl
        rwa [List.head?_eq_head hne, Option.some_inj] at h2
      rw [hbeq] at hbf
      have hble : ¬ keyD st b.1 < k := by simpa [hP] using hbf
      rw [hD] at h
      have hsorted2 : (C.takeWhile P ++ b :: bs).Pairwise
          (fun p q => keyD st p.1 ≤ keyD st q.1) := by
        rw [← hsplit, hD] at hsorted
        exact hsorted
      rcases List.mem_cons.mp h with rfl | hbs
      · exact hble hk
      · have hrel := (List.pairwise_cons.mp (List.pairwise_append.mp hsorted2).2.1).1
        have := hrel s hbs
        omega

theorem advanceK_from_mem (st : Store) (k : Int) (i : Nat)
    (C : List (Nat × Int)) (fuel : Nat)
    (hlink : linkedR st i 0 C)
    (hend : forwardN st (lastIdOf 0 C) i = none)
    (hspan : spansR st i (0, 0) C)
    (hkeys : ∀ p ∈ C, keyN st p.1 = some (keyD st p.1))
    (hsorted : C.Pairwise (fun p q => keyD st p.1 ≤ keyD st q.1))
    (hfuel : C.length + 1 ≤ fuel)
    (s : Nat × Int)
    (hs : s = (0, 0) ∨ (s ∈ C ∧ keyD st s.1 < k)) :
    advanceK st k i fuel s.1 s.2 =
      lastPairOf (0, 0) (C.takeWhile (fun p => decide (keyD st p.1 < k))) := by
  set P := fun p : Nat × Int => decide (keyD st p.1 < k) with hP
  have hsplit : C.takeWhile P ++ C.dropWhile P = C := List.takeWhile_append_dropWhile P C
  have hAmem : ∀ p ∈ C.takeWhile P, cmpK k (keyN st p.1) > 0 := by
    intro p hp
    have hpC : p ∈ C := (List.takeWhile_sublist P).subset hp
    rw [hkeys p hpC, cmpK_some, Member_Compare_pos_iff]
    have := List.mem_takeWhile_imp hp
    simpa [hP] using this
  have hBstop : ∀ b bs, C.dropWhile P = b :: bs → ¬ cmpK k (keyN st b.1) > 0 := by
    intro b bs hD
    have hbC : b ∈ C := by
      rw [← hsplit, hD]
      exact List.mem_append.mpr (Or.inr (List.mem_cons_self b bs))
    rw [hkeys b hbC, cmpK_some, Member_Compare_pos_iff]
    have hne : C.dropWhile P ≠ [] := by rw [hD]; simp
    have hbf := List.head_dropWhile_not P C hne
    have hbeq : (C.dropWhile P).head hne = b := by
      have h2 : (C.dropWhile P).head? = some b := by rw [hD]; rfl
      rwa [List.head?_eq_head hne, Option.some_inj] at h2
    rw [hbeq] at hbf
    have : ¬ keyD st b.1 < k := by simpa [hP] using hbf
    omega
  rcases hs with rfl | ⟨hsC, hsk⟩
  · refine advanceK_spec st k i (C.dropWhile P) (C.takeWhile P) fuel 0 0 ?_ ?_ ?_ hAmem ?_ hBstop
    · have := (List.takeWhile_sublist P (l := C)).length_le
      omega
    · rw [hsplit]; exact hlink
    · rw [hsplit]; exact hspan
    · intro hB
      rw [hsplit]
      exact hend
  · have hsA : s ∈ C.takeWhile P := sorted_lt_mem_takeWhile st k C hsorted s hsC hsk
    obtain ⟨Pfx, Sfx, hPS⟩ := List.append_of_mem hsA
    have hC' : C = Pfx ++ s :: (Sfx ++ C.dropWhile P) := by
      conv_lhs => rw [← hsplit]
      rw [hPS, List.append_assoc, List.cons_append]
    have hlink' : linkedR st i s.1 (Sfx ++ C.dropWhile P) :=
      linkedR_split st i 0 Pfx _ s (by rw [← hC']; exact hlink)
    have hspan' : spansR st i s (Sfx ++ C.dropWhile P) :=
      spansR_split st i (0, 0) Pfx _ s (by rw [← hC']; exact hspan)
    have hres := advanceK_spec st k i (C.dropWhile P) Sfx fuel s.1 s.2 ?_ ?_ ?_ ?_ ?_ hBstop
    · rw [hres]
      rw [hPS, lastPairOf_append, lastPairOf_cons]
    · have h1 : Sfx.length < (C.takeWhile P).length := by
        rw [hPS]
        simp
        omega
      have h2 := (List.takeWhile_sublist P (l := C)).length_le
      omega
    · exact hlink'
    · exact hspan'
    · intro p hp
      exact hAmem p (by rw [hPS]; exact List.mem_append.mpr (Or.inr (List.mem_cons_of_mem s hp)))
    · intro hB
      have h1 : lastIdOf 0 (Pfx ++ [s]) = s.1 := by
        rw [lastIdOf_append, lastIdOf_cons, lastIdOf_nil]
      have hre : Pfx ++ s :: (Sfx ++ C.dropWhile P) = (Pfx ++ [s]) ++ (Sfx ++ C.dropWhile P) := by
        rw [List.append_assoc]
        rfl
      have hlast : lastIdOf 0 C = lastIdOf s.1 (Sfx ++ C.dropWhile P) := by
        conv_lhs => rw [hC', hre]
        rw [lastIdOf_append, h1]
      rw [← hlast]
      exact hend

theorem chainF_pairwise (st : Store) (i : Nat) (sp : List Nat)
    (hsorted : (sp.map (keyD st)).Pairwise (· ≤ ·)) :
    (chainF st i (numberFrom 1 sp)).Pairwise (fun p q => keyD st p.1 ≤ keyD st q.1) := by
  have h1 : (numberFrom 1 sp).Pairwise (fun p q => keyD st p.1 ≤ keyD st q.1) := by
    have hmap : (numberFrom 1 sp).map Prod.fst = sp := map_fst_numberFrom 1 sp
    rw [← hmap, List.map_map] at hsorted
    exact List.pairwise_map.mp hsorted
  exact h1.sublist (chainF_sublist st i _)

theorem lastLt_prop (st : Store) (k : Int) (i : Nat) (spR : List (Nat × Int)) :
    lastLt st k i spR = (0, 0) ∨
      (lastLt st k i spR ∈ chainF st i spR ∧ keyD st (lastLt st k i spR).1 < k) := by
  unfold lastLt
  rcases lastPairOf_mem (0, 0)
      ((chainF st i spR).takeWhile (fun p => decide (keyD st p.1 < k))) with h | h
  · exact Or.inl h
  · right
    constructor
    · exact (List.takeWhile_sublist _).subset h
    · have := List.mem_takeWhile_imp h
      simpa using this

theorem lastLt_start_next (st : Store) (k : Int) (cur : Nat) (spR : List (Nat × Int)) :
    lastLt st k (cur + 1) spR = (0, 0) ∨
      (lastLt st k (cur + 1) spR ∈ chainF st cur spR ∧
       keyD st (lastLt st k (cur + 1) spR).1 < k) := by
  rcases lastLt_prop st k (cur + 1) spR with h | ⟨h1, h2⟩
  · exact Or.inl h
  · exact Or.inr ⟨chainF_mono (Nat.le_succ cur) h1, h2⟩

/-- The complete description of one run of the `Search_by_Key` level
loop from level `cur - 1` down: the produced finger/delta arrays hold
the `lastLt` pairs and the cache is rewritten with the same values,
everything else being untouched. -/
structure SearchKOut (st : Store) (spR : List (Nat × Int)) (k : Int) (cur : Nat) (sl : SL)
    (out : SL × List Nat × List Int) : Prop where
  flen : out.2.1.length = cur
  dlen : out.2.2.length = cur
  fi : ∀ i, i < cur → out.2.1.getD i 0 = (lastLt st k i spR).1
  di : ∀ i, i < cur → out.2.2.getD i 0 = (lastLt st k i spR).2
  store_eq : out.1.store = sl.store
  level_eq : out.1.level = sl.level
  length_eq : out.1.length = sl.length
  nextId_eq : out.1.nextId = sl.nextId
  cflen : out.1.finger.length = sl.finger.length
  cdlen : out.1.distance.length = sl.distance.length
  cfi : ∀ i, i < cur → i < sl.finger.length → out.1.finger.getD i 0 = (lastLt st k i spR).1
  cdi : ∀ i, i < cur → i < sl.distance.length → out.1.distance.getD i 0 = (lastLt st k i spR).2
  cfhi : ∀ i, cur ≤ i → out.1.finger.getD i 0 = sl.finger.getD i 0
  cdhi : ∀ i, cur ≤ i → out.1.distance.getD i 0 = sl.distance.getD i 0


/-- Writing one finger/distance pair into the cache at level `cur`. -/
def cacheSet (sl : SL) (cur : Nat) (p : Nat × Int) : SL :=
  { sl with finger := sl.finger.set cur p.1, distance := sl.distance.set cur p.2 }

theorem searchKAux_spec (st : Store) (sp : List Nat) (k : Int) (len : Int) (L : Nat)
    (hchains : ∀ i, i < L → chainWF st len i (numberFrom 1 sp))
    (hkeys : ∀ y ∈ sp, keyN st y = some (keyD st y))
    (hsorted : (sp.map (keyD st)).Pairwise (· ≤ ·))
    (hhdr : keyN st 0 = none)
    (hstlen : sp.length < st.length) :
    ∀ (cur : Nat) (sl : SL) (f : Nat) (last : Int),
      cur ≤ L → sl.store = st →
      (∀ i, i < cur →
        cacheWF st i (numberFrom 1 sp) (sl.finger.getD i 0) (sl.distance.getD i 0)) →
      (f, last) = lastLt st k cur (numberFrom 1 sp) →
      SearchKOut st (numberFrom 1 sp) k cur sl (searchKAux k cur sl f last) := by
  intro cur
  induction cur with
  | zero =>
    intro sl f last _ _ _ _
    exact ⟨rfl, rfl, fun i h => absurd h (Nat.not_lt_zero i),
      fun i h => absurd h (Nat.not_lt_zero i), rfl, rfl, rfl, rfl, rfl, rfl,
      fun i h _ => absurd h (Nat.not_lt_zero i), fun i h _ => absurd h (Nat.not_lt_zero i),
      fun i _ => rfl, fun i _ => rfl⟩
  | succ cur ih =>
    intro sl f last hcur hst hcache hstart
    obtain ⟨hlink, hend, hspan, hldiff⟩ := hchains cur (by omega)
    have hsortedC : (chainF st cur (numberFrom 1 sp)).Pairwise
        (fun p q => keyD st p.1 ≤ keyD st q.1) := chainF_pairwise st cur sp hsorted
    have hkeysC : ∀ p ∈ chainF st cur (numberFrom 1 sp), keyN st p.1 = some (keyD st p.1) := by
      intro p hp
      exact hkeys p.1 (mem_numberFrom (chainF_subset hp).1).1
    have hclen : (chainF st cur (numberFrom 1 sp)).length + 1 ≤ st.length + 1 := by
      have h1 := (chainF_sublist st cur (numberFrom 1 sp)).length_le
      rw [length_numberFrom] at h1
      omega
    have hq : searchKStart sl k cur f last = (0, 0) ∨
        (searchKStart sl k cur f last ∈ chainF st cur (numberFrom 1 sp) ∧
         keyD st (searchKStart sl k cur f last).1 < k) := by
      unfold searchKStart
      cases hkc : keyN sl.store (sl.finger.getD cur 0) with
      | none =>
        simp only [hkc]
        rw [if_neg (by simp)]
        rw [hstart]
        exact lastLt_start_next st k cur _
      | some kk =>
        simp only [hkc]
        by_cases hcmp : Member_Compare k kk > 0
        · rw [if_pos (by simpa using hcmp)]
          rcases hcache cur (Nat.lt_succ_self cur) with h0 | hmem
          · exfalso
            rw [hst] at hkc
            rw [h0, hhdr] at hkc
            cases hkc
          · right
            refine ⟨hmem, ?_⟩
            have hkd : keyD st (sl.finger.getD cur 0) = kk := by
              rw [hst] at hkc
              unfold keyD
              rw [hkc]
              rfl
            rw [hkd]
            exact (Member_Compare_pos_iff k kk).mp hcmp
        · rw [if_neg (by simpa using hcmp)]
          rw [hstart]
          exact lastLt_start_next st k cur _
    have hfin : advanceK sl.store k cur (sl.store.length + 1)
        (searchKStart sl k cur f last).1 (searchKStart sl k cur f last).2 =
        lastLt st k cur (numberFrom 1 sp) := by
      rw [hst]
      refine advanceK_from_mem st k cur _ (st.length + 1) hlink hend hspan hkeysC hsortedC
        hclen _ ?_
      rcases hq with h | h
      · left
        rw [h]
      · right
        exact h
    have hff : ((lastLt st k cur (numberFrom 1 sp)).1, (lastLt st k cur (numberFrom 1 sp)).2) =
        lastLt st k cur (numberFrom 1 sp) := rfl
    have hcache' : ∀ i, i < cur →
        cacheWF st i (numberFrom 1 sp)
          ((cacheSet sl cur (lastLt st k cur (numberFrom 1 sp))).finger.getD i 0)
          ((cacheSet sl cur (lastLt st k cur (numberFrom 1 sp))).distance.getD i 0) := by
      intro i hi
      have h1 : (cacheSet sl cur (lastLt st k cur (numberFrom 1 sp))).finger.getD i 0 =
          sl.finger.getD i 0 := by
        show (sl.finger.set cur _).getD i 0 = _
        rw [getD_set_list]
        rw [if_neg (by omega)]
      have h2 : (cacheSet sl cur (lastLt st k cur (numberFrom 1 sp))).distance.getD i 0 =
          sl.distance.getD i 0 := by
        show (sl.distance.set cur _).getD i 0 = _
        rw [getD_set_list]
        rw [if_neg (by omega)]
      rw [h1, h2]
      exact hcache i (by omega)
    have hrec := ih (cacheSet sl cur (lastLt st k cur (numberFrom 1 sp)))
      (lastLt st k cur (numberFrom 1 sp)).1 (lastLt st k cur (numberFrom 1 sp)).2
      (by omega) hst hcache' hff
    have hbody : searchKAux k (cur + 1) sl f last =
        ((searchKAux k cur (cacheSet sl cur (lastLt st k cur (numberFrom 1 sp)))
            (lastLt st k cur (numberFrom 1 sp)).1 (lastLt st k cur (numberFrom 1 sp)).2).1,
         (searchKAux k cur (cacheSet sl cur (lastLt st k cur (numberFrom 1 sp)))
            (lastLt st k cur (numberFrom 1 sp)).1 (lastLt st k cur (numberFrom 1 sp)).2).2.1
           ++ [(lastLt st k cur (numberFrom 1 sp)).1],
         (searchKAux k cur (cacheSet sl cur (lastLt st k cur (numberFrom 1 sp)))
            (lastLt st k cur (numberFrom 1 sp)).1 (lastLt st k cur (numberFrom 1 sp)).2).2.2
           ++ [(lastLt st k cur (numberFrom 1 sp)).2]) := by
      show (let start := searchKStart sl k cur f last
            let fin := advanceK sl.store k cur (sl.store.length + 1) start.1 start.2
            let rest := searchKAux k cur (cacheSet sl cur fin) fin.1 fin.2
            (rest.1, rest.2.1 ++ [fin.1], rest.2.2 ++ [fin.2])) = _
      simp only [hfin]
    rw [hbody]
    set spR := numberFrom 1 sp
    set sl2 := cacheSet sl cur (lastLt st k cur spR) with hsl2
    set rest := searchKAux k cur sl2 (lastLt st k cur spR).1 (lastLt st k cur spR).2
      with hrestdef
    have hf2 : sl2.finger = sl.finger.set cur (lastLt st k cur spR).1 := rfl
    have hd2 : sl2.distance = sl.distance.set cur (lastLt st k cur spR).2 := rfl
    refine ⟨?_, ?_, ?_, ?_, ?_, ?_, ?_, ?_, ?_, ?_, ?_, ?_, ?_, ?_⟩
    · simp [hrec.flen]
    · simp [hrec.dlen]
    · intro i hi
      rcases Nat.lt_succ_iff_lt_or_eq.mp hi with h | h
      · rw [getD_append_left _ _ _ _ (by rw [hrec.flen]; exact h)]
        exact hrec.fi i h
      · subst h
        have hl : i = rest.2.1.length := (hrec.flen).symm
        rw [hl, getD_append_right]
        rfl
    · intro i hi
      rcases Nat.lt_succ_iff_lt_or_eq.mp hi with h | h
      · rw [getD_append_left _ _ _ _ (by rw [hrec.dlen]; exact h)]
        exact hrec.di i h
      · subst h
        have hl : i = rest.2.2.length := (hrec.dlen).symm
        rw [hl, getD_append_right]
        rfl
    · exact hrec.store_eq
    · exact hrec.level_eq
    · exact hrec.length_eq
    · exact hrec.nextId_eq
    · rw [hrec.cflen, hf2]
      simp
    · rw [hrec.cdlen, hd2]
      simp
    · intro i hi hilen
      rcases Nat.lt_succ_iff_lt_or_eq.mp hi with h | h
      · refine (hrec.cfi i h ?_).trans rfl
        rw [hf2]
        simpa using hilen
      · subst h
        rw [hrec.cfhi i (le_refl i), hf2]
        rw [getD_set_list]
        rw [if_pos ⟨rfl, hilen⟩]
    · intro i hi hilen
      rcases Nat.lt_succ_iff_lt_or_eq.mp hi with h | h
      · refine (hrec.cdi i h ?_).trans rfl
        rw [hd2]
        simpa using hilen
      · subst h
        rw [hrec.cdhi i (le_refl i), hd2]
        rw [getD_set_list]
        rw [if_pos ⟨rfl, hilen⟩]
    · intro i hi
      rw [hrec.cfhi i (by omega), hf2]
      rw [getD_set_list]
      rw [if_neg (by omega)]
    · intro i hi
      rw [hrec.cdhi i (by omega), hd2]
      rw [getD_set_list]
      rw [if_neg (by omega)]

theorem lookup_isSome_iff_mem_map_fst (st : Store) (x : Nat) :
    (List.lookup x st).isSome = true ↔ x ∈ st.map Prod.fst := by
  induction st with
  | nil => simp [List.lookup]
  | cons a t ih =>
    obtain ⟨a1, a2⟩ := a
    rw [lookup_cons_store]
    by_cases h : x = a1 <;> simp [h, ih]

theorem WF_store_length (sl : SL) (sp : List Nat) (h : WF sl sp) :
    sl.store.length = sp.length + 1 := by
  have hperm : (sl.store.map Prod.fst).Perm (0 :: sp) := by
    rw [List.perm_ext_iff_of_nodup h.ids_nodup h.sp_nodup]
    intro a
    rw [← lookup_isSome_iff_mem_map_fst, h.dom a]
    simp [List.mem_cons]
  have hlen := hperm.length_eq
  simpa using hlen

theorem chainF_zero (st : Store) (spR : List (Nat × Int))
    (hpos : ∀ p ∈ spR, 1 ≤ heightN st p.1) : chainF st 0 spR = spR := by
  rw [chainF, List.filter_eq_self]
  intro p hp
  simpa using hpos p hp

theorem lastLt_top (st : Store) (k : Int) (L : Nat) (spR : List (Nat × Int))
    (hh : ∀ p ∈ spR, heightN st p.1 ≤ L) : lastLt st k L spR = (0, 0) := by
  unfold lastLt
  rw [chainF_nil_of_high st L spR hh]
  rfl

/-- The full description of `Search_by_Key` on a well-formed list. -/
theorem Search_by_Key_spec (sl : SL) (sp : List Nat) (k : Int) (h : WF sl sp) :
    SearchKOut sl.store (numberFrom 1 sp) k sl.level sl (Search_by_Key sl k) := by
  have hh : ∀ p ∈ numberFrom 1 sp, heightN sl.store p.1 ≤ sl.level := by
    intro p hp
    exact h.sp_hle p.1 (mem_numberFrom hp).1
  have hstart : ((0 : Nat), (0 : Int)) = lastLt sl.store k sl.level (numberFrom 1 sp) :=
    (lastLt_top sl.store k sl.level _ hh).symm
  have hstlen : sp.length < sl.store.length := by
    rw [WF_store_length sl sp h]
    omega
  exact searchKAux_spec sl.store sp k sl.length sl.level h.chains h.sp_key h.sorted
    h.hdr_key hstlen sl.level sl 0 0 (le_refl _) rfl
    (fun i hi => h.cache i hi) hstart

/-- A keyed search only rewrites the cache, and rewrites it with valid
finger/distance pairs: well-formedness is preserved. -/
theorem WF_after_search (sl : SL) (sp : List Nat) (k : Int) (h : WF sl sp) :
    WF (Search_by_Key sl k).1 sp := by
  have hs := Search_by_Key_spec sl sp k h
  refine ⟨?_, ?_, ?_, ?_, ?_, ?_, ?_, ?_, ?_, ?_, ?_, ?_, ?_, ?_, ?_, ?_, ?_, ?_, ?_, ?_,
    ?_, ?_, ?_, ?_⟩
  · rw [hs.store_eq]; exact h.ids_nodup
  · rw [hs.store_eq]; exact h.dom
  · rw [hs.store_eq]; exact h.hdr_key
  · rw [hs.store_eq]; exact h.hdr_height
  · rw [hs.store_eq]; exact h.hdr_fwd_len
  · rw [hs.store_eq]; exact h.hdr_diff_len
  · exact h.sp_nodup
  · rw [hs.store_eq]; exact h.sp_key
  · rw [hs.store_eq]; exact h.sp_hpos
  · rw [hs.store_eq, hs.level_eq]; exact h.sp_hle
  · rw [hs.store_eq]; exact h.sp_fwd_len
  · rw [hs.store_eq]; exact h.sp_diff_len
  · rw [hs.level_eq]; exact h.level_pos
  · rw [hs.level_eq]; exact h.level_le
  · rw [hs.length_eq]; exact h.len_eq
  · rw [hs.store_eq]; exact h.sorted
  · rw [hs.store_eq, hs.level_eq, hs.length_eq]; exact h.chains
  · rw [hs.store_eq, hs.level_eq]; exact h.fwd_high
  · rw [hs.cflen]; exact h.finger_len
  · rw [hs.cdlen]; exact h.distance_len
  · intro i hi
    rw [hs.store_eq]
    have hi2 : i < sl.level := by rw [← hs.level_eq]; exact hi
    rw [hs.cfi i hi2 (by rw [h.finger_len]; exact lt_of_lt_of_le hi2 h.level_le),
      hs.cdi i hi2 (by rw [h.distance_len]; exact lt_of_lt_of_le hi2 h.level_le)]
    rcases lastLt_prop sl.store k i (numberFrom 1 sp) with he | ⟨hm, _⟩
    · left
      rw [he]
    · right
      exact hm
  · intro i h1 h2
    have h1' : sl.level ≤ i := by rw [← hs.level_eq]; exact h1
    rw [hs.cfhi i h1']
    exact h.cache_high i h1' h2
  · rw [hs.nextId_eq]; exact h.id_lt
  · rw [hs.nextId_eq]; exact h.id_pos

theorem growLoop_others (len : Int) :
    ∀ (c : Nat) (st : Store) (i : Nat),
      (∀ y, keyN (growLoop len st i c) y = keyN st y) ∧
      (∀ y, dataN (growLoop len st i c) y = dataN st y) ∧
      (∀ y, heightN (growLoop len st i c) y = heightN st y) ∧
      (∀ y j, forwardN (growLoop len st i c) y j = forwardN st y j) ∧
      (∀ y, (List.lookup y (growLoop len st i c)).isSome = (List.lookup y st).isSome) ∧
      (∀ y, (nodeGet (growLoop len st i c) y).diff.length = (nodeGet st y).diff.length) ∧
      (∀ y, (nodeGet (growLoop len st i c) y).forward.length =
        (nodeGet st y).forward.length) ∧
      ((growLoop len st i c).map Prod.fst = st.map Prod.fst) ∧
      ((growLoop len st i c).length = st.length) := by
  intro c
  induction c with
  | zero =>
    intro st i
    exact ⟨fun y => rfl, fun y => rfl, fun y => rfl, fun y j => rfl, fun y => rfl,
      fun y => rfl, fun y => rfl, rfl, rfl⟩
  | succ c ih =>
    intro st i
    have hunf : growLoop len st i (c + 1) =
        growLoop len (setDiff st 0 i (len + 1)) (i + 1) c := rfl
    obtain ⟨h1, h2, h3, h4, h5, h6, h7, h8, h9⟩ := ih (setDiff st 0 i (len + 1)) (i + 1)
    refine ⟨?_, ?_, ?_, ?_, ?_, ?_, ?_, ?_, ?_⟩
    · intro y; rw [hunf, h1, keyN_setDiff]
    · intro y; rw [hunf, h2, dataN_setDiff]
    · intro y; rw [hunf, h3, heightN_setDiff]
    · intro y j; rw [hunf, h4, forwardN_setDiff]
    · intro y; rw [hunf, h5, isSome_lookup_setDiff]
    · intro y; rw [hunf, h6, diffLen_setDiff]
    · intro y; rw [hunf, h7, fwdLen_setDiff]
    · rw [hunf, h8, map_fst_setDiff]
    · rw [hunf, h9, length_setDiff]

theorem growLoop_diffN (len : Int) :
    ∀ (c : Nat) (st : Store) (i : Nat),
      (List.lookup 0 st).isSome = true →
      i + c ≤ (nodeGet st 0).diff.length →
      ∀ y j, diffN (growLoop len st i c) y j =
        if y = 0 ∧ i ≤ j ∧ j < i + c then len + 1 else diffN st y j := by
  intro c
  induction c with
  | zero =>
    intro st i hl hlen y j
    rw [if_neg (by omega)]
    rfl
  | succ c ih =>
    intro st i hl hlen y j
    show diffN (growLoop len (setDiff st 0 i (len + 1)) (i + 1) c) y j = _
    rw [ih (setDiff st 0 i (len + 1)) (i + 1)
      (by rw [isSome_lookup_setDiff]; exact hl)
      (by rw [diffLen_setDiff]; omega)]
    rw [diffN_setDiff]
    by_cases hy : y = 0
    · subst hy
      by_cases hj1 : i + 1 ≤ j ∧ j < i + 1 + c
      · rw [if_pos ⟨rfl, hj1⟩, if_pos ⟨rfl, by omega⟩]
      · rw [if_neg (by tauto)]
        by_cases hj2 : j = i
        · subst hj2
          rw [if_pos ⟨rfl, hl, rfl, by omega⟩, if_pos ⟨rfl, by omega⟩]
        · rw [if_neg (by omega), if_neg (by omega)]
    · rw [if_neg (by tauto), if_neg (by tauto), if_neg (by tauto)]

theorem insBumpLoop_others :
    ∀ (c : Nat) (u : List Nat) (st : Store) (i : Nat),
      (∀ y, keyN (insBumpLoop u st i c) y = keyN st y) ∧
      (∀ y, dataN (insBumpLoop u st i c) y = dataN st y) ∧
      (∀ y, heightN (insBumpLoop u st i c) y = heightN st y) ∧
      (∀ y j, forwardN (insBumpLoop u st i c) y j = forwardN st y j) ∧
      (∀ y, (List.lookup y (insBumpLoop u st i c)).isSome = (List.lookup y st).isSome) ∧
      (∀ y, (nodeGet (insBumpLoop u st i c) y).diff.length = (nodeGet st y).diff.length) ∧
      (∀ y, (nodeGet (insBumpLoop u st i c) y).forward.length =
        (nodeGet st y).forward.length) ∧
      ((insBumpLoop u st i c).map Prod.fst = st.map Prod.fst) ∧
      ((insBumpLoop u st i c).length = st.length) := by
  intro c
  induction c with
  | zero =>
    intro u st i
    exact ⟨fun y => rfl, fun y => rfl, fun y => rfl, fun y j => rfl, fun y => rfl,
      fun y => rfl, fun y => rfl, rfl, rfl⟩
  | succ c ih =>
    intro u st i
    have hunf : insBumpLoop u st i (c + 1) =
        insBumpLoop u (setDiff st (u.getD i 0) i (diffN st (u.getD i 0) i + 1)) (i + 1) c := rfl
    obtain ⟨h1, h2, h3, h4, h5, h6, h7, h8, h9⟩ :=
      ih u (setDiff st (u.getD i 0) i (diffN st (u.getD i 0) i + 1)) (i + 1)
    refine ⟨?_, ?_, ?_, ?_, ?_, ?_, ?_, ?_, ?_⟩
    · intro y; rw [hunf, h1, keyN_setDiff]
    · intro y; rw [hunf, h2, dataN_setDiff]
    · intro y; rw [hunf, h3, heightN_setDiff]
    · intro y j; rw [hunf, h4, forwardN_setDiff]
    · intro y; rw [hunf, h5, isSome_lookup_setDiff]
    · intro y; rw [hunf, h6, diffLen_setDiff]
    · intro y; rw [hunf, h7, fwdLen_setDiff]
    · rw [hunf, h8, map_fst_setDiff]
    · rw [hunf, h9, length_setDiff]

theorem insBumpLoop_diffN :
    ∀ (c : Nat) (u : List Nat) (st : Store) (i : Nat),
      (∀ j, i ≤ j → j < i + c →
        (List.lookup (u.getD j 0) st).isSome = true ∧
        j < (nodeGet st (u.getD j 0)).diff.length) →
      ∀ y j, diffN (insBumpLoop u st i c) y j =
        if i ≤ j ∧ j < i + c ∧ y = u.getD j 0 then diffN st y j + 1 else diffN st y j := by
  intro c
  induction c with
  | zero =>
    intro u st i hok y j
    rw [if_neg (by omega)]
    rfl
  | succ c ih =>
    intro u st i hok y j
    have hok0 := hok i (le_refl i) (by omega)
    have hunf : insBumpLoop u st i (c + 1) =
        insBumpLoop u (setDiff st (u.getD i 0) i (diffN st (u.getD i 0) i + 1)) (i + 1) c := rfl
    have hside : ∀ j2, i + 1 ≤ j2 → j2 < i + 1 + c →
        (List.lookup (u.getD j2 0) (setDiff st (u.getD i 0) i
          (diffN st (u.getD i 0) i + 1))).isSome = true ∧
        j2 < (nodeGet (setDiff st (u.getD i 0) i
          (diffN st (u.getD i 0) i + 1)) (u.getD j2 0)).diff.length := by
      intro j2 hj2a hj2b
      refine ⟨?_, ?_⟩
      · rw [isSome_lookup_setDiff]
        exact (hok j2 (by omega) (by omega)).1
      · rw [diffLen_setDiff]
        exact (hok j2 (by omega) (by omega)).2
    rw [hunf, ih u _ (i + 1) hside y j, diffN_setDiff]
    by_cases hji : j = i
    · subst hji
      by_cases hy : y = u.getD j 0
      · subst hy
        rw [if_neg (by omega), if_pos ⟨rfl, hok0.1, rfl, hok0.2⟩,
          if_pos ⟨le_refl j, by omega, rfl⟩]
      · rw [if_neg (by omega), if_neg (fun h => hy h.1), if_neg (fun h => hy h.2.2)]
    · by_cases houter : i + 1 ≤ j ∧ j < i + 1 + c ∧ y = u.getD j 0
      · rw [if_pos houter, if_neg (fun h => hji h.2.2.1.symm),
          if_pos ⟨by omega, by omega, houter.2.2⟩]
      · rw [if_neg houter, if_neg (fun h => hji h.2.2.1.symm), if_neg ?_]
        intro h
        exact houter ⟨by omega, by omega, h.2.2⟩

theorem insDiffLoop_others (u : List Nat) (d : List Int) (d0 : Int) (nid : Nat) :
    ∀ (n : Nat) (st : Store),
      (∀ y, keyN (insDiffLoop u d d0 nid st n) y = keyN st y) ∧
      (∀ y, dataN (insDiffLoop u d d0 nid st n) y = dataN st y) ∧
      (∀ y, heightN (insDiffLoop u d d0 nid st n) y = heightN st y) ∧
      (∀ y j, forwardN (insDiffLoop u d d0 nid st n) y j = forwardN st y j) ∧
      (∀ y, (List.lookup y (insDiffLoop u d d0 nid st n)).isSome =
        (List.lookup y st).isSome) ∧
      (∀ y, (nodeGet (insDiffLoop u d d0 nid st n) y).diff.length =
        (nodeGet st y).diff.length) ∧
      (∀ y, (nodeGet (insDiffLoop u d d0 nid st n) y).forward.length =
        (nodeGet st y).forward.length) ∧
      ((insDiffLoop u d d0 nid st n).map Prod.fst = st.map Prod.fst) ∧
      ((insDiffLoop u d d0 nid st n).length = st.length) := by
  intro n
  induction n with
  | zero =>
    intro st
    exact ⟨fun y => rfl, fun y => rfl, fun y => rfl, fun y j => rfl, fun y => rfl,
      fun y => rfl, fun y => rfl, rfl, rfl⟩
  | succ n ih =>
    intro st
    obtain ⟨h1, h2, h3, h4, h5, h6, h7, h8, h9⟩ := ih st
    have hunf : insDiffLoop u d d0 nid st (n + 1) =
        setDiff (setDiff (insDiffLoop u d d0 nid st n) nid n
          (diffN (insDiffLoop u d d0 nid st n) (u.getD n 0) n - d0 + d.getD n 0))
          (u.getD n 0) n (d0 - d.getD n 0 + 1) := rfl
    refine ⟨?_, ?_, ?_, ?_, ?_, ?_, ?_, ?_, ?_⟩
    · intro y; rw [hunf, keyN_setDiff, keyN_setDiff, h1]
    · intro y; rw [hunf, dataN_setDiff, dataN_setDiff, h2]
    · intro y; rw [hunf, heightN_setDiff, heightN_setDiff, h3]
    · intro y j; rw [hunf, forwardN_setDiff, forwardN_setDiff, h4]
    · intro y; rw [hunf, isSome_lookup_setDiff, isSome_lookup_setDiff, h5]
    · intro y; rw [hunf, diffLen_setDiff, diffLen_setDiff, h6]
    · intro y; rw [hunf, fwdLen_setDiff, fwdLen_setDiff, h7]
    · rw [hunf, map_fst_setDiff, map_fst_setDiff, h8]
    · rw [hunf, length_setDiff, length_setDiff, h9]

theorem insDiffLoop_diffN (u : List Nat) (d : List Int) (d0 : Int) (nid : Nat) :
    ∀ (n : Nat) (st : Store),
      (∀ j, j < n → (List.lookup (u.getD j 0) st).isSome = true ∧
        j < (nodeGet st (u.getD j 0)).diff.length) →
      ((List.lookup nid st).isSome = true) →
      (∀ j, j < n → j < (nodeGet st nid).diff.length) →
      (∀ j, j < n → u.getD j 0 ≠ nid) →
      ∀ y j, diffN (insDiffLoop u d d0 nid st n) y j =
        if j < n ∧ y = nid then diffN st (u.getD j 0) j - d0 + d.getD j 0
        else if j < n ∧ y = u.getD j 0 then d0 - d.getD j 0 + 1
        else diffN st y j := by
  intro n
  induction n with
  | zero =>
    intro st _ _ _ _ y j
    rw [if_neg (by omega), if_neg (by omega)]
    rfl
  | succ n ih =>
    intro st hu hnid hnidlen hne y j
    obtain ⟨ho1, ho2, ho3, ho4, ho5, ho6, ho7, ho8, ho9⟩ := insDiffLoop_others u d d0 nid n st
    have ihd := ih st (fun j hj => hu j (by omega)) hnid
      (fun j hj => hnidlen j (by omega)) (fun j hj => hne j (by omega))
    have hunf : insDiffLoop u d d0 nid st (n + 1) =
        setDiff (setDiff (insDiffLoop u d d0 nid st n) nid n
          (diffN (insDiffLoop u d d0 nid st n) (u.getD n 0) n - d0 + d.getD n 0))
          (u.getD n 0) n (d0 - d.getD n 0 + 1) := rfl
    have hvn : diffN (insDiffLoop u d d0 nid st n) (u.getD n 0) n = diffN st (u.getD n 0) n := by
      rw [ihd (u.getD n 0) n, if_neg (by omega), if_neg (by omega)]
    have hnidlk1 : (List.lookup nid (insDiffLoop u d d0 nid st n)).isSome = true := by
      rw [ho5]; exact hnid
    have hulk2 : (List.lookup (u.getD n 0) (setDiff (insDiffLoop u d d0 nid st n) nid n
        (diffN (insDiffLoop u d d0 nid st n) (u.getD n 0) n - d0 + d.getD n 0))).isSome
        = true := by
      rw [isSome_lookup_setDiff, ho5]
      exact (hu n (by omega)).1
    rw [hunf, diffN_setDiff, diffN_setDiff]
    by_cases hjn : j = n
    · subst hjn
      by_cases hynid : y = nid
      · subst hynid
        rw [if_neg (fun h => (hne j (by omega)) h.1.symm)]
        rw [if_pos ⟨rfl, hnidlk1, rfl, by rw [ho6]; exact hnidlen j (by omega)⟩]
        rw [hvn, if_pos ⟨by omega, rfl⟩]
      · by_cases hyu : y = u.getD j 0
        · subst hyu
          have hlen2 : j < (nodeGet (setDiff (insDiffLoop u d d0 nid st j) nid j
              (diffN (insDiffLoop u d d0 nid st j) (u.getD j 0) j - d0 + d.getD j 0))
              (u.getD j 0)).diff.length := by
            rw [diffLen_setDiff, ho6]
            exact (hu j (by omega)).2
          rw [if_pos ⟨rfl, hulk2, rfl, hlen2⟩, if_neg (fun h => hynid h.2),
            if_pos ⟨by omega, rfl⟩]
        · rw [if_neg (fun h => hyu h.1), if_neg (fun h => hynid h.1),
            ihd y j, if_neg (by omega), if_neg (by omega),
            if_neg (fun h => hynid h.2), if_neg (fun h => hyu h.2)]
    · rw [if_neg (fun h => hjn h.2.2.1.symm), if_neg (fun h => hjn h.2.2.1.symm), ihd y j]
      by_cases hcase1 : j < n ∧ y = nid
      · rw [if_pos hcase1, if_pos ⟨by omega, hcase1.2⟩]
      · rw [if_neg hcase1]
        by_cases hcase2 : j < n ∧ y = u.getD j 0
        · rw [if_pos hcase2, if_neg (fun h => hcase1 ⟨by omega, h.2⟩),
            if_pos ⟨by omega, hcase2.2⟩]
        · rw [if_neg hcase2, if_neg (fun h => hcase1 ⟨by omega, h.2⟩),
            if_neg (fun h => hcase2 ⟨by omega, h.2⟩)]

theorem insSpliceLoop_others (u : List Nat) (nid : Nat) :
    ∀ (n : Nat) (st : Store),
      (∀ y, keyN (insSpliceLoop u nid st n) y = keyN st y) ∧
      (∀ y, dataN (insSpliceLoop u nid st n) y = dataN st y) ∧
      (∀ y, heightN (insSpliceLoop u nid st n) y = heightN st y) ∧
      (∀ y j, diffN (insSpliceLoop u nid st n) y j = diffN st y j) ∧
      (∀ y, (List.lookup y (insSpliceLoop u nid st n)).isSome =
        (List.lookup y st).isSome) ∧
      (∀ y, (nodeGet (insSpliceLoop u nid st n) y).diff.length =
        (nodeGet st y).diff.length) ∧
      (∀ y, (nodeGet (insSpliceLoop u nid st n) y).forward.length =
        (nodeGet st y).forward.length) ∧
      ((insSpliceLoop u nid st n).map Prod.fst = st.map Prod.fst) ∧
      ((insSpliceLoop u nid st n).length = st.length) := by
  intro n
  induction n with
  | zero =>
    intro st
    exact ⟨fun y => rfl, fun y => rfl, fun y => rfl, fun y j => rfl, fun y => rfl,
      fun y => rfl, fun y => rfl, rfl, rfl⟩
  | succ n ih =>
    intro st
    obtain ⟨h1, h2, h3, h4, h5, h6, h7, h8, h9⟩ := ih st
    have hunf : insSpliceLoop u nid st (n + 1) =
        setForward (setForward (insSpliceLoop u nid st n) nid n
          (forwardN (insSpliceLoop u nid st n) (u.getD n 0) n))
          (u.getD n 0) n (some nid) := rfl
    refine ⟨?_, ?_, ?_, ?_, ?_, ?_, ?_, ?_, ?_⟩
    · intro y; rw [hunf, keyN_setForward, keyN_setForward, h1]
    · intro y; rw [hunf, dataN_setForward, dataN_setForward, h2]
    · intro y; rw [hunf, heightN_setForward, heightN_setForward, h3]
    · intro y j; rw [hunf, diffN_setForward, diffN_setForward, h4]
    · intro y; rw [hunf, isSome_lookup_setForward, isSome_lookup_setForward, h5]
    · intro y; rw [hunf, diffLen_setForward, diffLen_setForward, h6]
    · intro y; rw [hunf, fwdLen_setForward, fwdLen_setForward, h7]
    · rw [hunf, map_fst_setForward, map_fst_setForward, h8]
    · rw [hunf, length_setForward, length_setForward, h9]

theorem insSpliceLoop_forwardN (u : List Nat) (nid : Nat) :
    ∀ (n : Nat) (st : Store),
      (∀ j, j < n → (List.lookup (u.getD j 0) st).isSome = true ∧
        j < (nodeGet st (u.getD j 0)).forward.length) →
      ((List.lookup nid st).isSome = true) →
      (∀ j, j < n → j < (nodeGet st nid).forward.length) →
      (∀ j, j < n → u.getD j 0 ≠ nid) →
      ∀ y j, forwardN (insSpliceLoop u nid st n) y j =
        if j < n ∧ y = nid then forwardN st (u.getD j 0) j
        else if j < n ∧ y = u.getD j 0 then some nid
        else forwardN st y j := by
  intro n
  induction n with
  | zero =>
    intro st _ _ _ _ y j
    rw [if_neg (by omega), if_neg (by omega)]
    rfl
  | succ n ih =>
    intro st hu hnid hnidlen hne y j
    obtain ⟨ho1, ho2, ho3, ho4, ho5, ho6, ho7, ho8, ho9⟩ := insSpliceLoop_others u nid n st
    have ihd := ih st (fun j hj => hu j (by omega)) hnid
      (fun j hj => hnidlen j (by omega)) (fun j hj => hne j (by omega))
    have hunf : insSpliceLoop u nid st (n + 1) =
        setForward (setForward (insSpliceLoop u nid st n) nid n
          (forwardN (insSpliceLoop u nid st n) (u.getD n 0) n))
          (u.getD n 0) n (some nid) := rfl
    have hvn : forwardN (insSpliceLoop u nid st n) (u.getD n 0) n =
        forwardN st (u.getD n 0) n := by
      rw [ihd (u.getD n 0) n, if_neg (by omega), if_neg (by omega)]
    have hnidlk1 : (List.lookup nid (insSpliceLoop u nid st n)).isSome = true := by
      rw [ho5]; exact hnid
    have hulk2 : (List.lookup (u.getD n 0) (setForward (insSpliceLoop u nid st n) nid n
        (forwardN (insSpliceLoop u nid st n) (u.getD n 0) n))).isSome = true := by
      rw [isSome_lookup_setForward, ho5]
      exact (hu n (by omega)).1
    rw [hunf, forwardN_setForward, forwardN_setForward]
    by_cases hjn : j = n
    · subst hjn
      by_cases hynid : y = nid
      · subst hynid
        rw [if_neg (fun h => (hne j (by omega)) h.1.symm)]
        rw [if_pos ⟨rfl, hnidlk1, rfl, by rw [ho7]; exact hnidlen j (by omega)⟩]
        rw [hvn, if_pos ⟨by omega, rfl⟩]
      · by_cases hyu : y = u.getD j 0
        · subst hyu
          have hlen2 : j < (nodeGet (setForward (insSpliceLoop u nid st j) nid j
              (forwardN (insSpliceLoop u nid st j) (u.getD j 0) j))
              (u.getD j 0)).forward.length := by
            rw [fwdLen_setForward, ho7]
            exact (hu j (by omega)).2
          rw [if_pos ⟨rfl, hulk2, rfl, hlen2⟩, if_neg (fun h => hynid h.2),
            if_pos ⟨by omega, rfl⟩]
        · rw [if_neg (fun h => hyu h.1), if_neg (fun h => hynid h.1),
            ihd y j, if_neg (by omega), if_neg (by omega),
            if_neg (fun h => hynid h.2), if_neg (fun h => hyu h.2)]
    · rw [if_neg (fun h => hjn h.2.2.1.symm), if_neg (fun h => hjn h.2.2.1.symm), ihd y j]
      by_cases hcase1 : j < n ∧ y = nid
      · rw [if_pos hcase1, if_pos ⟨by omega, hcase1.2⟩]
      · rw [if_neg hcase1]
        by_cases hcase2 : j < n ∧ y = u.getD j 0
        · rw [if_pos hcase2, if_neg (fun h => hcase1 ⟨by omega, h.2⟩),
            if_pos ⟨by omega, hcase2.2⟩]
        · rw [if_neg hcase2, if_neg (fun h => hcase1 ⟨by omega, h.2⟩),
            if_neg (fun h => hcase2 ⟨by omega, h.2⟩)]

theorem delLoop_desc (u : List Nat) (nid : Nat) :
    ∀ (n : Nat) (st : Store),
      (∀ j, j < n → u.getD j 0 ≠ nid) →
      (∀ j, j < n → (List.lookup (u.getD j 0) st).isSome = true ∧
        j < (nodeGet st (u.getD j 0)).diff.length ∧
        j < (nodeGet st (u.getD j 0)).forward.length) →
      (∀ y, keyN (delLoop u nid st n) y = keyN st y) ∧
      (∀ y, dataN (delLoop u nid st n) y = dataN st y) ∧
      (∀ y, heightN (delLoop u nid st n) y = heightN st y) ∧
      (∀ y, (List.lookup y (delLoop u nid st n)).isSome = (List.lookup y st).isSome) ∧
      (∀ y, (nodeGet (delLoop u nid st n) y).diff.length = (nodeGet st y).diff.length) ∧
      (∀ y, (nodeGet (delLoop u nid st n) y).forward.length =
        (nodeGet st y).forward.length) ∧
      ((delLoop u nid st n).map Prod.fst = st.map Prod.fst) ∧
      ((delLoop u nid st n).length = st.length) ∧
      (∀ y j, forwardN (delLoop u nid st n) y j =
        if j < n ∧ y = u.getD j 0 ∧ forwardN st (u.getD j 0) j = some nid
        then forwardN st nid j else forwardN st y j) ∧
      (∀ y j, diffN (delLoop u nid st n) y j =
        if j < n ∧ y = u.getD j 0 then
          (if forwardN st (u.getD j 0) j = some nid
           then diffN st y j + diffN st nid j - 1 else diffN st y j - 1)
        else diffN st y j) := by
  intro n
  induction n with
  | zero =>
    intro st _ _
    refine ⟨fun y => rfl, fun y => rfl, fun y => rfl, fun y => rfl, fun y => rfl,
      fun y => rfl, rfl, rfl, ?_, ?_⟩
    · intro y j
      rw [if_neg (fun h => absurd h.1 (by omega))]
      rfl
    · intro y j
      rw [if_neg (fun h => absurd h.1 (by omega))]
      rfl
  | succ n ih =>
    intro st hne hu
    obtain ⟨i1, i2, i3, i4, i5, i6, i7, i8, i9, i10⟩ :=
      ih st (fun j hj => hne j (by omega)) (fun j hj => hu j (by omega))
    have hun := hu n (by omega)
    have hnen := hne n (by omega)
    have hfwdn : forwardN (delLoop u nid st n) (u.getD n 0) n =
        forwardN st (u.getD n 0) n := by
      rw [i9, if_neg (fun h => absurd h.1 (by omega))]
    have hdiffun : diffN (delLoop u nid st n) (u.getD n 0) n = diffN st (u.getD n 0) n := by
      rw [i10, if_neg (fun h => absurd h.1 (by omega))]
    have hfwdnid : forwardN (delLoop u nid st n) nid n = forwardN st nid n := by
      rw [i9, if_neg (fun h => absurd h.1 (by omega))]
    have hdiffnid : diffN (delLoop u nid st n) nid n = diffN st nid n := by
      rw [i10, if_neg (fun h => absurd h.1 (by omega))]
    have hlk : (List.lookup (u.getD n 0) (delLoop u nid st n)).isSome = true := by
      rw [i4]; exact hun.1
    have hdl : n < (nodeGet (delLoop u nid st n) (u.getD n 0)).diff.length := by
      rw [i5]; exact hun.2.1
    have hfl : n < (nodeGet (delLoop u nid st n) (u.getD n 0)).forward.length := by
      rw [i6]; exact hun.2.2
    by_cases hc : forwardN st (u.getD n 0) n = some nid
    · have hunf : delLoop u nid st (n + 1) =
          setForward (setDiff (delLoop u nid st n) (u.getD n 0) n
            (diffN (delLoop u nid st n) (u.getD n 0) n +
             diffN (delLoop u nid st n) nid n - 1)) (u.getD n 0) n
            (forwardN (delLoop u nid st n) nid n) := by
        show (if forwardN (delLoop u nid st n) (u.getD n 0) n = some nid then _ else _) = _
        rw [if_pos (by rw [hfwdn]; exact hc)]
      have hlk2 : (List.lookup (u.getD n 0) (setDiff (delLoop u nid st n) (u.getD n 0) n
          (diffN (delLoop u nid st n) (u.getD n 0) n +
           diffN (delLoop u nid st n) nid n - 1))).isSome = true := by
        rw [isSome_lookup_setDiff]; exact hlk
      have hfl2 : n < (nodeGet (setDiff (delLoop u nid st n) (u.getD n 0) n
          (diffN (delLoop u nid st n) (u.getD n 0) n +
           diffN (delLoop u nid st n) nid n - 1)) (u.getD n 0)).forward.length := by
        rw [fwdLen_setDiff]; exact hfl
      refine ⟨?_, ?_, ?_, ?_, ?_, ?_, ?_, ?_, ?_, ?_⟩
      · intro y; rw [hunf, keyN_setForward, keyN_setDiff, i1]
      · intro y; rw [hunf, dataN_setForward, dataN_setDiff, i2]
      · intro y; rw [hunf, heightN_setForward, heightN_setDiff, i3]
      · intro y; rw [hunf, isSome_lookup_setForward, isSome_lookup_setDiff, i4]
      · intro y; rw [hunf, diffLen_setForward, diffLen_setDiff, i5]
      · intro y; rw [hunf, fwdLen_setForward, fwdLen_setDiff, i6]
      · rw [hunf, map_fst_setForward, map_fst_setDiff, i7]
      · rw [hunf, length_setForward, length_setDiff, i8]
      · intro y j
        rw [hunf, forwardN_setForward, forwardN_setDiff, hfwdnid, i9 y j]
        by_cases hjn : j = n
        · subst hjn
          by_cases hyu : y = u.getD j 0
          · subst hyu
            rw [if_pos ⟨rfl, hlk2, rfl, hfl2⟩, if_pos ⟨by omega, rfl, hc⟩]
          · rw [if_neg (fun h => hyu h.1), if_neg (fun h => absurd h.1 (by omega)),
              if_neg (fun h => hyu h.2.1)]
        · rw [if_neg (fun h => hjn h.2.2.1.symm)]
          by_cases hcase : j < n ∧ y = u.getD j 0 ∧ forwardN st (u.getD j 0) j = some nid
          · rw [if_pos hcase, if_pos (show j < n + 1 ∧ y = u.getD j 0 ∧
              forwardN st (u.getD j 0) j = some nid from ⟨by omega, hcase.2⟩)]
          · rw [if_neg hcase, if_neg (fun h => hcase ⟨by omega, h.2⟩)]
      · intro y j
        rw [hunf, diffN_setForward, diffN_setDiff, hdiffun, hdiffnid, i10 y j]
        by_cases hjn : j = n
        · subst hjn
          by_cases hyu : y = u.getD j 0
          · subst hyu
            rw [if_pos ⟨rfl, hlk, rfl, hdl⟩, if_pos ⟨by omega, rfl⟩, if_pos hc]
          · rw [if_neg (fun h => hyu h.1), if_neg (fun h => absurd h.1 (by omega)),
              if_neg (fun h => hyu h.2)]
        · rw [if_neg (fun h => hjn h.2.2.1.symm)]
          by_cases hcase : j < n ∧ y = u.getD j 0
          · rw [if_pos hcase,
              if_pos (show j < n + 1 ∧ y = u.getD j 0 from ⟨by omega, hcase.2⟩)]
          · rw [if_neg hcase, if_neg (fun h => hcase ⟨by omega, h.2⟩)]
    · have hunf : delLoop u nid st (n + 1) =
          setDiff (delLoop u nid st n) (u.getD n 0) n
            (diffN (delLoop u nid st n) (u.getD n 0) n - 1) := by
        show (if forwardN (delLoop u nid st n) (u.getD n 0) n = some nid then _ else _) = _
        rw [if_neg (by rw [hfwdn]; exact hc)]
      refine ⟨?_, ?_, ?_, ?_, ?_, ?_, ?_, ?_, ?_, ?_⟩
      · intro y; rw [hunf, keyN_setDiff, i1]
      · intro y; rw [hunf, dataN_setDiff, i2]
      · intro y; rw [hunf, heightN_setDiff, i3]
      · intro y; rw [hunf, isSome_lookup_setDiff, i4]
      · intro y; rw [hunf, diffLen_setDiff, i5]
      · intro y; rw [hunf, fwdLen_setDiff, i6]
      · rw [hunf, map_fst_setDiff, i7]
      · rw [hunf, length_setDiff, i8]
      · intro y j
        rw [hunf, forwardN_setDiff, i9 y j]
        by_cases hjn : j = n
        · subst hjn
          rw [if_neg (fun h => absurd h.1 (by omega))]
          by_cases hyu : y = u.getD j 0
          · subst hyu
            rw [if_neg (fun h => hc h.2.2)]
          · rw [if_neg (fun h => hyu h.2.1)]
        · by_cases hcase : j < n ∧ y = u.getD j 0 ∧ forwardN st (u.getD j 0) j = some nid
          · rw [if_pos hcase, if_pos (show j < n + 1 ∧ y = u.getD j 0 ∧
              forwardN st (u.getD j 0) j = some nid from ⟨by omega, hcase.2⟩)]
          · rw [if_neg hcase, if_neg (fun h => hcase ⟨by omega, h.2⟩)]
      · intro y j
        rw [hunf, diffN_setDiff, hdiffun, i10 y j]
        by_cases hjn : j = n
        · subst hjn
          by_cases hyu : y = u.getD j 0
          · subst hyu
            rw [if_pos ⟨rfl, hlk, rfl, hdl⟩, if_pos ⟨by omega, rfl⟩, if_neg hc]
          · rw [if_neg (fun h => hyu h.1), if_neg (fun h => absurd h.1 (by omega)),
              if_neg (fun h => hyu h.2)]
        · rw [if_neg (fun h => hjn h.2.2.1.symm)]
          by_cases hcase : j < n ∧ y = u.getD j 0
          · rw [if_pos hcase,
              if_pos (show j < n + 1 ∧ y = u.getD j 0 from ⟨by omega, hcase.2⟩)]
          · rw [if_neg hcase, if_neg (fun h => hcase ⟨by omega, h.2⟩)]

theorem linkedR_build (st : Store) (i : Nat) :
    ∀ (l : List (Nat × Int)) (x : Nat),
      (∀ pre q post, l = pre ++ q :: post → forwardN st (lastIdOf x pre) i = some q.1) →
      linkedR st i x l := by
  intro l
  induction l with
  | nil => intro x _; trivial
  | cons a t ih =>
    intro x h
    refine ⟨?_, ?_⟩
    · have := h [] a t rfl
      rwa [lastIdOf_nil] at this
    · refine ih a.1 ?_
      intro pre q post hsplit
      have := h (a :: pre) q post (by rw [hsplit]; rfl)
      rwa [lastIdOf_cons] at this

theorem linkedR_extract (st : Store) (i : Nat) :
    ∀ (l : List (Nat × Int)) (x : Nat), linkedR st i x l →
      ∀ pre q post, l = pre ++ q :: post → forwardN st (lastIdOf x pre) i = some q.1 := by
  intro l
  induction l with
  | nil =>
    intro x _ pre q post hsplit
    exact absurd hsplit (by simp)
  | cons a t ih =>
    intro x hl pre q post hsplit
    obtain ⟨h1, h2⟩ := hl
    cases pre with
    | nil =>
      rw [lastIdOf_nil]
      have : a = q := by
        have := congrArg (fun l => List.head? l) hsplit
        simpa using this
      rw [← this]
      exact h1
    | cons p ps =>
      rw [lastIdOf_cons]
      have htail : t = ps ++ q :: post := by
        have := congrArg (fun l => List.tail l) hsplit
        simpa using this
      have hap : a = p := by
        have := congrArg (fun l => List.head? l) hsplit
        simpa using this
      rw [← hap]
      exact ih a.1 h2 ps q post htail

theorem spansR_build (st : Store) (i : Nat) :
    ∀ (l : List (Nat × Int)) (xr : Nat × Int),
      (∀ pre q post, l = pre ++ q :: post →
        diffN st (lastPairOf xr pre).1 i = q.2 - (lastPairOf xr pre).2) →
      spansR st i xr l := by
  intro l
  induction l with
  | nil => intro xr _; trivial
  | cons a t ih =>
    intro xr h
    refine ⟨?_, ?_⟩
    · have := h [] a t rfl
      rwa [lastPairOf_nil] at this
    · refine ih a ?_
      intro pre q post hsplit
      have := h (a :: pre) q post (by rw [hsplit]; rfl)
      rwa [lastPairOf_cons] at this

theorem spansR_extract (st : Store) (i : Nat) :
    ∀ (l : List (Nat × Int)) (xr : Nat × Int), spansR st i xr l →
      ∀ pre q post, l = pre ++ q :: post →
        diffN st (lastPairOf xr pre).1 i = q.2 - (lastPairOf xr pre).2 := by
  intro l
  induction l with
  | nil =>
    intro xr _ pre q post hsplit
    exact absurd hsplit (by simp)
  | cons a t ih =>
    intro xr hl pre q post hsplit
    obtain ⟨h1, h2⟩ := hl
    cases pre with
    | nil =>
      rw [lastPairOf_nil]
      have : a = q := by
        have := congrArg (fun l => List.head? l) hsplit
        simpa using this
      rw [← this]
      exact h1
    | cons p ps =>
      rw [lastPairOf_cons]
      have htail : t = ps ++ q :: post := by
        have := congrArg (fun l => List.tail l) hsplit
        simpa using this
      have hap : a = p := by
        have := congrArg (fun l => List.head? l) hsplit
        simpa using this
      rw [← hap]
      exact ih a h2 ps q post htail

/-- Rank shift of a rank-annotated chain. -/
def shift1 (l : List (Nat × Int)) : List (Nat × Int) := l.map (fun p => (p.1, p.2 + 1))

theorem numberFrom_succ (l : List Nat) : ∀ r : Int, numberFrom (r + 1) l = shift1 (numberFrom r l) := by
  induction l with
  | nil => intro r; rfl
  | cons a t ih =>
    intro r
    show (a, r + 1) :: numberFrom (r + 1 + 1) t = (a, r + 1) :: shift1 (numberFrom (r + 1) t)
    rw [ih (r + 1)]

theorem shift1_fst (l : List (Nat × Int)) : (shift1 l).map Prod.fst = l.map Prod.fst := by
  simp [shift1]

theorem chainF_shift1 (st : Store) (i : Nat) (l : List (Nat × Int)) :
    chainF st i (shift1 l) = shift1 (chainF st i l) := by
  simp [chainF, shift1, List.filter_map]
  rfl

theorem chainF_append (st : Store) (i : Nat) (l m : List (Nat × Int)) :
    chainF st i (l ++ m) = chainF st i l ++ chainF st i m := by
  simp [chainF]

theorem chainF_cons_tall (st : Store) (i : Nat) (p : Nat × Int) (l : List (Nat × Int))
    (h : i < heightN st p.1) : chainF st i (p :: l) = p :: chainF st i l := by
  simp [chainF, h]

theorem chainF_cons_short (st : Store) (i : Nat) (p : Nat × Int) (l : List (Nat × Int))
    (h : ¬ i < heightN st p.1) : chainF st i (p :: l) = chainF st i l := by
  simp [chainF, h]

theorem chainF_congr {st st' : Store} {i : Nat} {l : List (Nat × Int)}
    (h : ∀ p ∈ l, heightN st' p.1 = heightN st p.1) : chainF st' i l = chainF st i l := by
  unfold chainF
  apply List.filter_congr
  intro p hp
  rw [h p hp]

theorem linkedR_shift1 (st : Store) (i : Nat) :
    ∀ (l : List (Nat × Int)) (x : Nat), linkedR st i x (shift1 l) ↔ linkedR st i x l := by
  intro l
  induction l with
  | nil => intro x; exact Iff.rfl
  | cons a t ih =>
    intro x
    show (forwardN st x i = some a.1 ∧ linkedR st i a.1 (shift1 t)) ↔
      (forwardN st x i = some a.1 ∧ linkedR st i a.1 t)
    rw [ih a.1]

theorem spansR_shift1 (st : Store) (i : Nat) :
    ∀ (l : List (Nat × Int)) (x : Nat) (r : Int),
      spansR st i (x, r + 1) (shift1 l) ↔ spansR st i (x, r) l := by
  intro l
  induction l with
  | nil => intro x r; exact Iff.rfl
  | cons a t ih =>
    intro x r
    show (diffN st x i = a.2 + 1 - (r + 1) ∧ spansR st i (a.1, a.2 + 1) (shift1 t)) ↔
      (diffN st x i = a.2 - r ∧ spansR st i a t)
    constructor
    · intro ⟨h1, h2⟩
      exact ⟨by omega, (ih a.1 a.2).mp h2⟩
    · intro ⟨h1, h2⟩
      exact ⟨by omega, (ih a.1 a.2).mpr h2⟩

theorem lastIdOf_mem (x : Nat) (l : List (Nat × Int)) :
    lastIdOf x l = x ∨ lastIdOf x l ∈ l.map Prod.fst := by
  induction l generalizing x with
  | nil => exact Or.inl rfl
  | cons a t ih =>
    rw [lastIdOf_cons]
    rcases ih a.1 with h | h
    · exact Or.inr (by rw [h]; simp)
    · exact Or.inr (by simp; right; simpa using h)

theorem lastPairOf_shift1 (l : List (Nat × Int)) (x : Nat) (r : Int) :
    lastPairOf (x, r + 1) (shift1 l) =
      ((lastPairOf (x, r) l).1, (lastPairOf (x, r) l).2 + 1) := by
  induction l generalizing x r with
  | nil => rfl
  | cons a t ih =>
    have h0 : shift1 (a :: t) = (a.1, a.2 + 1) :: shift1 t := rfl
    rw [h0, lastPairOf_cons, lastPairOf_cons]
    exact ih a.1 a.2

theorem lastIdOf_shift1 (l : List (Nat × Int)) (x : Nat) :
    lastIdOf x (shift1 l) = lastIdOf x l := by
  unfold lastIdOf
  rw [shift1_fst]

theorem takeWhile_all_append {α : Type} (p : α → Bool) (A B : List α)
    (hA : ∀ a ∈ A, p a = true) (hB : ∀ b ∈ B, p b = false) :
    (A ++ B).takeWhile p = A ∧ (A ++ B).dropWhile p = B := by
  induction A with
  | nil =>
    simp only [List.nil_append]
    cases B with
    | nil => exact ⟨rfl, rfl⟩
    | cons b bs =>
      constructor
      · rw [List.takeWhile_cons, hB b (List.mem_cons_self b bs)]
        simp
      · rw [List.dropWhile_cons, hB b (List.mem_cons_self b bs)]
        simp
  | cons a t ih =>
    obtain ⟨ih1, ih2⟩ := ih (fun a ha => hA a (List.mem_cons_of_mem _ ha))
    constructor
    · rw [List.cons_append, List.takeWhile_cons, hA a (List.mem_cons_self a t)]
      simp [ih1]
    · rw [List.cons_append, List.dropWhile_cons, hA a (List.mem_cons_self a t)]
      simp [ih2]

theorem lastPairOf_numberFrom_snd :
    ∀ (l : List Nat) (r : Int) (z : Nat),
      (lastPairOf (z, r - 1) (numberFrom r l)).2 = r - 1 + l.length := by
  intro l
  induction l with
  | nil => intro r z; simp [numberFrom, lastPairOf_nil]
  | cons a t ih =>
    intro r z
    have h0 : numberFrom r (a :: t) = (a, r) :: numberFrom (r + 1) t := rfl
    rw [h0, lastPairOf_cons]
    have he : ((a : Nat), (r : Int)) = (a, (r + 1) - 1) := by norm_num
    rw [he, ih (r + 1) a]
    push_cast [List.length_cons]
    ring

theorem nodeGet_cons_self (x : Nat) (nd : Node) (st : Store) :
    nodeGet ((x, nd) :: st) x = nd := by
  unfold nodeGet
  rw [lookup_cons_store, if_pos rfl]
  rfl

theorem nodeGet_cons_ne (x y : Nat) (nd : Node) (st : Store) (h : y ≠ x) :
    nodeGet ((x, nd) :: st) y = nodeGet st y := by
  unfold nodeGet
  rw [lookup_cons_store, if_neg h]

theorem isSome_lookup_cons (x y : Nat) (nd : Node) (st : Store) :
    (List.lookup y ((x, nd) :: st)).isSome =
      (if y = x then true else (List.lookup y st).isSome) := by
  rw [lookup_cons_store]
  by_cases h : y = x <;> simp [h]

theorem lookup_filter_ne (st : Store) (nid y : Nat) (h : y ≠ nid) :
    List.lookup y (st.filter (fun p => decide (p.1 ≠ nid))) = List.lookup y st := by
  induction st with
  | nil => rfl
  | cons a t ih =>
    obtain ⟨a1, a2⟩ := a
    rw [List.filter_cons]
    by_cases ha : a1 = nid
    · rw [if_neg (by simp [ha])]
      rw [ih, lookup_cons_store, if_neg (by rw [ha]; exact h)]
    · rw [if_pos (by simp [ha])]
      rw [lookup_cons_store, lookup_cons_store]
      by_cases hy : y = a1
      · rw [if_pos hy, if_pos hy]
      · rw [if_neg hy, if_neg hy, ih]

theorem lookup_filter_self (st : Store) (nid : Nat) :
    List.lookup nid (st.filter (fun p => decide (p.1 ≠ nid))) = none := by
  induction st with
  | nil => rfl
  | cons a t ih =>
    obtain ⟨a1, a2⟩ := a
    rw [List.filter_cons]
    by_cases ha : a1 = nid
    · rw [if_neg (by simp [ha])]
      exact ih
    · rw [if_pos (by simp [ha])]
      rw [lookup_cons_store, if_neg (fun he => ha he.symm), ih]

theorem map_fst_filter_nodup (st : Store) (nid : Nat)
    (h : (st.map Prod.fst).Nodup) :
    ((st.filter (fun p => decide (p.1 ≠ nid))).map Prod.fst).Nodup :=
  h.sublist ((List.filter_sublist st).map Prod.fst)

theorem takeWhile_numberFrom (QB : Nat → Bool) :
    ∀ (l : List Nat) (r : Int),
      (numberFrom r l).takeWhile (fun p => QB p.1) = numberFrom r (l.takeWhile QB) ∧
      (numberFrom r l).dropWhile (fun p => QB p.1) =
        numberFrom (r + (l.takeWhile QB).length) (l.dropWhile QB) := by
  intro l
  induction l with
  | nil =>
    intro r
    refine ⟨rfl, ?_⟩
    show ([] : List (Nat × Int)) = numberFrom (r + (0 : Nat)) []
    rfl
  | cons a t ih =>
    intro r
    have h0 : numberFrom r (a :: t) = (a, r) :: numberFrom (r + 1) t := rfl
    by_cases h : QB a
    · have h1 : (a :: t).takeWhile QB = a :: t.takeWhile QB := by
        rw [List.takeWhile_cons, if_pos h]
      have h2 : (a :: t).dropWhile QB = t.dropWhile QB := by
        rw [List.dropWhile_cons, if_pos h]
      refine ⟨?_, ?_⟩
      · rw [h0, List.takeWhile_cons]
        rw [if_pos (by simpa using h), (ih (r + 1)).1, h1]
        rfl
      · rw [h0, List.dropWhile_cons]
        rw [if_pos (by simpa using h), (ih (r + 1)).2, h1, h2]
        congr 1
        simp
        ring
    · have h1 : (a :: t).takeWhile QB = [] := by
        rw [List.takeWhile_cons, if_neg h]
      have h2 : (a :: t).dropWhile QB = a :: t := by
        rw [List.dropWhile_cons, if_neg h]
      refine ⟨?_, ?_⟩
      · rw [h0, List.takeWhile_cons]
        rw [if_neg (by simpa using h), h1]
        rfl
      · rw [h0, List.dropWhile_cons]
        rw [if_neg (by simpa using h), h1, h2]
        show (a, r) :: numberFrom (r + 1) t = numberFrom (r + (0 : Nat)) (a :: t)
        have : r + ((0 : Nat) : Int) = r := by simp
        rw [this]
        exact h0.symm

theorem split_lastId_ne (x : Nat) (pre post : List (Nat × Int)) (q : Nat × Int)
    (hnd : (x :: (pre ++ q :: post).map Prod.fst).Nodup) :
    lastIdOf x pre ≠ lastIdOf x (pre ++ q :: post) := by
  have h2 : lastIdOf x (pre ++ q :: post) ∈ (q :: post).map Prod.fst := by
    rw [lastIdOf_append, lastIdOf_cons]
    rcases lastIdOf_mem q.1 post with h | h
    · rw [h]
      exact List.mem_cons_self _ _
    · exact List.mem_cons_of_mem _ h
  rw [List.map_append] at hnd
  have hx : x ∉ pre.map Prod.fst ++ (q :: post).map Prod.fst := (List.nodup_cons.mp hnd).1
  have hdisj := List.disjoint_of_nodup_append (List.nodup_cons.mp hnd).2
  intro he
  rcases lastIdOf_mem x pre with h1 | h1
  · rw [h1] at he
    exact hx (List.mem_append.mpr (Or.inr (he ▸ h2)))
  · exact hdisj h1 (he ▸ h2)

theorem linkedR_transport (st st' : Store) (i : Nat) (l : List (Nat × Int)) (x : Nat)
    (h : linkedR st i x l)
    (hf : ∀ pre q post, l = pre ++ q :: post →
      forwardN st' (lastIdOf x pre) i = forwardN st (lastIdOf x pre) i) :
    linkedR st' i x l :=
  linkedR_build st' i l x (fun pre q post hs =>
    (hf pre q post hs).trans (linkedR_extract st i l x h pre q post hs))

theorem spansR_transport (st st' : Store) (i : Nat) (l : List (Nat × Int)) (xr : Nat × Int)
    (h : spansR st i xr l)
    (hf : ∀ pre q post, l = pre ++ q :: post →
      diffN st' (lastPairOf xr pre).1 i = diffN st (lastPairOf xr pre).1 i) :
    spansR st' i xr l :=
  spansR_build st' i l xr (fun pre q post hs =>
    (hf pre q post hs).trans (spansR_extract st i l xr h pre q post hs))

theorem lookup_of_mem_nodup :
    ∀ (l : List (Nat × Int)), (l.map Prod.fst).Nodup →
      ∀ y r, (y, r) ∈ l → l.lookup y = some r := by
  intro l
  induction l with
  | nil => intro _ y r h; cases h
  | cons a t ih =>
    intro hnd y r hm
    obtain ⟨a1, a2⟩ := a
    have hnd2 := List.nodup_cons.mp hnd
    have hlk : List.lookup y ((a1, a2) :: t) =
        if y = a1 then some a2 else List.lookup y t := by
      by_cases h : y = a1
      · subst h
        simp [List.lookup]
      · simp [List.lookup, beq_false_of_ne h, h]
    rcases List.mem_cons.mp hm with he | hmem
    · have he1 : y = a1 := congrArg Prod.fst he
      have he2 : r = a2 := congrArg Prod.snd he
      subst he1
      subst he2
      rw [hlk, if_pos rfl]
    · by_cases hy : y = a1
      · exfalso
        subst hy
        exact hnd2.1 (List.mem_map.mpr ⟨(y, r), hmem, rfl⟩)
      · rw [hlk, if_neg hy]
        exact ih hnd2.2 y r hmem

theorem Choose_Random_Level_bounds (g : Nat) :
    1 ≤ (Choose_Random_Level g).1 ∧ (Choose_Random_Level g).1 ≤ MAX_LEVEL := by
  constructor
  · show 1 ≤ min (countLow1 g + 1) MAX_LEVEL
    exact le_min (by omega) (by decide)
  · exact min_le_right _ _

theorem shrinkLoop_bounds (st : Store) :
    ∀ L, 1 ≤ L → 1 ≤ shrinkLoop st L ∧ shrinkLoop st L ≤ L ∧
      (∀ j, shrinkLoop st L ≤ j → j < L → forwardN st 0 j = none) := by
  intro L
  induction L with
  | zero => intro h; exact absurd h (by decide)
  | succ L ih =>
    intro _
    cases hL : L with
    | zero =>
      refine ⟨le_refl 1, le_refl 1, ?_⟩
      intro j h1 h2
      have hs1 : shrinkLoop st (0 + 1) = 1 := rfl
      rw [hs1] at h1
      omega
    | succ L2 =>
      show 1 ≤ shrinkLoop st (L2 + 2) ∧ _
      by_cases hf : forwardN st 0 (L2 + 1) = none
      · have hun : shrinkLoop st (L2 + 2) = shrinkLoop st (L2 + 1) := by
          show (if forwardN st 0 (L2 + 1) = none then shrinkLoop st (L2 + 1) else L2 + 2) = _
          rw [if_pos hf]
        obtain ⟨b1, b2, b3⟩ := ih (hL ▸ by omega)
        rw [hL] at b1 b2 b3
        rw [hun]
        refine ⟨b1, by omega, ?_⟩
        intro j h1 h2
        by_cases hj : j = L2 + 1
        · rw [hj]; exact hf
        · exact b3 j h1 (by omega)
      · have hun : shrinkLoop st (L2 + 2) = L2 + 2 := by
          show (if forwardN st 0 (L2 + 1) = none then shrinkLoop st (L2 + 1) else L2 + 2) = _
          rw [if_neg hf]
        rw [hun]
        refine ⟨by omega, le_refl _, ?_⟩
        intro j h1 h2
        omega

theorem Member_Compare_le_iff (a b : Int) : Member_Compare a b ≤ 0 ↔ a ≤ b := by
  unfold Member_Compare
  split_ifs with h1 h2
  · constructor
    · intro _; omega
    · intro _; decide
  · constructor
    · intro _; omega
    · intro _; decide
  · constructor
    · intro h; exact absurd h (by decide)
    · intro h; omega

theorem dropWhile_keyGe (st : Store) (k : Int) (sp : List Nat)
    (hsorted : (sp.map (keyD st)).Pairwise (· ≤ ·)) :
    ∀ y ∈ sp.dropWhile (fun z => decide (keyD st z < k)), ¬ keyD st y < k := by
  intro y hy
  set Q := fun z : Nat => decide (keyD st z < k) with hQ
  cases hD : sp.dropWhile Q with
  | nil => rw [hD] at hy; cases hy
  | cons b bs =>
    have hne : sp.dropWhile Q ≠ [] := by rw [hD]; simp
    have hbf := List.head_dropWhile_not Q sp hne
    have hbeq : (sp.dropWhile Q).head hne = b := by
      have h2 : (sp.dropWhile Q).head? = some b := by rw [hD]; rfl
      rwa [List.head?_eq_head hne, Option.some_inj] at h2
    rw [hbeq] at hbf
    have hble : ¬ keyD st b < k := by simpa [hQ] using hbf
    rw [hD] at hy
    rcases List.mem_cons.mp hy with rfl | hbs
    · exact hble
    · have hsub : (sp.dropWhile Q).Sublist sp := List.dropWhile_sublist Q
      have hpw : ((sp.dropWhile Q).map (keyD st)).Pairwise (· ≤ ·) :=
        hsorted.sublist (hsub.map _)
      rw [hD] at hpw
      have := (List.pairwise_cons.mp hpw).1 (keyD st y) (List.mem_map_of_mem _ hbs)
      omega

theorem lastIdOf_indep (a : Nat × Int) (l : List (Nat × Int)) (x y : Nat) :
    lastIdOf x (a :: l) = lastIdOf y (a :: l) := by
  rw [lastIdOf_cons, lastIdOf_cons]

theorem lastPairOf_indep (a : Nat × Int) (l : List (Nat × Int)) (x y : Nat × Int) :
    lastPairOf x (a :: l) = lastPairOf y (a :: l) := by
  rw [lastPairOf_cons, lastPairOf_cons]

theorem iterLoop_spec (st : Store) :
    ∀ (l : List (Nat × Int)) (x : Nat) (fuel : Nat),
      linkedR st 0 x l → forwardN st (lastIdOf x l) 0 = none → l.length ≤ fuel →
      iterLoop st fuel x = l.map (fun p => (keyN st p.1, dataN st p.1)) := by
  intro l
  induction l with
  | nil =>
    intro x fuel _ hend _
    rw [lastIdOf_nil] at hend
    cases fuel with
    | zero => rfl
    | succ f => simp [iterLoop, hend]
  | cons a t ih =>
    intro x fuel hlink hend hfuel
    obtain ⟨h1, h2⟩ := hlink
    rw [lastIdOf_cons] at hend
    obtain ⟨f, rfl⟩ : ∃ f, fuel = f + 1 := ⟨fuel - 1, by simp at hfuel; omega⟩
    have hstep : iterLoop st (f + 1) x = (keyN st a.1, dataN st a.1) :: iterLoop st f a.1 := by
      simp [iterLoop, h1]
    rw [hstep, ih a.1 f h2 hend (by simp at hfuel; omega)]
    rfl

theorem spineLoop_spec (st : Store) :
    ∀ (l : List (Nat × Int)) (x : Nat) (fuel : Nat),
      linkedR st 0 x l → forwardN st (lastIdOf x l) 0 = none → l.length ≤ fuel →
      spineLoop st fuel x = l.map Prod.fst := by
  intro l
  induction l with
  | nil =>
    intro x fuel _ hend _
    rw [lastIdOf_nil] at hend
    cases fuel with
    | zero => rfl
    | succ f => simp [spineLoop, hend]
  | cons a t ih =>
    intro x fuel hlink hend hfuel
    obtain ⟨h1, h2⟩ := hlink
    rw [lastIdOf_cons] at hend
    obtain ⟨f, rfl⟩ : ∃ f, fuel = f + 1 := ⟨fuel - 1, by simp at hfuel; omega⟩
    have hstep : spineLoop st (f + 1) x = a.1 :: spineLoop st f a.1 := by
      simp [spineLoop, h1]
    rw [hstep, ih a.1 f h2 hend (by simp at hfuel; omega)]
    rfl

theorem spanWalk_spec (st : Store) (i : Nat) :
    ∀ (l : List (Nat × Int)) (x : Nat) (rx : Int) (fuel : Nat) (y : Nat) (r : Int),
      linkedR st i x l → spansR st i (x, rx) l → (y, r) ∈ l →
      (x :: l.map Prod.fst).Nodup → l.length + 1 ≤ fuel →
      spanWalk st i y fuel x rx = some r := by
  intro l
  induction l with
  | nil =>
    intro x rx fuel y r _ _ hm _ _
    cases hm
  | cons a t ih =>
    intro x rx fuel y r hlink hspan hm hnd hfuel
    obtain ⟨h1, h2⟩ := hlink
    obtain ⟨h3, h4⟩ := hspan
    obtain ⟨f, rfl⟩ : ∃ f, fuel = f + 1 := ⟨fuel - 1, by simp at hfuel; omega⟩
    have hymem : y ∈ (a :: t).map Prod.fst := List.mem_map.mpr ⟨(y, r), hm, rfl⟩
    have hxy : x ≠ y := by
      intro he
      exact (List.nodup_cons.mp hnd).1 (he ▸ hymem)
    have hstep : spanWalk st i y (f + 1) x rx = spanWalk st i y f a.1 (rx + diffN st x i) := by
      simp [spanWalk, hxy, h1]
    rw [hstep, h3]
    have hacc : rx + (a.2 - rx) = a.2 := by ring
    rw [hacc]
    have hndt : (a.1 :: t.map Prod.fst).Nodup := (List.nodup_cons.mp hnd).2
    by_cases hay : a.1 = y
    · have ha : (y, r) = a := by
        rcases List.mem_cons.mp hm with he2 | he2
        · exact he2
        · exfalso
          have : y ∈ t.map Prod.fst := List.mem_map.mpr ⟨(y, r), he2, rfl⟩
          exact (List.nodup_cons.mp hndt).1 (hay ▸ this)
      obtain ⟨f2, rfl⟩ : ∃ f2, f = f2 + 1 := ⟨f - 1, by simp at hfuel; omega⟩
      have hr : r = a.2 := by rw [← ha]
      have hstop : spanWalk st i y (f2 + 1) a.1 a.2 = some a.2 := by
        simp [spanWalk, hay]
      rw [hstop, hr]
    · have hmt : (y, r) ∈ t := by
        rcases List.mem_cons.mp hm with he2 | he2
        · exact absurd (congrArg Prod.fst he2.symm) hay
        · exact he2
      exact ih a.1 a.2 f y r h2 h4 hmt hndt (by simp at hfuel; omega)

theorem forward_takeWhile_head (st : Store) (i : Nat) (P : Nat × Int → Bool)
    (C : List (Nat × Int))
    (hlink : linkedR st i 0 C)
    (hend : forwardN st (lastIdOf 0 C) i = none) :
    forwardN st (lastPairOf (0, 0) (C.takeWhile P)).1 i =
      ((C.dropWhile P).head?).map Prod.fst := by
  have hsplit := List.takeWhile_append_dropWhile P C
  have hid : (lastPairOf ((0 : Nat), (0 : Int)) (C.takeWhile P)).1 =
      lastIdOf 0 (C.takeWhile P) := (lastIdOf_eq_lastPairOf 0 0 _).symm
  rw [hid]
  cases hD : C.dropWhile P with
  | nil =>
    have hC : C = C.takeWhile P := by
      conv_lhs => rw [← hsplit]
      rw [hD, List.append_nil]
    show forwardN st (lastIdOf 0 (C.takeWhile P)) i = none
    rw [← hC]
    exact hend
  | cons b bs =>
    have hC : C = C.takeWhile P ++ b :: bs := by
      conv_lhs => rw [← hsplit]
      rw [hD]
    rw [linkedR_extract st i C 0 hlink (C.takeWhile P) b bs hC]
    rfl

theorem iterate_eq (sl : SL) (sp : List Nat) (h : WF sl sp) :
    SkipList_Iterate sl = sp.map (fun y => (keyN sl.store y, dataN sl.store y)) := by
  obtain ⟨hlink, hend, _, _⟩ := h.chains 0 h.level_pos
  have hzero : chainF sl.store 0 (numberFrom 1 sp) = numberFrom 1 sp :=
    chainF_zero _ _ (fun p hp => h.sp_hpos p.1 (mem_numberFrom hp).1)
  rw [hzero] at hlink hend
  unfold SkipList_Iterate
  rw [iterLoop_spec sl.store (numberFrom 1 sp) 0 sl.store.length hlink hend
    (by rw [length_numberFrom, WF_store_length sl sp h]; omega)]
  have hmap : sp.map (fun y => (keyN sl.store y, dataN sl.store y)) =
      (numberFrom 1 sp).map (fun p => (keyN sl.store p.1, dataN sl.store p.1)) := by
    conv_lhs => rw [← map_fst_numberFrom 1 sp]
    rw [List.map_map]
    rfl
  rw [hmap]

theorem spine_eq (sl : SL) (sp : List Nat) (h : WF sl sp) : spine sl = sp := by
  obtain ⟨hlink, hend, _, _⟩ := h.chains 0 h.level_pos
  have hzero : chainF sl.store 0 (numberFrom 1 sp) = numberFrom 1 sp :=
    chainF_zero _ _ (fun p hp => h.sp_hpos p.1 (mem_numberFrom hp).1)
  rw [hzero] at hlink hend
  unfold spine
  rw [spineLoop_spec sl.store (numberFrom 1 sp) 0 sl.store.length hlink hend
    (by rw [length_numberFrom, WF_store_length sl sp h]; omega)]
  exact map_fst_numberFrom 1 sp

theorem SkipList_Search_eq (sl : SL) (sp : List Nat) (h : WF sl sp) (k : Int) :
    (SkipList_Search sl k).1 =
      match (sp.dropWhile (fun y => decide (keyD sl.store y < k))).head? with
      | none => none
      | some y => if keyD sl.store y = k then some (dataN sl.store y) else none := by
  have hs := Search_by_Key_spec sl sp k h
  obtain ⟨hlink, hend, _, _⟩ := h.chains 0 h.level_pos
  have hzero : chainF sl.store 0 (numberFrom 1 sp) = numberFrom 1 sp :=
    chainF_zero _ _ (fun p hp => h.sp_hpos p.1 (mem_numberFrom hp).1)
  set P : Nat × Int → Bool := fun p => decide (keyD sl.store p.1 < k) with hP
  set Q : Nat → Bool := fun y => decide (keyD sl.store y < k) with hQ
  have hf0 : (Search_by_Key sl k).2.1.getD 0 0 = (lastLt sl.store k 0 (numberFrom 1 sp)).1 :=
    hs.fi 0 h.level_pos
  have hfwd : forwardN (Search_by_Key sl k).1.store
      ((Search_by_Key sl k).2.1.getD 0 0) 0 =
      (((numberFrom 1 sp).dropWhile P).head?).map Prod.fst := by
    rw [hs.store_eq, hf0]
    unfold lastLt
    rw [hzero]
    exact forward_takeWhile_head sl.store 0 P (numberFrom 1 sp) (hzero ▸ hlink) (hzero ▸ hend)
  have hdrop : ((numberFrom 1 sp).dropWhile P) =
      numberFrom (1 + (sp.takeWhile Q).length) (sp.dropWhile Q) := (takeWhile_numberFrom Q sp 1).2
  show (match forwardN (Search_by_Key sl k).1.store
      ((Search_by_Key sl k).2.1.getD 0 0) 0 with
    | none => (none, (Search_by_Key sl k).1)
    | some nid =>
      if cmpK k (keyN (Search_by_Key sl k).1.store nid) ≠ 0
      then (none, (Search_by_Key sl k).1)
      else (some (dataN (Search_by_Key sl k).1.store nid), (Search_by_Key sl k).1)).1 = _
  rw [hfwd, hdrop]
  cases hDW : sp.dropWhile Q with
  | nil => rfl
  | cons b bs =>
    have hb : b ∈ sp := (List.dropWhile_sublist Q).subset (hDW ▸ List.mem_cons_self b bs)
    have hkb : keyN sl.store b = some (keyD sl.store b) := h.sp_key b hb
    show (if cmpK k (keyN (Search_by_Key sl k).1.store b) ≠ 0
      then (none, (Search_by_Key sl k).1)
      else (some (dataN (Search_by_Key sl k).1.store b), (Search_by_Key sl k).1)).1 =
      (if keyD sl.store b = k then some (dataN sl.store b) else none)
    rw [hs.store_eq, hkb, cmpK_some]
    by_cases heq : keyD sl.store b = k
    · have hz : Member_Compare k (keyD sl.store b) = 0 :=
        (Member_Compare_eq_zero_iff _ _).mpr heq.symm
      rw [if_pos heq, if_neg (not_not_intro hz)]
    · rw [if_neg heq, if_pos (fun hc => heq ((Member_Compare_eq_zero_iff _ _).mp hc).symm)]

theorem getD_append_add {α : Type} (l m : List α) (i : Nat) (d : α) :
    (l ++ m).getD (l.length + i) d = m.getD i d := by
  simp [List.getD, List.getElem?_append_right (Nat.le_add_right l.length i)]

/-- The level-`j` search finger id for key `k` (the `u[j]` array written by
`Search_by_Key`). -/
def fingerU (sl : SL) (k : Int) (sp : List Nat) (j : Nat) : Nat :=
  (lastLt sl.store k j (numberFrom 1 sp)).1

/-- The level-`j` search finger rank for key `k` (the `d[j]` array written
by `Search_by_Key`). -/
def fingerDist (sl : SL) (k : Int) (sp : List Nat) (j : Nat) : Int :=
  (lastLt sl.store k j (numberFrom 1 sp)).2

theorem fingerU_high (sl : SL) (k : Int) (sp : List Nat) (h : WF sl sp) (j : Nat)
    (hj : sl.level ≤ j) : fingerU sl k sp j = 0 ∧ fingerDist sl k sp j = 0 := by
  unfold fingerU fingerDist lastLt
  rw [chainF_nil_of_high sl.store j _
    (fun p hp => le_trans (h.sp_hle p.1 (mem_numberFrom hp).1) hj)]
  exact ⟨rfl, rfl⟩

theorem fingerU_mem (sl : SL) (k : Int) (sp : List Nat) (j : Nat) :
    fingerU sl k sp j = 0 ∨
      ((fingerU sl k sp j, fingerDist sl k sp j) ∈ chainF sl.store j (numberFrom 1 sp) ∧
       keyD sl.store (fingerU sl k sp j) < k) := by
  rcases lastLt_prop sl.store k j (numberFrom 1 sp) with he | ⟨hm, hk⟩
  · left
    show (lastLt sl.store k j (numberFrom 1 sp)).1 = 0
    rw [he]
  · right
    have hpair : (fingerU sl k sp j, fingerDist sl k sp j) =
        lastLt sl.store k j (numberFrom 1 sp) := rfl
    rw [hpair]
    exact ⟨hm, hk⟩

/-- The body of `SkipList_Insert` after the key search, given the search
output explicitly. -/
def insertAssemble (sl1 : SL) (u0 : List Nat) (dv : List Int) (k m : Int) (nl : Nat) : SL :=
  let grow := decide (sl1.level < nl)
  let st2 := if grow then growLoop sl1.length sl1.store sl1.level (nl - sl1.level)
             else sl1.store
  let u := if grow then u0 ++ List.replicate (nl - sl1.level) 0 else u0
  let d := if grow then dv ++ List.replicate (nl - sl1.level) (0 : Int) else dv
  let lvl2 := if grow then nl else sl1.level
  let nid := sl1.nextId
  let st3 := (nid, MakeNode nl k m) :: st2
  let d0 := d.getD 0 0
  let st4 := insDiffLoop u d d0 nid st3 nl
  let st5 := insBumpLoop u st4 nl (lvl2 - nl)
  let st6 := insSpliceLoop u nid st5 nl
  { store := st6, finger := sl1.finger, distance := sl1.distance,
    level := lvl2, length := sl1.length + 1, nextId := nid + 1 }

theorem SkipList_Insert_h_eq (sl : SL) (k m : Int) (nl : Nat) :
    SkipList_Insert_h sl k m nl =
      insertAssemble (Search_by_Key sl k).1 (Search_by_Key sl k).2.1
        (Search_by_Key sl k).2.2 k m nl := rfl

/-- Pointwise description of the state assembled by `SkipList_Insert`
after the key search: every record field and every store accessor of the
result, in terms of the pre-insert store, the search fingers `UU`/`DDf`,
and the fresh node id `nxt`. -/
structure InsDesc (S : SL) (st : Store) (F : List Nat) (DD : List Int) (L : Nat)
    (len : Int) (nxt : Nat) (k m : Int) (nl : Nat) (UU : Nat → Nat) (DDf : Nat → Int) :
    Prop where
  fing : S.finger = F
  dist : S.distance = DD
  lvl : S.level = max L nl
  len2 : S.length = len + 1
  nid2 : S.nextId = nxt + 1
  keyd : ∀ y, keyN S.store y = if y = nxt then some k else keyN st y
  datad : ∀ y, dataN S.store y = if y = nxt then m else dataN st y
  heightd : ∀ y, heightN S.store y = if y = nxt then nl else heightN st y
  flend : ∀ y, (nodeGet S.store y).forward.length =
    if y = nxt then nl else (nodeGet st y).forward.length
  dlend : ∀ y, (nodeGet S.store y).diff.length =
    if y = nxt then nl else (nodeGet st y).diff.length
  mapf : S.store.map Prod.fst = nxt :: st.map Prod.fst
  lkup : ∀ y, (List.lookup y S.store).isSome =
    (if y = nxt then true else (List.lookup y st).isSome)
  fwdd : ∀ y j, forwardN S.store y j =
    if j < nl ∧ y = nxt then forwardN st (UU j) j
    else if j < nl ∧ y = UU j then some nxt
    else if y = nxt then none
    else forwardN st y j
  diffd : ∀ y j, diffN S.store y j =
    if j < nl ∧ y = nxt then
      (if L ≤ j then len + 1 else diffN st (UU j) j) - DDf 0 + DDf j
    else if j < nl ∧ y = UU j then DDf 0 - DDf j + 1
    else if nl ≤ j ∧ j < L ∧ y = UU j then diffN st y j + 1
    else if y = nxt then 0
    else diffN st y j


theorem insertAssemble_desc
    (st : Store) (F : List Nat) (DD : List Int) (L : Nat) (len : Int) (nxt : Nat)
    (u0 : List Nat) (dv : List Int) (k m : Int) (nl : Nat)
    (UU : Nat → Nat) (DDf : Nat → Int)
    (hL1 : 1 ≤ L)
    (hu0 : ∀ j, j < L → u0.getD j 0 = UU j)
    (hu0len : u0.length = L)
    (hdv : ∀ j, j < L → dv.getD j 0 = DDf j)
    (hdvlen : dv.length = L)
    (hUhigh : ∀ j, L ≤ j → UU j = 0 ∧ DDf j = 0)
    (hUdom : ∀ j, j < max L nl → (List.lookup (UU j) st).isSome = true)
    (hUdlen : ∀ j, j < max L nl → j < (nodeGet st (UU j)).diff.length)
    (hUflen : ∀ j, j < max L nl → j < (nodeGet st (UU j)).forward.length)
    (hUne : ∀ j, j < max L nl → UU j ≠ nxt)
    (hhdr : (List.lookup 0 st).isSome = true)
    (hhdrdlen : nl ≤ (nodeGet st 0).diff.length) :
    InsDesc (insertAssemble ⟨st, F, DD, L, len, nxt⟩ u0 dv k m nl)
      st F DD L len nxt k m nl UU DDf := by
  obtain ⟨G, hG⟩ : ∃ G, G = decide (L < nl) := ⟨_, rfl⟩
  obtain ⟨st2, hst2⟩ : ∃ x, x = if G = true then growLoop len st L (nl - L) else st :=
    ⟨_, rfl⟩
  obtain ⟨u, hu⟩ : ∃ x, x = if G = true then u0 ++ List.replicate (nl - L) 0 else u0 :=
    ⟨_, rfl⟩
  obtain ⟨d, hd⟩ : ∃ x, x = if G = true then dv ++ List.replicate (nl - L) (0 : Int)
    else dv := ⟨_, rfl⟩
  obtain ⟨lvl2, hlvl2⟩ : ∃ x, x = if G = true then nl else L := ⟨_, rfl⟩
  obtain ⟨st3, hst3⟩ : ∃ x, x = (nxt, MakeNode nl k m) :: st2 := ⟨_, rfl⟩
  obtain ⟨d0, hd0⟩ : ∃ x, x = d.getD 0 0 := ⟨_, rfl⟩
  obtain ⟨st4, hst4⟩ : ∃ x, x = insDiffLoop u d d0 nxt st3 nl := ⟨_, rfl⟩
  obtain ⟨st5, hst5⟩ : ∃ x, x = insBumpLoop u st4 nl (lvl2 - nl) := ⟨_, rfl⟩
  obtain ⟨st6, hst6⟩ : ∃ x, x = insSpliceLoop u nxt st5 nl := ⟨_, rfl⟩
  have hA : insertAssemble ⟨st, F, DD, L, len, nxt⟩ u0 dv k m nl =
      { store := st6, finger := F, distance := DD,
        level := lvl2, length := len + 1, nextId := nxt + 1 } := by
    rw [hst6, hst5, hst4, hst3, hd0, hd, hu, hst2, hlvl2, hG]
    rfl
  have hS : (insertAssemble ⟨st, F, DD, L, len, nxt⟩ u0 dv k m nl).store = st6 := by
    rw [hA]
  have hgrow_iff : G = true ↔ L < nl := by
    rw [hG]
    exact decide_eq_true_iff
  have hlvl2max : lvl2 = max L nl := by
    rw [hlvl2]
    by_cases hg : G = true
    · rw [if_pos hg]
      have := hgrow_iff.mp hg
      omega
    · rw [if_neg hg]
      have : ¬ L < nl := fun hc => hg (hgrow_iff.mpr hc)
      omega
  have hugetD : ∀ j, j < max L nl → u.getD j 0 = UU j := by
    intro j hj
    rw [hu]
    by_cases hg : G = true
    · rw [if_pos hg]
      have hLnl := hgrow_iff.mp hg
      by_cases hjL : j < L
      · rw [getD_append_left _ _ _ _ (by rw [hu0len]; exact hjL)]
        exact hu0 j hjL
      · have hj2 : j = u0.length + (j - L) := by rw [hu0len]; omega
        conv_lhs => rw [hj2]
        rw [getD_append_add]
        rw [getD_replicate _ _ _ _ (by omega : j - L < nl - L)]
        exact ((hUhigh j (by omega)).1).symm
    · rw [if_neg hg]
      have : ¬ L < nl := fun hc => hg (hgrow_iff.mpr hc)
      exact hu0 j (by omega)
  have hdgetD : ∀ j, j < max L nl → d.getD j 0 = DDf j := by
    intro j hj
    rw [hd]
    by_cases hg : G = true
    · rw [if_pos hg]
      have hLnl := hgrow_iff.mp hg
      by_cases hjL : j < L
      · rw [getD_append_left _ _ _ _ (by rw [hdvlen]; exact hjL)]
        exact hdv j hjL
      · have hj2 : j = dv.length + (j - L) := by rw [hdvlen]; omega
        conv_lhs => rw [hj2]
        rw [getD_append_add]
        rw [getD_replicate _ _ _ _ (by omega : j - L < nl - L)]
        exact ((hUhigh j (by omega)).2).symm
    · rw [if_neg hg]
      have : ¬ L < nl := fun hc => hg (hgrow_iff.mpr hc)
      exact hdv j (by omega)
  have hd0v : d0 = DDf 0 := by
    rw [hd0]
    exact hdgetD 0 (by omega)
  have hst2o : (∀ y, keyN st2 y = keyN st y) ∧ (∀ y, dataN st2 y = dataN st y) ∧
      (∀ y, heightN st2 y = heightN st y) ∧ (∀ y j, forwardN st2 y j = forwardN st y j) ∧
      (∀ y, (List.lookup y st2).isSome = (List.lookup y st).isSome) ∧
      (∀ y, (nodeGet st2 y).diff.length = (nodeGet st y).diff.length) ∧
      (∀ y, (nodeGet st2 y).forward.length = (nodeGet st y).forward.length) ∧
      (st2.map Prod.fst = st.map Prod.fst) := by
    rw [hst2]
    by_cases hg : G = true
    · rw [if_pos hg]
      obtain ⟨a1, a2, a3, a4, a5, a6, a7, a8, _⟩ := growLoop_others len (nl - L) st L
      exact ⟨a1, a2, a3, a4, a5, a6, a7, a8⟩
    · rw [if_neg hg]
      exact ⟨fun y => rfl, fun y => rfl, fun y => rfl, fun y j => rfl, fun y => rfl,
        fun y => rfl, fun y => rfl, rfl⟩
  have hst2diff : ∀ y j, diffN st2 y j =
      if y = 0 ∧ L ≤ j ∧ j < nl then len + 1 else diffN st y j := by
    intro y j
    rw [hst2]
    by_cases hg : G = true
    · rw [if_pos hg]
      have hLnl := hgrow_iff.mp hg
      rw [growLoop_diffN len (nl - L) st L hhdr (by omega) y j]
      by_cases hc : y = 0 ∧ L ≤ j ∧ j < nl
      · rw [if_pos ⟨hc.1, hc.2.1, by omega⟩, if_pos hc]
      · rw [if_neg (fun hh => hc ⟨hh.1, hh.2.1, by omega⟩), if_neg hc]
    · rw [if_neg hg]
      have hnl : ¬ L < nl := fun hc => hg (hgrow_iff.mpr hc)
      have hc : ¬ (y = 0 ∧ L ≤ j ∧ j < nl) := by
        rintro ⟨h0, hLj, hjnl⟩
        omega
      rw [if_neg hc]
  have hrepl_none : ∀ j, (List.replicate nl (none : Option Nat)).getD j none = none := by
    intro j
    by_cases hj : j < nl
    · exact getD_replicate _ _ _ _ hj
    · simp [List.getD, List.getElem?_replicate, hj]
  have hrepl_zero : ∀ j, (List.replicate nl (0 : Int)).getD j 0 = 0 := by
    intro j
    by_cases hj : j < nl
    · exact getD_replicate _ _ _ _ hj
    · simp [List.getD, List.getElem?_replicate, hj]
  have hst3key : ∀ y, keyN st3 y = if y = nxt then some k else keyN st y := by
    intro y
    rw [hst3]
    by_cases hy : y = nxt
    · rw [if_pos hy, hy]
      show (nodeGet ((nxt, MakeNode nl k m) :: st2) nxt).key = some k
      rw [nodeGet_cons_self]
      rfl
    · rw [if_neg hy]
      show (nodeGet ((nxt, MakeNode nl k m) :: st2) y).key = keyN st y
      rw [nodeGet_cons_ne _ _ _ _ hy]
      exact hst2o.1 y
  have hst3data : ∀ y, dataN st3 y = if y = nxt then m else dataN st y := by
    intro y
    rw [hst3]
    by_cases hy : y = nxt
    · rw [if_pos hy, hy]
      show (nodeGet ((nxt, MakeNode nl k m) :: st2) nxt).data = m
      rw [nodeGet_cons_self]
      rfl
    · rw [if_neg hy]
      show (nodeGet ((nxt, MakeNode nl k m) :: st2) y).data = dataN st y
      rw [nodeGet_cons_ne _ _ _ _ hy]
      exact hst2o.2.1 y
  have hst3height : ∀ y, heightN st3 y = if y = nxt then nl else heightN st y := by
    intro y
    rw [hst3]
    by_cases hy : y = nxt
    · rw [if_pos hy, hy]
      show (nodeGet ((nxt, MakeNode nl k m) :: st2) nxt).height = nl
      rw [nodeGet_cons_self]
      rfl
    · rw [if_neg hy]
      show (nodeGet ((nxt, MakeNode nl k m) :: st2) y).height = heightN st y
      rw [nodeGet_cons_ne _ _ _ _ hy]
      exact hst2o.2.2.1 y
  have hst3fwd : ∀ y j, forwardN st3 y j = if y = nxt then none else forwardN st y j := by
    intro y j
    rw [hst3]
    by_cases hy : y = nxt
    · rw [if_pos hy, hy]
      show (nodeGet ((nxt, MakeNode nl k m) :: st2) nxt).forward.getD j none = none
      rw [nodeGet_cons_self]
      exact hrepl_none j
    · rw [if_neg hy]
      show (nodeGet ((nxt, MakeNode nl k m) :: st2) y).forward.getD j none = forwardN st y j
      rw [nodeGet_cons_ne _ _ _ _ hy]
      exact hst2o.2.2.2.1 y j
  have hst3diffN : ∀ y j, diffN st3 y j =
      if y = nxt then 0
      else if y = 0 ∧ L ≤ j ∧ j < nl then len + 1
      else diffN st y j := by
    intro y j
    rw [hst3]
    by_cases hy : y = nxt
    · rw [if_pos hy, hy]
      show (nodeGet ((nxt, MakeNode nl k m) :: st2) nxt).diff.getD j 0 = 0
      rw [nodeGet_cons_self]
      exact hrepl_zero j
    · rw [if_neg hy]
      show (nodeGet ((nxt, MakeNode nl k m) :: st2) y).diff.getD j 0 = _
      rw [nodeGet_cons_ne _ _ _ _ hy]
      exact hst2diff y j
  have hst3flen : ∀ y, (nodeGet st3 y).forward.length =
      if y = nxt then nl else (nodeGet st y).forward.length := by
    intro y
    rw [hst3]
    by_cases hy : y = nxt
    · rw [if_pos hy, hy, nodeGet_cons_self]
      simp [MakeNode]
    · rw [if_neg hy, nodeGet_cons_ne _ _ _ _ hy]
      exact hst2o.2.2.2.2.2.2.1 y
  have hst3dlen : ∀ y, (nodeGet st3 y).diff.length =
      if y = nxt then nl else (nodeGet st y).diff.length := by
    intro y
    rw [hst3]
    by_cases hy : y = nxt
    · rw [if_pos hy, hy, nodeGet_cons_self]
      simp [MakeNode]
    · rw [if_neg hy, nodeGet_cons_ne _ _ _ _ hy]
      exact hst2o.2.2.2.2.2.1 y
  have hst3lookup : ∀ y, (List.lookup y st3).isSome =
      (if y = nxt then true else (List.lookup y st).isSome) := by
    intro y
    rw [hst3, isSome_lookup_cons]
    by_cases hy : y = nxt
    · rw [if_pos hy, if_pos hy]
    · rw [if_neg hy, if_neg hy]
      exact hst2o.2.2.2.2.1 y
  have hst3map : st3.map Prod.fst = nxt :: st.map Prod.fst := by
    rw [hst3]
    show nxt :: st2.map Prod.fst = nxt :: st.map Prod.fst
    rw [hst2o.2.2.2.2.2.2.2]
  have hjmax_of_nl : ∀ j, j < nl → j < max L nl := fun j hj => by omega
  have hpre_diff : ∀ j, j < nl → (List.lookup (u.getD j 0) st3).isSome = true ∧
      j < (nodeGet st3 (u.getD j 0)).diff.length := by
    intro j hj
    have hjm := hjmax_of_nl j hj
    rw [hugetD j hjm]
    refine ⟨?_, ?_⟩
    · rw [hst3lookup (UU j), if_neg (hUne j hjm)]
      exact hUdom j hjm
    · rw [hst3dlen (UU j), if_neg (hUne j hjm)]
      exact hUdlen j hjm
  have hnxtlk3 : (List.lookup nxt st3).isSome = true := by
    rw [hst3lookup nxt, if_pos rfl]
  have hnxtdlen3 : ∀ j, j < nl → j < (nodeGet st3 nxt).diff.length := by
    intro j hj
    rw [hst3dlen nxt, if_pos rfl]
    exact hj
  have hune3 : ∀ j, j < nl → u.getD j 0 ≠ nxt := by
    intro j hj
    rw [hugetD j (hjmax_of_nl j hj)]
    exact hUne j (hjmax_of_nl j hj)
  have hst4diffd0 := insDiffLoop_diffN u d d0 nxt nl st3 hpre_diff hnxtlk3 hnxtdlen3 hune3
  obtain ⟨o41, o42, o43, o44, o45, o46, o47, o48, o49⟩ := insDiffLoop_others u d d0 nxt nl st3
  have hst4diffd : ∀ y j, diffN st4 y j =
      if j < nl ∧ y = nxt then diffN st3 (u.getD j 0) j - d0 + d.getD j 0
      else if j < nl ∧ y = u.getD j 0 then d0 - d.getD j 0 + 1
      else diffN st3 y j := by
    intro y j
    rw [hst4]
    exact hst4diffd0 y j
  have hlvl2ge : nl ≤ lvl2 := by rw [hlvl2max]; omega
  have hlvl2le : lvl2 ≤ max L nl := le_of_eq hlvl2max
  have hpre_bump : ∀ j, nl ≤ j → j < nl + (lvl2 - nl) →
      (List.lookup (u.getD j 0) st4).isSome = true ∧
      j < (nodeGet st4 (u.getD j 0)).diff.length := by
    intro j hj1 hj2
    have hjm : j < max L nl := by omega
    rw [hugetD j hjm]
    refine ⟨?_, ?_⟩
    · rw [hst4, o45, hst3lookup (UU j), if_neg (hUne j hjm)]
      exact hUdom j hjm
    · rw [hst4, o46, hst3dlen (UU j), if_neg (hUne j hjm)]
      exact hUdlen j hjm
  have hst5diffd0 := insBumpLoop_diffN (lvl2 - nl) u st4 nl hpre_bump
  obtain ⟨o51, o52, o53, o54, o55, o56, o57, o58, o59⟩ :=
    insBumpLoop_others (lvl2 - nl) u st4 nl
  have hst5diffd : ∀ y j, diffN st5 y j =
      if nl ≤ j ∧ j < nl + (lvl2 - nl) ∧ y = u.getD j 0 then diffN st4 y j + 1
      else diffN st4 y j := by
    intro y j
    rw [hst5]
    exact hst5diffd0 y j
  have hpre_spl : ∀ j, j < nl → (List.lookup (u.getD j 0) st5).isSome = true ∧
      j < (nodeGet st5 (u.getD j 0)).forward.length := by
    intro j hj
    have hjm := hjmax_of_nl j hj
    rw [hugetD j hjm]
    refine ⟨?_, ?_⟩
    · rw [hst5, o55, hst4, o45, hst3lookup (UU j), if_neg (hUne j hjm)]
      exact hUdom j hjm
    · rw [hst5, o57, hst4, o47, hst3flen (UU j), if_neg (hUne j hjm)]
      exact hUflen j hjm
  have hnxtlk5 : (List.lookup nxt st5).isSome = true := by
    rw [hst5, o55, hst4, o45]
    exact hnxtlk3
  have hnxtflen5 : ∀ j, j < nl → j < (nodeGet st5 nxt).forward.length := by
    intro j hj
    rw [hst5, o57, hst4, o47, hst3flen nxt, if_pos rfl]
    exact hj
  have hfwd6d0 := insSpliceLoop_forwardN u nxt nl st5 hpre_spl hnxtlk5 hnxtflen5 hune3
  obtain ⟨o61, o62, o63, o64d, o65, o66, o67, o68, o69⟩ := insSpliceLoop_others u nxt nl st5
  refine ⟨?_, ?_, ?_, ?_, ?_, ?_, ?_, ?_, ?_, ?_, ?_, ?_, ?_, ?_⟩
  · rw [hA]
  · rw [hA]
  · rw [hA]
    exact hlvl2max
  · rw [hA]
  · rw [hA]
  · intro y
    rw [hS, hst6, o61 y, hst5, o51 y, hst4, o41 y]
    exact hst3key y
  · intro y
    rw [hS, hst6, o62 y, hst5, o52 y, hst4, o42 y]
    exact hst3data y
  · intro y
    rw [hS, hst6, o63 y, hst5, o53 y, hst4, o43 y]
    exact hst3height y
  · intro y
    rw [hS, hst6, o67 y, hst5, o57 y, hst4, o47 y]
    exact hst3flen y
  · intro y
    rw [hS, hst6, o66 y, hst5, o56 y, hst4, o46 y]
    exact hst3dlen y
  · rw [hS, hst6, o68, hst5, o58, hst4, o48]
    exact hst3map
  · intro y
    rw [hS, hst6, o65 y, hst5, o55 y, hst4, o45 y]
    exact hst3lookup y
  · intro y j
    rw [hS, hst6, hfwd6d0 y j]
    by_cases hjnl : j < nl
    · have hueq := hugetD j (hjmax_of_nl j hjnl)
      rw [hueq]
      by_cases hynxt : y = nxt
      · rw [if_pos ⟨hjnl, hynxt⟩, if_pos ⟨hjnl, hynxt⟩]
        rw [hst5, o54 (UU j) j, hst4, o44 (UU j) j, hst3fwd (UU j) j,
          if_neg (hUne j (hjmax_of_nl j hjnl))]
      · have hn1 : ¬ (j < nl ∧ y = nxt) := fun hh => hynxt hh.2
        rw [if_neg hn1, if_neg hn1]
        by_cases hyU : y = UU j
        · rw [if_pos ⟨hjnl, hyU⟩, if_pos ⟨hjnl, hyU⟩]
        · have hn2 : ¬ (j < nl ∧ y = UU j) := fun hh => hyU hh.2
          rw [if_neg hn2, if_neg hn2, if_neg hynxt]
          rw [hst5, o54 y j, hst4, o44 y j, hst3fwd y j, if_neg hynxt]
    · have hn1 : ¬ (j < nl ∧ y = nxt) := fun hh => hjnl hh.1
      rw [if_neg hn1, if_neg hn1]
      have hn2 : ¬ (j < nl ∧ y = u.getD j 0) := fun hh => hjnl hh.1
      have hn2u : ¬ (j < nl ∧ y = UU j) := fun hh => hjnl hh.1
      rw [if_neg hn2, if_neg hn2u]
      rw [hst5, o54 y j, hst4, o44 y j]
      exact hst3fwd y j
  · intro y j
    rw [hS, hst6, o64d y j, hst5diffd y j]
    have hbound : nl + (lvl2 - nl) = lvl2 := by omega
    rw [hbound]
    by_cases hjnl : j < nl
    · have hjm := hjmax_of_nl j hjnl
      have hueq := hugetD j hjm
      rw [hueq]
      have hnb : ¬ (nl ≤ j ∧ j < lvl2 ∧ y = UU j) := fun hh => absurd hh.1 (by omega)
      rw [if_neg hnb]
      rw [hst4diffd y j, hueq, hdgetD j hjm, hd0v]
      by_cases hynxt : y = nxt
      · rw [if_pos ⟨hjnl, hynxt⟩, if_pos ⟨hjnl, hynxt⟩]
        rw [hst3diffN (UU j) j, if_neg (hUne j hjm)]
        by_cases hLj : L ≤ j
        · rw [if_pos ⟨(hUhigh j hLj).1, hLj, hjnl⟩, if_pos hLj]
        · have hz : ¬ (UU j = 0 ∧ L ≤ j ∧ j < nl) := fun hh => hLj hh.2.1
          rw [if_neg hz, if_neg hLj]
      · have hn1 : ¬ (j < nl ∧ y = nxt) := fun hh => hynxt hh.2
        rw [if_neg hn1, if_neg hn1]
        by_cases hyU : y = UU j
        · rw [if_pos ⟨hjnl, hyU⟩, if_pos ⟨hjnl, hyU⟩]
        · have hn2 : ¬ (j < nl ∧ y = UU j) := fun hh => hyU hh.2
          rw [if_neg hn2, if_neg hn2, if_neg hynxt]
          rw [hst3diffN y j, if_neg hynxt]
          have hz : ¬ (y = 0 ∧ L ≤ j ∧ j < nl) := by
            rintro ⟨h0, hLj, _⟩
            exact hyU (by rw [h0, ((hUhigh j hLj).1).symm])
          rw [if_neg hz]
          have hn3 : ¬ (nl ≤ j ∧ j < L ∧ y = UU j) := fun hh => absurd hh.1 (by omega)
          rw [if_neg hn3]
    · have hn1 : ¬ (j < nl ∧ y = nxt) := fun hh => hjnl hh.1
      have hn2 : ¬ (j < nl ∧ y = UU j) := fun hh => hjnl hh.1
      have hn2u : ¬ (j < nl ∧ y = u.getD j 0) := fun hh => hjnl hh.1
      by_cases hbmp : nl ≤ j ∧ j < lvl2 ∧ y = u.getD j 0
      · have hjm : j < max L nl := by omega
        have hueq := hugetD j hjm
        have hyU : y = UU j := by rw [hbmp.2.2, hueq]
        rw [if_pos hbmp]
        have hjL : j < L := by
          have h1 := hbmp.2.1
          rw [hlvl2max] at h1
          omega
        rw [if_neg hn1, if_neg hn2, if_pos ⟨hbmp.1, hjL, hyU⟩]
        rw [hst4diffd y j, if_neg hn1, if_neg hn2u]
        rw [hst3diffN y j]
        have hynxt : y ≠ nxt := by
          rw [hyU]
          exact hUne j hjm
        rw [if_neg hynxt]
        have hz : ¬ (y = 0 ∧ L ≤ j ∧ j < nl) := fun hh => hjnl hh.2.2
        rw [if_neg hz]
      · rw [if_neg hbmp, hst4diffd y j, if_neg hn1, if_neg hn2u, hst3diffN y j]
        rw [if_neg hn1, if_neg hn2]
        by_cases hynxt : y = nxt
        · rw [if_pos hynxt]
          have hn3 : ¬ (nl ≤ j ∧ j < L ∧ y = UU j) := by
            rintro ⟨ha, hb, hc⟩
            exact hUne j (by omega) (by rw [← hc, hynxt])
          rw [if_neg hn3, if_pos hynxt]
        · rw [if_neg hynxt, if_neg hynxt]
          have hz : ¬ (y = 0 ∧ L ≤ j ∧ j < nl) := fun hh => hjnl hh.2.2
          rw [if_neg hz]
          have hn3 : ¬ (nl ≤ j ∧ j < L ∧ y = UU j) := by
            rintro ⟨ha, hb, hc⟩
            have hjm : j < max L nl := by omega
            exact hbmp ⟨ha, by rw [hlvl2max]; omega, by rw [hc, ← hugetD j hjm]⟩
          rw [if_neg hn3]

/-- Rebuilding one level-`i` chain after the insert splice: the old chain
`A ++ B` (split at the key position) becomes `A ++ new :: shift1 B`, the
finger `Ui` now points at the new node, and the span values around the
splice keep the rank-difference discipline with all ranks after the
splice shifted up by one. -/
theorem chain_splice (stO stN : Store) (i : Nat) (lenO : Int)
    (A B : List (Nat × Int)) (nxt Ui : Nat) (pos Di origD : Int)
    (hnd : (0 :: (A ++ B).map Prod.fst).Nodup)
    (hlastA : lastPairOf (0, 0) A = (Ui, Di))
    (hlink : linkedR stO i 0 (A ++ B))
    (hend : forwardN stO (lastIdOf 0 (A ++ B)) i = none)
    (hspan : spansR stO i (0, 0) (A ++ B))
    (hlastd1 : B = [] → origD = lenO + 1 - Di)
    (hlastd2 : ∀ b bs, B = b :: bs →
      diffN stO (lastPairOf b bs).1 i = lenO + 1 - (lastPairOf b bs).2)
    (hheadB : ∀ b bs, B = b :: bs → origD = b.2 - Di)
    (hfN : ∀ y, (y = 0 ∨ y ∈ (A ++ B).map Prod.fst) → y ≠ Ui →
      forwardN stN y i = forwardN stO y i)
    (hfU : forwardN stN Ui i = some nxt)
    (hfnxt : forwardN stN nxt i = forwardN stO Ui i)
    (hdN : ∀ y, (y = 0 ∨ y ∈ (A ++ B).map Prod.fst) → y ≠ Ui →
      diffN stN y i = diffN stO y i)
    (hdU : diffN stN Ui i = pos - Di + 1)
    (hdnxt : diffN stN nxt i = origD - pos + Di) :
    linkedR stN i 0 (A ++ (nxt, pos + 1) :: shift1 B) ∧
    forwardN stN (lastIdOf 0 (A ++ (nxt, pos + 1) :: shift1 B)) i = none ∧
    spansR stN i (0, 0) (A ++ (nxt, pos + 1) :: shift1 B) ∧
    diffN stN (lastPairOf (0, 0) (A ++ (nxt, pos + 1) :: shift1 B)).1 i =
      lenO + 1 + 1 - (lastPairOf (0, 0) (A ++ (nxt, pos + 1) :: shift1 B)).2 := by
  have hUidA : lastIdOf 0 A = Ui := by
    rw [lastIdOf_eq_lastPairOf 0 0 A, hlastA]
  have hndA : (0 :: A.map Prod.fst).Nodup := by
    refine hnd.sublist ?_
    rw [List.map_append]
    exact List.cons_sublist_cons.mpr (List.sublist_append_left _ _)
  have h0notin : (0 : Nat) ∉ (A ++ B).map Prod.fst := (List.nodup_cons.mp hnd).1
  have hdisj : List.Disjoint (A.map Prod.fst) (B.map Prod.fst) := by
    have h2 := (List.nodup_cons.mp hnd).2
    rw [List.map_append] at h2
    exact List.disjoint_of_nodup_append h2
  have hUimem : Ui = 0 ∨ Ui ∈ A.map Prod.fst := by
    rcases lastPairOf_mem (0, 0) A with h | h
    · left
      rw [hlastA] at h
      exact congrArg Prod.fst h
    · right
      rw [hlastA] at h
      exact List.mem_map.mpr ⟨(Ui, Di), h, rfl⟩
  have hBne : ∀ z, z ∈ B.map Prod.fst → z ≠ Ui := by
    intro z hz
    rcases hUimem with h0 | hA
    · intro he
      rw [he, h0] at hz
      exact h0notin (by rw [List.map_append]; exact List.mem_append.mpr (Or.inr hz))
    · intro he
      exact hdisj hA (he ▸ hz)
  have hBmem : ∀ z, z ∈ B.map Prod.fst → z = 0 ∨ z ∈ (A ++ B).map Prod.fst := by
    intro z hz
    right
    rw [List.map_append]
    exact List.mem_append.mpr (Or.inr hz)
  have holdA : linkedR stO i 0 A := ((linkedR_append stO i 0 A B).mp hlink).1
  have holdB : linkedR stO i Ui B := by
    have := ((linkedR_append stO i 0 A B).mp hlink).2
    rwa [hUidA] at this
  have hospA : spansR stO i (0, 0) A := ((spansR_append stO i (0, 0) A B).mp hspan).1
  have hospB : spansR stO i (Ui, Di) B := by
    have := ((spansR_append stO i (0, 0) A B).mp hspan).2
    rwa [hlastA] at this
  have htrA_mem : ∀ pre q post, A = pre ++ q :: post →
      (lastIdOf 0 pre = 0 ∨ lastIdOf 0 pre ∈ (A ++ B).map Prod.fst) ∧
      lastIdOf 0 pre ≠ Ui := by
    intro pre q post hsp
    constructor
    · rcases lastIdOf_mem 0 pre with h | h
      · exact Or.inl h
      · right
        rw [List.map_append]
        refine List.mem_append.mpr (Or.inl ?_)
        have hsub : pre.Sublist A := by
          rw [hsp]
          exact List.sublist_append_left _ _
        exact (hsub.map Prod.fst).subset h
    · have hnd2 : (0 :: (pre ++ q :: post).map Prod.fst).Nodup := by
        rw [← hsp]
        exact hndA
      rw [← hUidA]
      conv_rhs => rw [hsp]
      exact split_lastId_ne 0 pre post q hnd2
  have goal1a : linkedR stN i 0 A := by
    refine linkedR_transport stO stN i A 0 holdA ?_
    intro pre q post hsp
    obtain ⟨hm, hne⟩ := htrA_mem pre q post hsp
    exact hfN _ hm hne
  have goal3a : spansR stN i (0, 0) A := by
    refine spansR_transport stO stN i A (0, 0) hospA ?_
    intro pre q post hsp
    obtain ⟨hm, hne⟩ := htrA_mem pre q post hsp
    have hid : (lastPairOf (0, 0) pre).1 = lastIdOf 0 pre :=
      (lastIdOf_eq_lastPairOf 0 0 pre).symm
    rw [hid]
    exact hdN _ hm hne
  have htrB : ∀ (b : Nat × Int) (bs : List (Nat × Int)), B = b :: bs →
      ∀ z, z ∈ B.map Prod.fst →
        forwardN stN z i = forwardN stO z i ∧ diffN stN z i = diffN stO z i := by
    intro b bs hB z hz
    exact ⟨hfN z (hBmem z hz) (hBne z hz), hdN z (hBmem z hz) (hBne z hz)⟩
  refine ⟨?_, ?_, ?_, ?_⟩
  · rw [linkedR_append]
    refine ⟨goal1a, ?_⟩
    rw [hUidA]
    refine ⟨hfU, ?_⟩
    rw [linkedR_shift1]
    cases hB : B with
    | nil => trivial
    | cons b bs =>
      refine ⟨?_, ?_⟩
      · rw [hfnxt]
        have := linkedR_extract stO i (A ++ B) 0 hlink A b bs (by rw [hB])
        rwa [hUidA] at this
      · have holdBtail : linkedR stO i b.1 bs := by
          rw [hB] at holdB
          exact holdB.2
        refine linkedR_transport stO stN i bs b.1 holdBtail ?_
        intro pre q post hsp
        have hz : lastIdOf b.1 pre ∈ B.map Prod.fst := by
          rcases lastIdOf_mem b.1 pre with h | h
          · rw [h, hB]
            exact List.mem_cons_self _ _
          · rw [hB]
            have hsub : pre.Sublist bs := by
              rw [hsp]
              exact List.sublist_append_left _ _
            exact List.mem_cons_of_mem _ ((hsub.map Prod.fst).subset h)
        exact hfN _ (hBmem _ hz) (hBne _ hz)
  · rw [lastIdOf_append, lastIdOf_cons, lastIdOf_shift1]
    cases hB : B with
    | nil =>
      rw [lastIdOf_nil, hfnxt]
      have := hend
      rw [hB, List.append_nil, hUidA] at this
      exact this
    | cons b bs =>
      rw [lastIdOf_cons]
      have hz : lastIdOf b.1 bs ∈ B.map Prod.fst := by
        rcases lastIdOf_mem b.1 bs with h | h
        · rw [h, hB]
          exact List.mem_cons_self _ _
        · rw [hB]
          exact List.mem_cons_of_mem _ h
      rw [hfN _ (hBmem _ hz) (hBne _ hz)]
      have hle : lastIdOf 0 (A ++ B) = lastIdOf b.1 bs := by
        rw [lastIdOf_append, hB, lastIdOf_cons]
      rw [← hle]
      exact hend
  · rw [spansR_append]
    refine ⟨goal3a, ?_⟩
    rw [hlastA]
    refine ⟨?_, ?_⟩
    · rw [hdU]
      ring
    · rw [spansR_shift1]
      cases hB : B with
      | nil => trivial
      | cons b bs =>
        refine ⟨?_, ?_⟩
        · rw [hdnxt, hheadB b bs hB]
          ring
        · have hospBtail : spansR stO i b bs := by
            rw [hB] at hospB
            exact hospB.2
          refine spansR_transport stO stN i bs b hospBtail ?_
          intro pre q post hsp
          have hz : (lastPairOf b pre).1 ∈ B.map Prod.fst := by
            rcases lastPairOf_mem b pre with h | h
            · rw [h, hB]
              exact List.mem_map.mpr ⟨b, List.mem_cons_self _ _, rfl⟩
            · rw [hB]
              have hsub : pre.Sublist bs := by
                rw [hsp]
                exact List.sublist_append_left _ _
              exact List.mem_map.mpr ⟨_, List.mem_cons_of_mem _ (hsub.subset h), rfl⟩
          exact hdN _ (hBmem _ hz) (hBne _ hz)
  · rw [lastPairOf_append, lastPairOf_cons]
    cases hB : B with
    | nil =>
      have hs0 : shift1 ([] : List (Nat × Int)) = [] := rfl
      rw [hs0, lastPairOf_nil]
      show diffN stN nxt i = lenO + 1 + 1 - (pos + 1)
      rw [hdnxt, hlastd1 hB]
      ring
    | cons b bs =>
      have hsh : shift1 (b :: bs) = (b.1, b.2 + 1) :: shift1 bs := rfl
      rw [hsh, lastPairOf_cons]
      have hkey : lastPairOf (b.1, b.2 + 1) (shift1 bs) =
          ((lastPairOf (b.1, b.2) bs).1, (lastPairOf (b.1, b.2) bs).2 + 1) :=
        lastPairOf_shift1 bs b.1 b.2
      have hbe : ((b.1 : Nat), (b.2 : Int)) = b := rfl
      rw [hkey, hbe]
      have hz : (lastPairOf b bs).1 ∈ B.map Prod.fst := by
        rcases lastPairOf_mem b bs with h | h
        · rw [h, hB]
          exact List.mem_map.mpr ⟨b, List.mem_cons_self _ _, rfl⟩
        · rw [hB]
          exact List.mem_map.mpr ⟨_, List.mem_cons_of_mem _ h, rfl⟩
      rw [hdN _ (hBmem _ hz) (hBne _ hz), hlastd2 b bs hB]
      ring

/-- Rebuilding a level-`i` chain the new node does not reach: only the
finger's span grows by one (the new node slips underneath), and all ranks
after the key position shift up by one. -/
theorem chain_bump (stO stN : Store) (i : Nat) (lenO : Int)
    (A B : List (Nat × Int)) (Ui : Nat) (Di : Int)
    (hnd : (0 :: (A ++ B).map Prod.fst).Nodup)
    (hlastA : lastPairOf (0, 0) A = (Ui, Di))
    (hlink : linkedR stO i 0 (A ++ B))
    (hend : forwardN stO (lastIdOf 0 (A ++ B)) i = none)
    (hspan : spansR stO i (0, 0) (A ++ B))
    (hlastd : diffN stO (lastPairOf (0, 0) (A ++ B)).1 i =
      lenO + 1 - (lastPairOf (0, 0) (A ++ B)).2)
    (hfN : ∀ y, (y = 0 ∨ y ∈ (A ++ B).map Prod.fst) →
      forwardN stN y i = forwardN stO y i)
    (hdN : ∀ y, (y = 0 ∨ y ∈ (A ++ B).map Prod.fst) → y ≠ Ui →
      diffN stN y i = diffN stO y i)
    (hdU : diffN stN Ui i = diffN stO Ui i + 1) :
    linkedR stN i 0 (A ++ shift1 B) ∧
    forwardN stN (lastIdOf 0 (A ++ shift1 B)) i = none ∧
    spansR stN i (0, 0) (A ++ shift1 B) ∧
    diffN stN (lastPairOf (0, 0) (A ++ shift1 B)).1 i =
      lenO + 1 + 1 - (lastPairOf (0, 0) (A ++ shift1 B)).2 := by
  have hUidA : lastIdOf 0 A = Ui := by
    rw [lastIdOf_eq_lastPairOf 0 0 A, hlastA]
  have hndA : (0 :: A.map Prod.fst).Nodup := by
    refine hnd.sublist ?_
    rw [List.map_append]
    exact List.cons_sublist_cons.mpr (List.sublist_append_left _ _)
  have h0notin : (0 : Nat) ∉ (A ++ B).map Prod.fst := (List.nodup_cons.mp hnd).1
  have hdisj : List.Disjoint (A.map Prod.fst) (B.map Prod.fst) := by
    have h2 := (List.nodup_cons.mp hnd).2
    rw [List.map_append] at h2
    exact List.disjoint_of_nodup_append h2
  have hUimem : Ui = 0 ∨ Ui ∈ A.map Prod.fst := by
    rcases lastPairOf_mem (0, 0) A with h | h
    · left
      rw [hlastA] at h
      exact congrArg Prod.fst h
    · right
      rw [hlastA] at h
      exact List.mem_map.mpr ⟨(Ui, Di), h, rfl⟩
  have hBne : ∀ z, z ∈ B.map Prod.fst → z ≠ Ui := by
    intro z hz
    rcases hUimem with h0 | hA
    · intro he
      rw [he, h0] at hz
      exact h0notin (by rw [List.map_append]; exact List.mem_append.mpr (Or.inr hz))
    · intro he
      exact hdisj hA (he ▸ hz)
  have hBmem : ∀ z, z ∈ B.map Prod.fst → z = 0 ∨ z ∈ (A ++ B).map Prod.fst := by
    intro z hz
    right
    rw [List.map_append]
    exact List.mem_append.mpr (Or.inr hz)
  have holdA : linkedR stO i 0 A := ((linkedR_append stO i 0 A B).mp hlink).1
  have holdB : linkedR stO i Ui B := by
    have := ((linkedR_append stO i 0 A B).mp hlink).2
    rwa [hUidA] at this
  have hospA : spansR stO i (0, 0) A := ((spansR_append stO i (0, 0) A B).mp hspan).1
  have hospB : spansR stO i (Ui, Di) B := by
    have := ((spansR_append stO i (0, 0) A B).mp hspan).2
    rwa [hlastA] at this
  have htrA_mem : ∀ pre q post, A = pre ++ q :: post →
      lastIdOf 0 pre ≠ Ui ∧
      (lastIdOf 0 pre = 0 ∨ lastIdOf 0 pre ∈ (A ++ B).map Prod.fst) := by
    intro pre q post hsp
    constructor
    · have hnd2 : (0 :: (pre ++ q :: post).map Prod.fst).Nodup := by
        rw [← hsp]
        exact hndA
      rw [← hUidA]
      conv_rhs => rw [hsp]
      exact split_lastId_ne 0 pre post q hnd2
    · rcases lastIdOf_mem 0 pre with h | h
      · exact Or.inl h
      · right
        rw [List.map_append]
        refine List.mem_append.mpr (Or.inl ?_)
        have hsub : pre.Sublist A := by
          rw [hsp]
          exact List.sublist_append_left _ _
        exact (hsub.map Prod.fst).subset h
  refine ⟨?_, ?_, ?_, ?_⟩
  · rw [linkedR_append]
    constructor
    · refine linkedR_congr ?_ holdA
      intro y hy
      refine hfN y ?_
      rcases hy with rfl | ⟨p, hp, hpe⟩
      · exact Or.inl rfl
      · right
        rw [List.map_append]
        exact List.mem_append.mpr (Or.inl (List.mem_map.mpr ⟨p, hp, hpe⟩))
    · rw [hUidA, linkedR_shift1]
      refine linkedR_congr ?_ holdB
      intro y hy
      refine hfN y ?_
      rcases hy with rfl | ⟨p, hp, hpe⟩
      · rcases hUimem with h0 | hA
        · exact Or.inl h0
        · right
          rw [List.map_append]
          exact List.mem_append.mpr (Or.inl hA)
      · exact hBmem y (List.mem_map.mpr ⟨p, hp, hpe⟩)
  · have hids : lastIdOf 0 (A ++ shift1 B) = lastIdOf 0 (A ++ B) := by
      unfold lastIdOf
      rw [List.map_append, List.map_append, shift1_fst]
    rw [hids]
    have hlm := lastIdOf_mem 0 (A ++ B)
    rw [hfN _ hlm]
    exact hend
  · rw [spansR_append]
    constructor
    · refine spansR_transport stO stN i A (0, 0) hospA ?_
      intro pre q post hsp
      obtain ⟨hne, hm⟩ := htrA_mem pre q post hsp
      have hid : (lastPairOf (0, 0) pre).1 = lastIdOf 0 pre :=
        (lastIdOf_eq_lastPairOf 0 0 pre).symm
      rw [hid]
      exact hdN _ hm hne
    · rw [hlastA]
      have hDi2 : ((Ui : Nat), (Di : Int)) = (Ui, Di - 1 + 1) := by
        rw [sub_add_cancel]
      rw [hDi2, spansR_shift1]
      cases hB : B with
      | nil => trivial
      | cons b bs =>
        refine ⟨?_, ?_⟩
        · rw [hdU]
          have hold1 : diffN stO Ui i = b.2 - Di := by
            rw [hB] at hospB
            exact hospB.1
          rw [hold1]
          ring
        · have hosp : spansR stO i b bs := by
            rw [hB] at hospB
            exact hospB.2
          refine spansR_transport stO stN i bs b hosp ?_
          intro pre q post hsp
          have hz : (lastPairOf b pre).1 ∈ B.map Prod.fst := by
            rcases lastPairOf_mem b pre with h | h
            · rw [h, hB]
              exact List.mem_map.mpr ⟨b, List.mem_cons_self _ _, rfl⟩
            · rw [hB]
              have hsub : pre.Sublist bs := by
                rw [hsp]
                exact List.sublist_append_left _ _
              exact List.mem_map.mpr ⟨_, List.mem_cons_of_mem _ (hsub.subset h), rfl⟩
          exact hdN _ (hBmem _ hz) (hBne _ hz)
  · cases hB : B with
    | nil =>
      have hsB : shift1 ([] : List (Nat × Int)) = [] := rfl
      rw [hsB, List.append_nil, hlastA]
      show diffN stN Ui i = lenO + 1 + 1 - Di
      rw [hdU]
      have hold : diffN stO Ui i = lenO + 1 - Di := by
        have h2 := hlastd
        rw [hB, List.append_nil, hlastA] at h2
        exact h2
      rw [hold]
      ring
    | cons b bs =>
      have hsh : shift1 (b :: bs) = (b.1, b.2 + 1) :: shift1 bs := rfl
      rw [hsh, lastPairOf_append, lastPairOf_cons]
      have hkey := lastPairOf_shift1 bs b.1 b.2
      have hbe : ((b.1 : Nat), (b.2 : Int)) = b := rfl
      rw [hkey, hbe]
      show diffN stN (lastPairOf b bs).1 i = lenO + 1 + 1 - ((lastPairOf b bs).2 + 1)
      have hz : (lastPairOf b bs).1 ∈ B.map Prod.fst := by
        rcases lastPairOf_mem b bs with h | h
        · rw [h, hB]
          exact List.mem_map.mpr ⟨b, List.mem_cons_self _ _, rfl⟩
        · rw [hB]
          exact List.mem_map.mpr ⟨_, List.mem_cons_of_mem _ h, rfl⟩
      rw [hdN _ (hBmem _ hz) (hBne _ hz)]
      have hold : diffN stO (lastPairOf b bs).1 i = lenO + 1 - (lastPairOf b bs).2 := by
        have h2 := hlastd
        rw [hB, lastPairOf_append, lastPairOf_cons] at h2
        exact h2
      rw [hold]
      ring

theorem fingerU_side (sl : SL) (sp : List Nat) (h : WF sl sp) (k : Int) (nl : Nat)
    (hnlM : nl ≤ MAX_LEVEL) :
    ∀ j, j < max sl.level nl →
      (List.lookup (fingerU sl k sp j) sl.store).isSome = true ∧
      j < (nodeGet sl.store (fingerU sl k sp j)).diff.length ∧
      j < (nodeGet sl.store (fingerU sl k sp j)).forward.length ∧
      fingerU sl k sp j ≠ sl.nextId ∧
      (fingerU sl k sp j = 0 ∨ fingerU sl k sp j ∈ sp) := by
  intro j hj
  have hM := h.level_le
  rcases fingerU_mem sl k sp j with h0 | ⟨hm, _⟩
  · refine ⟨?_, ?_, ?_, ?_, Or.inl h0⟩
    · rw [h0]
      exact (h.dom 0).mpr (Or.inl rfl)
    · rw [h0, h.hdr_diff_len]
      omega
    · rw [h0, h.hdr_fwd_len]
      omega
    · rw [h0]
      have := h.id_pos
      omega
  · obtain ⟨hsp, hh⟩ := chainF_subset hm
    have hspm : fingerU sl k sp j ∈ sp := (mem_numberFrom hsp).1
    refine ⟨?_, ?_, ?_, ?_, Or.inr hspm⟩
    · exact (h.dom _).mpr (Or.inr hspm)
    · rw [h.sp_diff_len _ hspm]
      exact hh
    · rw [h.sp_fwd_len _ hspm]
      exact hh
    · have := h.id_lt _ hspm
      omega

theorem insert_desc (sl : SL) (sp : List Nat) (k m : Int) (nl : Nat)
    (h : WF sl sp) (hnlM : nl ≤ MAX_LEVEL) :
    InsDesc (SkipList_Insert_h sl k m nl) sl.store (Search_by_Key sl k).1.finger
      (Search_by_Key sl k).1.distance sl.level sl.length sl.nextId k m nl
      (fingerU sl k sp) (fingerDist sl k sp) := by
  have hs := Search_by_Key_spec sl sp k h
  have hside := fingerU_side sl sp h k nl hnlM
  have hsl1 : (Search_by_Key sl k).1 =
      ⟨sl.store, (Search_by_Key sl k).1.finger, (Search_by_Key sl k).1.distance,
       sl.level, sl.length, sl.nextId⟩ := by
    rw [← hs.store_eq, ← hs.level_eq, ← hs.length_eq, ← hs.nextId_eq]
  rw [SkipList_Insert_h_eq, hsl1]
  exact insertAssemble_desc sl.store _ _ sl.level sl.length sl.nextId
    (Search_by_Key sl k).2.1 (Search_by_Key sl k).2.2 k m nl
    (fingerU sl k sp) (fingerDist sl k sp) h.level_pos
    (fun j hj => hs.fi j hj) hs.flen (fun j hj => hs.di j hj) hs.dlen
    (fun j hj => fingerU_high sl k sp h j hj)
    (fun j hj => (hside j hj).1) (fun j hj => (hside j hj).2.1)
    (fun j hj => (hside j hj).2.2.1) (fun j hj => (hside j hj).2.2.2.1)
    ((h.dom 0).mpr (Or.inl rfl)) (by rw [h.hdr_diff_len]; exact hnlM)

theorem WF_insert (sl : SL) (sp : List Nat) (k m : Int) (nl : Nat)
    (h : WF sl sp) (hnl1 : 1 ≤ nl) (hnlM : nl ≤ MAX_LEVEL) :
    WF (SkipList_Insert_h sl k m nl)
      (sp.takeWhile (fun y => decide (keyD sl.store y < k)) ++
        sl.nextId :: sp.dropWhile (fun y => decide (keyD sl.store y < k))) := by
  have D := insert_desc sl sp k m nl h hnlM
  have hs := Search_by_Key_spec sl sp k h
  obtain ⟨S, hSd⟩ : ∃ x, x = SkipList_Insert_h sl k m nl := ⟨_, rfl⟩
  obtain ⟨spA, hspAd⟩ : ∃ x, x = sp.takeWhile (fun y => decide (keyD sl.store y < k)) :=
    ⟨_, rfl⟩
  obtain ⟨spB, hspBd⟩ : ∃ x, x = sp.dropWhile (fun y => decide (keyD sl.store y < k)) :=
    ⟨_, rfl⟩
  rw [← hSd, ← hspAd, ← hspBd]
  rw [← hSd] at D
  have hML := h.level_le
  have hsplit : spA ++ spB = sp := by
    rw [hspAd, hspBd]
    exact List.takeWhile_append_dropWhile _ sp
  have hsubA : ∀ y ∈ spA, y ∈ sp := by
    intro y hy
    rw [hspAd] at hy
    exact (List.takeWhile_sublist _).subset hy
  have hsubB : ∀ y ∈ spB, y ∈ sp := by
    intro y hy
    rw [hspBd] at hy
    exact (List.dropWhile_sublist _).subset hy
  have hAlt : ∀ y ∈ spA, keyD sl.store y < k := by
    intro y hy
    rw [hspAd] at hy
    simpa using List.mem_takeWhile_imp hy
  have hBge : ∀ y ∈ spB, ¬ keyD sl.store y < k := by
    intro y hy
    rw [hspBd] at hy
    exact dropWhile_keyGe sl.store k sp h.sorted y hy
  have hnxt0 : sl.nextId ≠ 0 := by
    have := h.id_pos
    omega
  have hnxtsp : sl.nextId ∉ sp := by
    intro hc
    have := h.id_lt _ hc
    omega
  have hspnxt : ∀ y ∈ sp, y ≠ sl.nextId := by
    intro y hy
    have := h.id_lt y hy
    omega
  have hspRoldx : numberFrom 1 sp =
      numberFrom 1 spA ++ numberFrom (1 + (spA.length : Int)) spB := by
    conv_lhs => rw [← hsplit]
    rw [numberFrom_append]
  have hspR'x : numberFrom 1 (spA ++ sl.nextId :: spB) =
      numberFrom 1 spA ++ (sl.nextId, (spA.length : Int) + 1) ::
        shift1 (numberFrom (1 + (spA.length : Int)) spB) := by
    rw [numberFrom_append]
    congr 1
    have h1 : numberFrom (1 + (spA.length : Int)) (sl.nextId :: spB) =
        (sl.nextId, 1 + (spA.length : Int)) ::
          numberFrom (1 + (spA.length : Int) + 1) spB := rfl
    rw [h1, numberFrom_succ]
    have h2 : (1 : Int) + (spA.length : Int) = (spA.length : Int) + 1 := by ring
    rw [h2]
  have hAfst : ∀ i : Nat, ∀ p ∈ chainF sl.store i (numberFrom 1 spA), p.1 ∈ spA := by
    intro i p hp
    exact (mem_numberFrom (chainF_subset hp).1).1
  have hBfst : ∀ i : Nat,
      ∀ p ∈ chainF sl.store i (numberFrom (1 + (spA.length : Int)) spB), p.1 ∈ spB := by
    intro i p hp
    exact (mem_numberFrom (chainF_subset hp).1).1
  have hchainNew : ∀ i, chainF S.store i (numberFrom 1 (spA ++ sl.nextId :: spB)) =
      chainF sl.store i (numberFrom 1 spA) ++
      ((if i < nl then [(sl.nextId, (spA.length : Int) + 1)] else []) ++
        shift1 (chainF sl.store i (numberFrom (1 + (spA.length : Int)) spB))) := by
    intro i
    rw [hspR'x, chainF_append]
    have hcongrA : chainF S.store i (numberFrom 1 spA) =
        chainF sl.store i (numberFrom 1 spA) := by
      refine chainF_congr ?_
      intro p hp
      rw [D.heightd, if_neg (hspnxt p.1 (hsubA p.1 (mem_numberFrom hp).1))]
    have hcongrB : chainF S.store i (numberFrom (1 + (spA.length : Int)) spB) =
        chainF sl.store i (numberFrom (1 + (spA.length : Int)) spB) := by
      refine chainF_congr ?_
      intro p hp
      rw [D.heightd, if_neg (hspnxt p.1 (hsubB p.1 (mem_numberFrom hp).1))]
    rw [hcongrA]
    congr 1
    by_cases hinl : i < nl
    · rw [chainF_cons_tall _ _ _ _ (by rw [D.heightd, if_pos rfl]; exact hinl)]
      rw [if_pos hinl, List.singleton_append, chainF_shift1, hcongrB]
    · rw [chainF_cons_short _ _ _ _ (by rw [D.heightd, if_pos rfl]; exact hinl)]
      rw [if_neg hinl, List.nil_append, chainF_shift1, hcongrB]
  have hd0pos : fingerDist sl k sp 0 = (spA.length : Int) := by
    have hch0 : chainF sl.store 0 (numberFrom 1 sp) = numberFrom 1 sp :=
      chainF_zero _ _ (fun p hp => h.sp_hpos p.1 (mem_numberFrom hp).1)
    have h2 : fingerDist sl k sp 0 = (lastLt sl.store k 0 (numberFrom 1 sp)).2 := rfl
    rw [h2]
    unfold lastLt
    rw [hch0]
    have hTW1 : (numberFrom 1 sp).takeWhile (fun p => decide (keyD sl.store p.1 < k)) =
        numberFrom 1 spA := by
      rw [hspAd]
      exact (takeWhile_numberFrom (fun y => decide (keyD sl.store y < k)) sp 1).1
    rw [hTW1]
    have hz : ((0 : Nat), (0 : Int)) = ((0 : Nat), (1 : Int) - 1) := by norm_num
    rw [hz, lastPairOf_numberFrom_snd spA 1 0]
    push_cast
    ring
  have hmemspAB : ∀ i : Nat, ∀ y,
      y ∈ ((chainF sl.store i (numberFrom 1 spA) ++
        chainF sl.store i (numberFrom (1 + (spA.length : Int)) spB)).map Prod.fst) →
      y ∈ sp := by
    intro i y hy
    rw [List.map_append] at hy
    rcases List.mem_append.mp hy with h1 | h1
    · obtain ⟨p, hp, rfl⟩ := List.mem_map.mp h1
      exact hsubA p.1 (hAfst i p hp)
    · obtain ⟨p, hp, rfl⟩ := List.mem_map.mp h1
      exact hsubB p.1 (hBfst i p hp)
  have hndi : ∀ i : Nat, (0 :: ((chainF sl.store i (numberFrom 1 spA) ++
      chainF sl.store i (numberFrom (1 + (spA.length : Int)) spB)).map Prod.fst)).Nodup := by
    intro i
    have hchainOld : chainF sl.store i (numberFrom 1 sp) =
        chainF sl.store i (numberFrom 1 spA) ++
        chainF sl.store i (numberFrom (1 + (spA.length : Int)) spB) := by
      rw [hspRoldx, chainF_append]
    have hsub : ((chainF sl.store i (numberFrom 1 spA) ++
        chainF sl.store i (numberFrom (1 + (spA.length : Int)) spB)).map Prod.fst).Sublist
        sp := by
      rw [← hchainOld]
      have h1 := (chainF_sublist sl.store i (numberFrom 1 sp)).map Prod.fst
      rwa [map_fst_numberFrom] at h1
    exact h.sp_nodup.sublist (List.cons_sublist_cons.mpr hsub)
  have hCW : ∀ i, i < max sl.level nl →
      chainWF S.store (sl.length + 1) i (numberFrom 1 (spA ++ sl.nextId :: spB)) := by
    intro i hi
    obtain ⟨A, hA⟩ : ∃ x, x = chainF sl.store i (numberFrom 1 spA) := ⟨_, rfl⟩
    obtain ⟨B, hB⟩ : ∃ x, x =
      chainF sl.store i (numberFrom (1 + (spA.length : Int)) spB) := ⟨_, rfl⟩
    have hchainOld : chainF sl.store i (numberFrom 1 sp) = A ++ B := by
      rw [hspRoldx, chainF_append, hA, hB]
    have hnd : (0 :: (A ++ B).map Prod.fst).Nodup := by
      rw [hA, hB]
      exact hndi i
    have hmemsp : ∀ y, y ∈ (A ++ B).map Prod.fst → y ∈ sp := by
      intro y hy
      refine hmemspAB i y ?_
      rw [← hA, ← hB]
      exact hy
    have hANil : ¬ i < sl.level → A = [] := by
      intro hiL
      rw [hA]
      refine chainF_nil_of_high _ _ _ ?_
      intro p hp
      have := h.sp_hle p.1 (hsubA p.1 (mem_numberFrom hp).1)
      omega
    have hBNil : ¬ i < sl.level → B = [] := by
      intro hiL
      rw [hB]
      refine chainF_nil_of_high _ _ _ ?_
      intro p hp
      have := h.sp_hle p.1 (hsubB p.1 (mem_numberFrom hp).1)
      omega
    have hold1 : linkedR sl.store i 0 (A ++ B) := by
      by_cases hiL : i < sl.level
      · have := (h.chains i hiL).1
        rwa [hchainOld] at this
      · rw [hANil hiL, hBNil hiL]
        trivial
    have hold2 : forwardN sl.store (lastIdOf 0 (A ++ B)) i = none := by
      by_cases hiL : i < sl.level
      · have := (h.chains i hiL).2.1
        rwa [hchainOld] at this
      · rw [hANil hiL, hBNil hiL]
        show forwardN sl.store (lastIdOf 0 []) i = none
        rw [lastIdOf_nil]
        exact h.fwd_high i (by omega) (by omega)
    have hold3 : spansR sl.store i (0, 0) (A ++ B) := by
      by_cases hiL : i < sl.level
      · have := (h.chains i hiL).2.2.1
        rwa [hchainOld] at this
      · rw [hANil hiL, hBNil hiL]
        trivial
    have hold4 : i < sl.level → diffN sl.store (lastPairOf (0, 0) (A ++ B)).1 i =
        sl.length + 1 - (lastPairOf (0, 0) (A ++ B)).2 := by
      intro hiL
      have := (h.chains i hiL).2.2.2
      rwa [hchainOld] at this
    have hBnonnil_L : ∀ (b : Nat × Int) (bs : List (Nat × Int)), B = b :: bs →
        i < sl.level := by
      intro b bs hBc
      by_contra hiL
      rw [hBNil hiL] at hBc
      cases hBc
    have hlastAi : lastPairOf (0, 0) A = (fingerU sl k sp i, fingerDist sl k sp i) := by
      have hpair : ((fingerU sl k sp i : Nat), fingerDist sl k sp i) =
          lastLt sl.store k i (numberFrom 1 sp) := rfl
      rw [hpair]
      unfold lastLt
      rw [hchainOld]
      have hPA : ∀ a ∈ A, (fun p : Nat × Int => decide (keyD sl.store p.1 < k)) a = true := by
        intro a ha
        have := hAlt a.1 (hAfst i a (by rw [← hA]; exact ha))
        simpa using this
      have hPB : ∀ b ∈ B, (fun p : Nat × Int => decide (keyD sl.store p.1 < k)) b = false := by
        intro b hb
        have := hBge b.1 (hBfst i b (by rw [← hB]; exact hb))
        simpa using this
      rw [(takeWhile_all_append _ A B hPA hPB).1]
    have hUneq := hspnxt
    have hUne_i : fingerU sl k sp i ≠ sl.nextId :=
      (fingerU_side sl sp h k nl hnlM i hi).2.2.2.1
    by_cases hinl : i < nl
    · have hfN : ∀ y, (y = 0 ∨ y ∈ (A ++ B).map Prod.fst) → y ≠ fingerU sl k sp i →
          forwardN S.store y i = forwardN sl.store y i := by
        intro y hy hyne
        have hynxt : y ≠ sl.nextId := by
          rcases hy with rfl | hmem
          · omega
          · exact hspnxt y (hmemsp y hmem)
        rw [D.fwdd y i, if_neg (fun hh => hynxt hh.2), if_neg (fun hh => hyne hh.2),
          if_neg hynxt]
      have hfU : forwardN S.store (fingerU sl k sp i) i = some sl.nextId := by
        rw [D.fwdd, if_neg (fun hh => hUne_i hh.2), if_pos ⟨hinl, rfl⟩]
      have hfnxt : forwardN S.store sl.nextId i = forwardN sl.store (fingerU sl k sp i) i := by
        rw [D.fwdd, if_pos ⟨hinl, rfl⟩]
      have hdN : ∀ y, (y = 0 ∨ y ∈ (A ++ B).map Prod.fst) → y ≠ fingerU sl k sp i →
          diffN S.store y i = diffN sl.store y i := by
        intro y hy hyne
        have hynxt : y ≠ sl.nextId := by
          rcases hy with rfl | hmem
          · omega
          · exact hspnxt y (hmemsp y hmem)
        rw [D.diffd y i, if_neg (fun hh => hynxt hh.2), if_neg (fun hh => hyne hh.2),
          if_neg (fun hh => hyne hh.2.2), if_neg hynxt]
      have hdU : diffN S.store (fingerU sl k sp i) i =
          (spA.length : Int) - fingerDist sl k sp i + 1 := by
        rw [D.diffd, if_neg (fun hh => hUne_i hh.2), if_pos ⟨hinl, rfl⟩, hd0pos]
      have hdnxt : diffN S.store sl.nextId i =
          (if sl.level ≤ i then sl.length + 1 else diffN sl.store (fingerU sl k sp i) i)
            - (spA.length : Int) + fingerDist sl k sp i := by
        rw [D.diffd, if_pos ⟨hinl, rfl⟩, hd0pos]
      have hlastd1 : B = [] →
          (if sl.level ≤ i then sl.length + 1 else diffN sl.store (fingerU sl k sp i) i) =
          sl.length + 1 - fingerDist sl k sp i := by
        intro hBnil
        by_cases hLi : sl.level ≤ i
        · rw [if_pos hLi, (fingerU_high sl k sp h i hLi).2]
          ring
        · rw [if_neg hLi]
          have h4 := hold4 (by omega)
          rw [hBnil, List.append_nil, hlastAi] at h4
          exact h4
      have hlastd2 : ∀ (b : Nat × Int) (bs : List (Nat × Int)), B = b :: bs →
          diffN sl.store (lastPairOf b bs).1 i = sl.length + 1 - (lastPairOf b bs).2 := by
        intro b bs hBc
        have h4 := hold4 (hBnonnil_L b bs hBc)
        rw [hBc, lastPairOf_append, lastPairOf_cons] at h4
        exact h4
      have hheadB : ∀ (b : Nat × Int) (bs : List (Nat × Int)), B = b :: bs →
          (if sl.level ≤ i then sl.length + 1 else diffN sl.store (fingerU sl k sp i) i) =
          b.2 - fingerDist sl k sp i := by
        intro b bs hBc
        have hiL := hBnonnil_L b bs hBc
        rw [if_neg (by omega)]
        have hx := spansR_extract sl.store i (A ++ B) (0, 0) hold3 A b bs (by rw [hBc])
        rw [hlastAi] at hx
        exact hx
      obtain ⟨g1, g2, g3, g4⟩ := chain_splice sl.store S.store i sl.length A B
        sl.nextId (fingerU sl k sp i) (spA.length : Int) (fingerDist sl k sp i)
        (if sl.level ≤ i then sl.length + 1 else diffN sl.store (fingerU sl k sp i) i)
        hnd hlastAi hold1 hold2 hold3 hlastd1 hlastd2 hheadB hfN hfU hfnxt hdN hdU hdnxt
      have hcn : chainF S.store i (numberFrom 1 (spA ++ sl.nextId :: spB)) =
          A ++ (sl.nextId, (spA.length : Int) + 1) :: shift1 B := by
        rw [hchainNew i, if_pos hinl, List.singleton_append, ← hA, ← hB]
      unfold chainWF
      rw [hcn]
      exact ⟨g1, g2, g3, g4⟩
    · have hiL : i < sl.level := by omega
      have hfN : ∀ y, (y = 0 ∨ y ∈ (A ++ B).map Prod.fst) →
          forwardN S.store y i = forwardN sl.store y i := by
        intro y hy
        have hynxt : y ≠ sl.nextId := by
          rcases hy with rfl | hmem
          · omega
          · exact hspnxt y (hmemsp y hmem)
        rw [D.fwdd y i, if_neg (fun hh => hinl hh.1), if_neg (fun hh => hinl hh.1),
          if_neg hynxt]
      have hdN : ∀ y, (y = 0 ∨ y ∈ (A ++ B).map Prod.fst) → y ≠ fingerU sl k sp i →
          diffN S.store y i = diffN sl.store y i := by
        intro y hy hyne
        have hynxt : y ≠ sl.nextId := by
          rcases hy with rfl | hmem
          · omega
          · exact hspnxt y (hmemsp y hmem)
        rw [D.diffd y i, if_neg (fun hh => hinl hh.1), if_neg (fun hh => hinl hh.1),
          if_neg (fun hh => hyne hh.2.2), if_neg hynxt]
      have hdU : diffN S.store (fingerU sl k sp i) i =
          diffN sl.store (fingerU sl k sp i) i + 1 := by
        rw [D.diffd, if_neg (fun hh => hinl hh.1), if_neg (fun hh => hinl hh.1),
          if_pos ⟨by omega, hiL, rfl⟩]
      obtain ⟨g1, g2, g3, g4⟩ := chain_bump sl.store S.store i sl.length A B
        (fingerU sl k sp i) (fingerDist sl k sp i)
        hnd hlastAi hold1 hold2 hold3 (hold4 hiL) hfN hdN hdU
      have hcn : chainF S.store i (numberFrom 1 (spA ++ sl.nextId :: spB)) =
          A ++ shift1 B := by
        rw [hchainNew i, if_neg hinl, List.nil_append, ← hA, ← hB]
      unfold chainWF
      rw [hcn]
      exact ⟨g1, g2, g3, g4⟩
  have hUmemNew : ∀ i, i < sl.level →
      fingerU sl k sp i = 0 ∨
      (fingerU sl k sp i, fingerDist sl k sp i) ∈
        chainF S.store i (numberFrom 1 (spA ++ sl.nextId :: spB)) := by
    intro i hi
    rcases fingerU_mem sl k sp i with h0 | ⟨hm, hkey⟩
    · exact Or.inl h0
    · right
      have hchainOld : chainF sl.store i (numberFrom 1 sp) =
          chainF sl.store i (numberFrom 1 spA) ++
          chainF sl.store i (numberFrom (1 + (spA.length : Int)) spB) := by
        rw [hspRoldx, chainF_append]
      rw [hchainOld] at hm
      rcases List.mem_append.mp hm with hmA | hmB
      · rw [hchainNew i]
        exact List.mem_append.mpr (Or.inl hmA)
      · exfalso
        exact hBge _ (hBfst i _ hmB) hkey
  have hmem' : ∀ y ∈ spA ++ sl.nextId :: spB, y = sl.nextId ∨ y ∈ sp := by
    intro y hy
    rcases List.mem_append.mp hy with h1 | h1
    · exact Or.inr (hsubA y h1)
    · rcases List.mem_cons.mp h1 with rfl | h2
      · exact Or.inl rfl
      · exact Or.inr (hsubB y h2)
  refine ⟨?_, ?_, ?_, ?_, ?_, ?_, ?_, ?_, ?_, ?_, ?_, ?_, ?_, ?_, ?_, ?_, ?_, ?_, ?_, ?_,
    ?_, ?_, ?_, ?_⟩
  · rw [D.mapf]
    refine List.nodup_cons.mpr ⟨?_, h.ids_nodup⟩
    intro hc
    rw [← lookup_isSome_iff_mem_map_fst, h.dom] at hc
    rcases hc with h1 | h1
    · exact hnxt0 h1
    · exact hnxtsp h1
  · intro x
    rw [D.lkup x]
    by_cases hx : x = sl.nextId
    · rw [if_pos hx]
      subst hx
      constructor
      · intro _
        right
        exact List.mem_append.mpr (Or.inr (List.mem_cons_self _ _))
      · intro _
        rfl
    · rw [if_neg hx, h.dom x]
      constructor
      · intro hc
        rcases hc with h1 | h1
        · exact Or.inl h1
        · right
          rw [← hsplit] at h1
          rcases List.mem_append.mp h1 with h2 | h2
          · exact List.mem_append.mpr (Or.inl h2)
          · exact List.mem_append.mpr (Or.inr (List.mem_cons_of_mem _ h2))
      · intro hc
        rcases hc with h1 | h1
        · exact Or.inl h1
        · right
          rcases hmem' x h1 with h2 | h2
          · exact absurd h2 hx
          · exact h2
  · rw [D.keyd, if_neg (fun hh => hnxt0 hh.symm)]
    exact h.hdr_key
  · rw [D.heightd, if_neg (fun hh => hnxt0 hh.symm)]
    exact h.hdr_height
  · rw [D.flend, if_neg (fun hh => hnxt0 hh.symm)]
    exact h.hdr_fwd_len
  · rw [D.dlend, if_neg (fun hh => hnxt0 hh.symm)]
    exact h.hdr_diff_len
  · refine List.nodup_cons.mpr ⟨?_, ?_⟩
    · intro hc
      rcases hmem' 0 hc with h1 | h1
      · exact hnxt0 h1.symm
      · exact (List.nodup_cons.mp h.sp_nodup).1 h1
    · have hperm : (spA ++ sl.nextId :: spB).Perm (sl.nextId :: (spA ++ spB)) :=
        List.perm_middle
      rw [hperm.nodup_iff, hsplit]
      exact List.nodup_cons.mpr ⟨hnxtsp, (List.nodup_cons.mp h.sp_nodup).2⟩
  · intro y hy
    rcases hmem' y hy with rfl | h1
    · unfold keyD
      rw [D.keyd, if_pos rfl]
      rfl
    · have hne := hspnxt y h1
      unfold keyD
      rw [D.keyd, if_neg hne]
      exact h.sp_key y h1
  · intro y hy
    rcases hmem' y hy with rfl | h1
    · rw [D.heightd, if_pos rfl]
      exact hnl1
    · rw [D.heightd, if_neg (hspnxt y h1)]
      exact h.sp_hpos y h1
  · intro y hy
    rw [D.lvl]
    rcases hmem' y hy with rfl | h1
    · rw [D.heightd, if_pos rfl]
      omega
    · rw [D.heightd, if_neg (hspnxt y h1)]
      have := h.sp_hle y h1
      omega
  · intro y hy
    rcases hmem' y hy with rfl | h1
    · rw [D.flend, if_pos rfl, D.heightd, if_pos rfl]
    · rw [D.flend, if_neg (hspnxt y h1), D.heightd, if_neg (hspnxt y h1)]
      exact h.sp_fwd_len y h1
  · intro y hy
    rcases hmem' y hy with rfl | h1
    · rw [D.dlend, if_pos rfl, D.heightd, if_pos rfl]
    · rw [D.dlend, if_neg (hspnxt y h1), D.heightd, if_neg (hspnxt y h1)]
      exact h.sp_diff_len y h1
  · rw [D.lvl]
    have := h.level_pos
    omega
  · rw [D.lvl]
    omega
  · rw [D.len2, h.len_eq]
    have hlen : (spA ++ sl.nextId :: spB).length = sp.length + 1 := by
      rw [← hsplit]
      simp
      omega
    rw [hlen]
    push_cast
    ring
  · have hkeq : ∀ y ∈ sp, keyD S.store y = keyD sl.store y := by
      intro y hy
      unfold keyD
      rw [D.keyd, if_neg (hspnxt y hy)]
    have hknxt : keyD S.store sl.nextId = k := by
      unfold keyD
      rw [D.keyd, if_pos rfl]
      rfl
    rw [List.map_append, List.map_cons, hknxt]
    have hmA : spA.map (keyD S.store) = spA.map (keyD sl.store) :=
      List.map_congr_left (fun y hy => hkeq y (hsubA y hy))
    have hmB : spB.map (keyD S.store) = spB.map (keyD sl.store) :=
      List.map_congr_left (fun y hy => hkeq y (hsubB y hy))
    rw [hmA, hmB]
    have hold : ((spA ++ spB).map (keyD sl.store)).Pairwise (· ≤ ·) := by
      rw [hsplit]
      exact h.sorted
    rw [List.map_append] at hold
    obtain ⟨hpA, hpB, hcross⟩ := List.pairwise_append.mp hold
    rw [List.pairwise_append]
    refine ⟨hpA, ?_, ?_⟩
    · rw [List.pairwise_cons]
      refine ⟨?_, hpB⟩
      intro b hb
      obtain ⟨y, hy, rfl⟩ := List.mem_map.mp hb
      have := hBge y hy
      omega
    · intro a ha b hb
      obtain ⟨ya, hya, rfl⟩ := List.mem_map.mp ha
      have h1 := hAlt ya hya
      rcases List.mem_cons.mp hb with rfl | hb2
      · omega
      · obtain ⟨yb, hyb, rfl⟩ := List.mem_map.mp hb2
        have h2 := hBge yb hyb
        omega
  · intro i hi
    rw [D.lvl] at hi
    rw [D.len2]
    exact hCW i hi
  · intro i h1 h2
    rw [D.lvl] at h1
    rw [D.fwdd 0 i, if_neg (fun hh => hnxt0 hh.2.symm),
      if_neg (fun hh => absurd hh.1 (by omega)), if_neg (fun hh => hnxt0 hh.symm)]
    exact h.fwd_high i (by omega) h2
  · rw [D.fing, hs.cflen]
    exact h.finger_len
  · rw [D.dist, hs.cdlen]
    exact h.distance_len
  · intro i hi
    rw [D.lvl] at hi
    rw [D.fing, D.dist]
    by_cases hiL : i < sl.level
    · rw [hs.cfi i hiL (by rw [h.finger_len]; omega),
        hs.cdi i hiL (by rw [h.distance_len]; omega)]
      exact hUmemNew i hiL
    · rw [hs.cfhi i (by omega)]
      left
      exact h.cache_high i (by omega) (by omega)
  · intro i h1 h2
    rw [D.lvl] at h1
    rw [D.fing, hs.cfhi i (by omega)]
    exact h.cache_high i (by omega) h2
  · intro y hy
    rw [D.nid2]
    rcases hmem' y hy with rfl | h1
    · omega
    · have := h.id_lt y h1
      omega
  · rw [D.nid2]
    omega

/-- Rebuilding one level-`i` chain after the delete unlink, for a level
the deleted node participates in: the old chain `A ++ del :: shift1 T`
becomes `A ++ T`, the finger `Ui` takes over the deleted node's forward
pointer, and its span absorbs the deleted node's span minus one. -/
theorem chain_unsplice (stO stN : Store) (i : Nat) (lenO : Int)
    (A T : List (Nat × Int)) (b Ui : Nat) (pos Di : Int)
    (hnd : (0 :: (A ++ (b, pos + 1) :: shift1 T).map Prod.fst).Nodup)
    (hlastA : lastPairOf (0, 0) A = (Ui, Di))
    (hlink : linkedR stO i 0 (A ++ (b, pos + 1) :: shift1 T))
    (hend : forwardN stO (lastIdOf 0 (A ++ (b, pos + 1) :: shift1 T)) i = none)
    (hspan : spansR stO i (0, 0) (A ++ (b, pos + 1) :: shift1 T))
    (hlastd : diffN stO (lastPairOf (0, 0) (A ++ (b, pos + 1) :: shift1 T)).1 i =
      lenO + 1 - (lastPairOf (0, 0) (A ++ (b, pos + 1) :: shift1 T)).2)
    (hfN : ∀ y, (y = 0 ∨ y ∈ (A ++ T).map Prod.fst) → y ≠ Ui →
      forwardN stN y i = forwardN stO y i)
    (hfU : forwardN stN Ui i = forwardN stO b i)
    (hdN : ∀ y, (y = 0 ∨ y ∈ (A ++ T).map Prod.fst) → y ≠ Ui →
      diffN stN y i = diffN stO y i)
    (hdU : diffN stN Ui i = diffN stO Ui i + diffN stO b i - 1) :
    linkedR stN i 0 (A ++ T) ∧
    forwardN stN (lastIdOf 0 (A ++ T)) i = none ∧
    spansR stN i (0, 0) (A ++ T) ∧
    diffN stN (lastPairOf (0, 0) (A ++ T)).1 i =
      lenO - 1 + 1 - (lastPairOf (0, 0) (A ++ T)).2 := by
  have hUidA : lastIdOf 0 A = Ui := by
    rw [lastIdOf_eq_lastPairOf 0 0 A, hlastA]
  have hndA : (0 :: A.map Prod.fst).Nodup := by
    refine hnd.sublist ?_
    rw [List.map_append]
    exact List.cons_sublist_cons.mpr (List.sublist_append_left _ _)
  have h0notin : (0 : Nat) ∉ (A ++ (b, pos + 1) :: shift1 T).map Prod.fst :=
    (List.nodup_cons.mp hnd).1
  have hdisj : List.Disjoint (A.map Prod.fst) (((b, pos + 1) :: shift1 T).map Prod.fst) := by
    have h2 := (List.nodup_cons.mp hnd).2
    rw [List.map_append] at h2
    exact List.disjoint_of_nodup_append h2
  have hUimem : Ui = 0 ∨ Ui ∈ A.map Prod.fst := by
    rcases lastPairOf_mem (0, 0) A with h | h
    · left
      rw [hlastA] at h
      exact congrArg Prod.fst h
    · right
      rw [hlastA] at h
      exact List.mem_map.mpr ⟨(Ui, Di), h, rfl⟩
  have hTmap : ((b, pos + 1) :: shift1 T).map Prod.fst = b :: T.map Prod.fst := by
    rw [List.map_cons, shift1_fst]
  have hTne : ∀ z, z ∈ T.map Prod.fst → z ≠ Ui := by
    intro z hz
    have hz2 : z ∈ ((b, pos + 1) :: shift1 T).map Prod.fst := by
      rw [hTmap]
      exact List.mem_cons_of_mem _ hz
    rcases hUimem with h0 | hA
    · intro he
      rw [he, h0] at hz2
      exact h0notin (by rw [List.map_append]; exact List.mem_append.mpr (Or.inr hz2))
    · intro he
      exact hdisj hA (he ▸ hz2)
  have hTmem : ∀ z, z ∈ T.map Prod.fst → z = 0 ∨ z ∈ (A ++ T).map Prod.fst := by
    intro z hz
    right
    rw [List.map_append]
    exact List.mem_append.mpr (Or.inr hz)
  have holdA : linkedR stO i 0 A :=
    ((linkedR_append stO i 0 A ((b, pos + 1) :: shift1 T)).mp hlink).1
  have holdB : forwardN stO Ui i = some b ∧ linkedR stO i b (shift1 T) := by
    have := ((linkedR_append stO i 0 A ((b, pos + 1) :: shift1 T)).mp hlink).2
    rw [hUidA] at this
    exact this
  have hospA : spansR stO i (0, 0) A :=
    ((spansR_append stO i (0, 0) A ((b, pos + 1) :: shift1 T)).mp hspan).1
  have hospB : diffN stO Ui i = pos + 1 - Di ∧ spansR stO i (b, pos + 1) (shift1 T) := by
    have := ((spansR_append stO i (0, 0) A ((b, pos + 1) :: shift1 T)).mp hspan).2
    rw [hlastA] at this
    exact this
  have htrA_mem : ∀ pre q post, A = pre ++ q :: post →
      lastIdOf 0 pre ≠ Ui ∧
      (lastIdOf 0 pre = 0 ∨ lastIdOf 0 pre ∈ (A ++ T).map Prod.fst) := by
    intro pre q post hsp
    constructor
    · have hnd2 : (0 :: (pre ++ q :: post).map Prod.fst).Nodup := by
        rw [← hsp]
        exact hndA
      rw [← hUidA]
      conv_rhs => rw [hsp]
      exact split_lastId_ne 0 pre post q hnd2
    · rcases lastIdOf_mem 0 pre with h | h
      · exact Or.inl h
      · right
        rw [List.map_append]
        refine List.mem_append.mpr (Or.inl ?_)
        have hsub : pre.Sublist A := by
          rw [hsp]
          exact List.sublist_append_left _ _
        exact (hsub.map Prod.fst).subset h
  have goal1a : linkedR stN i 0 A := by
    refine linkedR_transport stO stN i A 0 holdA ?_
    intro pre q post hsp
    obtain ⟨hne, hm⟩ := htrA_mem pre q post hsp
    exact hfN _ hm hne
  have goal3a : spansR stN i (0, 0) A := by
    refine spansR_transport stO stN i A (0, 0) hospA ?_
    intro pre q post hsp
    obtain ⟨hne, hm⟩ := htrA_mem pre q post hsp
    have hid : (lastPairOf (0, 0) pre).1 = lastIdOf 0 pre :=
      (lastIdOf_eq_lastPairOf 0 0 pre).symm
    rw [hid]
    exact hdN _ hm hne
  refine ⟨?_, ?_, ?_, ?_⟩
  · rw [linkedR_append]
    refine ⟨goal1a, ?_⟩
    rw [hUidA]
    cases hT : T with
    | nil => trivial
    | cons t ts =>
      refine ⟨?_, ?_⟩
      · rw [hfU]
        have h2 := holdB.2
        rw [hT] at h2
        exact h2.1
      · have holdtail : linkedR stO i t.1 ts := by
          have h2 := holdB.2
          rw [hT] at h2
          have hsh : shift1 (t :: ts) = (t.1, t.2 + 1) :: shift1 ts := rfl
          rw [hsh] at h2
          have h3 : linkedR stO i t.1 (shift1 ts) := h2.2
          rwa [linkedR_shift1] at h3
        refine linkedR_transport stO stN i ts t.1 holdtail ?_
        intro pre q post hsp
        have hz : lastIdOf t.1 pre ∈ T.map Prod.fst := by
          rcases lastIdOf_mem t.1 pre with hh | hh
          · rw [hh, hT]
            exact List.mem_map.mpr ⟨t, List.mem_cons_self _ _, rfl⟩
          · rw [hT]
            have hsub : pre.Sublist ts := by
              rw [hsp]
              exact List.sublist_append_left _ _
            rcases List.mem_map.mp ((hsub.map Prod.fst).subset hh) with ⟨p, hp, hpe⟩
            exact List.mem_map.mpr ⟨p, List.mem_cons_of_mem _ hp, hpe⟩
        exact hfN _ (hTmem _ hz) (hTne _ hz)
  · cases hT : T with
    | nil =>
      rw [List.append_nil, hUidA, hfU]
      have h2 := hend
      rw [hT] at h2
      have hle : lastIdOf 0 (A ++ [(b, pos + 1)] ) = b := by
        rw [lastIdOf_append, lastIdOf_cons, lastIdOf_nil]
      have hsh : shift1 ([] : List (Nat × Int)) = [] := rfl
      rw [hsh] at h2
      rwa [hle] at h2
    | cons t ts =>
      rw [lastIdOf_append, lastIdOf_cons]
      have hz : lastIdOf t.1 ts ∈ T.map Prod.fst := by
        rcases lastIdOf_mem t.1 ts with hh | hh
        · rw [hh, hT]
          exact List.mem_map.mpr ⟨t, List.mem_cons_self _ _, rfl⟩
        · rw [hT]
          rcases List.mem_map.mp hh with ⟨p, hp, hpe⟩
          exact List.mem_map.mpr ⟨p, List.mem_cons_of_mem _ hp, hpe⟩
      rw [hfN _ (hTmem _ hz) (hTne _ hz)]
      have hle : lastIdOf 0 (A ++ (b, pos + 1) :: shift1 T) = lastIdOf t.1 ts := by
        rw [lastIdOf_append, lastIdOf_cons, lastIdOf_shift1, hT, lastIdOf_cons]
      rw [← hle]
      exact hend
  · rw [spansR_append]
    refine ⟨goal3a, ?_⟩
    rw [hlastA]
    cases hT : T with
    | nil => trivial
    | cons t ts =>
      refine ⟨?_, ?_⟩
      · rw [hdU, hospB.1]
        have h2 := hospB.2
        rw [hT] at h2
        have h3 : diffN stO b i = t.2 + 1 - (pos + 1) := h2.1
        rw [h3]
        ring
      · have hosptail : spansR stO i t ts := by
          have h2 := hospB.2
          rw [hT] at h2
          have hsh : shift1 (t :: ts) = (t.1, t.2 + 1) :: shift1 ts := rfl
          rw [hsh] at h2
          have h4 : spansR stO i (t.1, t.2 + 1) (shift1 ts) := h2.2
          rwa [spansR_shift1] at h4
        refine spansR_transport stO stN i ts t hosptail ?_
        intro pre q post hsp
        have hz : (lastPairOf t pre).1 ∈ T.map Prod.fst := by
          rcases lastPairOf_mem t pre with hh | hh
          · rw [hh, hT]
            exact List.mem_map.mpr ⟨t, List.mem_cons_self _ _, rfl⟩
          · rw [hT]
            have hsub : pre.Sublist ts := by
              rw [hsp]
              exact List.sublist_append_left _ _
            exact List.mem_map.mpr ⟨_, List.mem_cons_of_mem _ (hsub.subset hh), rfl⟩
        exact hdN _ (hTmem _ hz) (hTne _ hz)
  · cases hT : T with
    | nil =>
      rw [List.append_nil, hlastA]
      show diffN stN Ui i = lenO - 1 + 1 - Di
      rw [hdU, hospB.1]
      have h2 := hlastd
      rw [hT] at h2
      have hsh : shift1 ([] : List (Nat × Int)) = [] := rfl
      rw [hsh] at h2
      have hlp : lastPairOf ((0 : Nat), (0 : Int)) (A ++ [(b, pos + 1)]) = (b, pos + 1) := by
        rw [lastPairOf_append, lastPairOf_cons, lastPairOf_nil]
      rw [hlp] at h2
      have h3 : diffN stO b i = lenO + 1 - (pos + 1) := h2
      rw [h3]
      ring
    | cons t ts =>
      rw [lastPairOf_append, lastPairOf_cons]
      show diffN stN (lastPairOf t ts).1 i = lenO - 1 + 1 - (lastPairOf t ts).2
      have hz : (lastPairOf t ts).1 ∈ T.map Prod.fst := by
        rcases lastPairOf_mem t ts with hh | hh
        · rw [hh, hT]
          exact List.mem_map.mpr ⟨t, List.mem_cons_self _ _, rfl⟩
        · rw [hT]
          exact List.mem_map.mpr ⟨_, List.mem_cons_of_mem _ hh, rfl⟩
      rw [hdN _ (hTmem _ hz) (hTne _ hz)]
      have h2 := hlastd
      rw [hT] at h2
      have hsh : shift1 (t :: ts) = (t.1, t.2 + 1) :: shift1 ts := rfl
      rw [hsh] at h2
      have hlp : lastPairOf ((0 : Nat), (0 : Int))
          (A ++ (b, pos + 1) :: (t.1, t.2 + 1) :: shift1 ts) =
          ((lastPairOf t ts).1, (lastPairOf t ts).2 + 1) := by
        rw [lastPairOf_append, lastPairOf_cons, lastPairOf_cons]
        have hkey := lastPairOf_shift1 ts t.1 t.2
        have hbe : ((t.1 : Nat), (t.2 : Int)) = t := rfl
        rw [hkey, hbe]
      rw [hlp] at h2
      rw [h2]
      ring

/-- Rebuilding a level-`i` chain the deleted node does not reach: only
the finger's span shrinks by one, and ranks after the key position shift
back down. -/
theorem chain_debump (stO stN : Store) (i : Nat) (lenO : Int)
    (A T : List (Nat × Int)) (Ui : Nat) (Di : Int)
    (hnd : (0 :: (A ++ shift1 T).map Prod.fst).Nodup)
    (hlastA : lastPairOf (0, 0) A = (Ui, Di))
    (hlink : linkedR stO i 0 (A ++ shift1 T))
    (hend : forwardN stO (lastIdOf 0 (A ++ shift1 T)) i = none)
    (hspan : spansR stO i (0, 0) (A ++ shift1 T))
    (hlastd : diffN stO (lastPairOf (0, 0) (A ++ shift1 T)).1 i =
      lenO + 1 - (lastPairOf (0, 0) (A ++ shift1 T)).2)
    (hfN : ∀ y, (y = 0 ∨ y ∈ (A ++ T).map Prod.fst) →
      forwardN stN y i = forwardN stO y i)
    (hdN : ∀ y, (y = 0 ∨ y ∈ (A ++ T).map Prod.fst) → y ≠ Ui →
      diffN stN y i = diffN stO y i)
    (hdU : diffN stN Ui i = diffN stO Ui i - 1) :
    linkedR stN i 0 (A ++ T) ∧
    forwardN stN (lastIdOf 0 (A ++ T)) i = none ∧
    spansR stN i (0, 0) (A ++ T) ∧
    diffN stN (lastPairOf (0, 0) (A ++ T)).1 i =
      lenO - 1 + 1 - (lastPairOf (0, 0) (A ++ T)).2 := by
  have hUidA : lastIdOf 0 A = Ui := by
    rw [lastIdOf_eq_lastPairOf 0 0 A, hlastA]
  have hndA : (0 :: A.map Prod.fst).Nodup := by
    refine hnd.sublist ?_
    rw [List.map_append]
    exact List.cons_sublist_cons.mpr (List.sublist_append_left _ _)
  have h0notin : (0 : Nat) ∉ (A ++ shift1 T).map Prod.fst := (List.nodup_cons.mp hnd).1
  have hdisj : List.Disjoint (A.map Prod.fst) ((shift1 T).map Prod.fst) := by
    have h2 := (List.nodup_cons.mp hnd).2
    rw [List.map_append] at h2
    exact List.disjoint_of_nodup_append h2
  have hUimem : Ui = 0 ∨ Ui ∈ A.map Prod.fst := by
    rcases lastPairOf_mem (0, 0) A with h | h
    · left
      rw [hlastA] at h
      exact congrArg Prod.fst h
    · right
      rw [hlastA] at h
      exact List.mem_map.mpr ⟨(Ui, Di), h, rfl⟩
  have hTne : ∀ z, z ∈ T.map Prod.fst → z ≠ Ui := by
    intro z hz
    have hz2 : z ∈ (shift1 T).map Prod.fst := by
      rw [shift1_fst]
      exact hz
    rcases hUimem with h0 | hA
    · intro he
      rw [he, h0] at hz2
      exact h0notin (by rw [List.map_append]; exact List.mem_append.mpr (Or.inr hz2))
    · intro he
      exact hdisj hA (he ▸ hz2)
  have hTmem : ∀ z, z ∈ T.map Prod.fst → z = 0 ∨ z ∈ (A ++ T).map Prod.fst := by
    intro z hz
    right
    rw [List.map_append]
    exact List.mem_append.mpr (Or.inr hz)
  have holdA : linkedR stO i 0 A := ((linkedR_append stO i 0 A (shift1 T)).mp hlink).1
  have holdB : linkedR stO i Ui (shift1 T) := by
    have := ((linkedR_append stO i 0 A (shift1 T)).mp hlink).2
    rwa [hUidA] at this
  have hospA : spansR stO i (0, 0) A := ((spansR_append stO i (0, 0) A (shift1 T)).mp hspan).1
  have hospB : spansR stO i (Ui, Di) (shift1 T) := by
    have := ((spansR_append stO i (0, 0) A (shift1 T)).mp hspan).2
    rwa [hlastA] at this
  have htrA_mem : ∀ pre q post, A = pre ++ q :: post →
      lastIdOf 0 pre ≠ Ui ∧
      (lastIdOf 0 pre = 0 ∨ lastIdOf 0 pre ∈ (A ++ T).map Prod.fst) := by
    intro pre q post hsp
    constructor
    · have hnd2 : (0 :: (pre ++ q :: post).map Prod.fst).Nodup := by
        rw [← hsp]
        exact hndA
      rw [← hUidA]
      conv_rhs => rw [hsp]
      exact split_lastId_ne 0 pre post q hnd2
    · rcases lastIdOf_mem 0 pre with h | h
      · exact Or.inl h
      · right
        rw [List.map_append]
        refine List.mem_append.mpr (Or.inl ?_)
        have hsub : pre.Sublist A := by
          rw [hsp]
          exact List.sublist_append_left _ _
        exact (hsub.map Prod.fst).subset h
  refine ⟨?_, ?_, ?_, ?_⟩
  · rw [linkedR_append]
    constructor
    · refine linkedR_transport stO stN i A 0 holdA ?_
      intro pre q post hsp
      obtain ⟨hne, hm⟩ := htrA_mem pre q post hsp
      exact hfN _ hm
    · rw [hUidA]
      have holdB2 : linkedR stO i Ui T := by
        rw [← linkedR_shift1]
        exact holdB
      refine linkedR_congr ?_ holdB2
      intro y hy
      refine hfN y ?_
      rcases hy with rfl | ⟨p, hp, hpe⟩
      · rcases hUimem with h0 | hA
        · exact Or.inl h0
        · right
          rw [List.map_append]
          exact List.mem_append.mpr (Or.inl hA)
      · exact hTmem y (List.mem_map.mpr ⟨p, hp, hpe⟩)
  · have hids : lastIdOf 0 (A ++ T) = lastIdOf 0 (A ++ shift1 T) := by
      unfold lastIdOf
      rw [List.map_append, List.map_append, shift1_fst]
    rw [hids]
    have hlm := lastIdOf_mem 0 (A ++ shift1 T)
    have hlm2 : lastIdOf 0 (A ++ shift1 T) = 0 ∨
        lastIdOf 0 (A ++ shift1 T) ∈ (A ++ T).map Prod.fst := by
      rcases hlm with h | h
      · exact Or.inl h
      · right
        rw [List.map_append, shift1_fst] at h
        rw [List.map_append]
        exact h
    rw [hfN _ hlm2]
    exact hend
  · rw [spansR_append]
    constructor
    · refine spansR_transport stO stN i A (0, 0) hospA ?_
      intro pre q post hsp
      obtain ⟨hne, hm⟩ := htrA_mem pre q post hsp
      have hid : (lastPairOf (0, 0) pre).1 = lastIdOf 0 pre :=
        (lastIdOf_eq_lastPairOf 0 0 pre).symm
      rw [hid]
      exact hdN _ hm hne
    · rw [hlastA]
      cases hT : T with
      | nil => trivial
      | cons t ts =>
        have hsh : shift1 (t :: ts) = (t.1, t.2 + 1) :: shift1 ts := rfl
        rw [hT, hsh] at hospB
        refine ⟨?_, ?_⟩
        · rw [hdU]
          have h1 : diffN stO Ui i = t.2 + 1 - Di := hospB.1
          rw [h1]
          ring
        · have hosptail : spansR stO i t ts := by
            have h4 : spansR stO i (t.1, t.2 + 1) (shift1 ts) := hospB.2
            rwa [spansR_shift1] at h4
          refine spansR_transport stO stN i ts t hosptail ?_
          intro pre q post hsp
          have hz : (lastPairOf t pre).1 ∈ T.map Prod.fst := by
            rcases lastPairOf_mem t pre with hh | hh
            · rw [hh, hT]
              exact List.mem_map.mpr ⟨t, List.mem_cons_self _ _, rfl⟩
            · rw [hT]
              have hsub : pre.Sublist ts := by
                rw [hsp]
                exact List.sublist_append_left _ _
              exact List.mem_map.mpr ⟨_, List.mem_cons_of_mem _ (hsub.subset hh), rfl⟩
          exact hdN _ (hTmem _ hz) (hTne _ hz)
  · cases hT : T with
    | nil =>
      rw [List.append_nil, hlastA]
      show diffN stN Ui i = lenO - 1 + 1 - Di
      rw [hdU]
      have h2 := hlastd
      rw [hT] at h2
      have hsh : shift1 ([] : List (Nat × Int)) = [] := rfl
      rw [hsh, List.append_nil, hlastA] at h2
      have h3 : diffN stO Ui i = lenO + 1 - Di := h2
      rw [h3]
      ring
    | cons t ts =>
      rw [lastPairOf_append, hlastA, lastPairOf_cons]
      show diffN stN (lastPairOf t ts).1 i = lenO - 1 + 1 - (lastPairOf t ts).2
      have hz : (lastPairOf t ts).1 ∈ T.map Prod.fst := by
        rcases lastPairOf_mem t ts with hh | hh
        · rw [hh, hT]
          exact List.mem_map.mpr ⟨t, List.mem_cons_self _ _, rfl⟩
        · rw [hT]
          exact List.mem_map.mpr ⟨_, List.mem_cons_of_mem _ hh, rfl⟩
      rw [hdN _ (hTmem _ hz) (hTne _ hz)]
      have h2 := hlastd
      rw [hT] at h2
      have hsh : shift1 (t :: ts) = (t.1, t.2 + 1) :: shift1 ts := rfl
      rw [hsh] at h2
      have hlp : lastPairOf ((0 : Nat), (0 : Int)) (A ++ (t.1, t.2 + 1) :: shift1 ts) =
          ((lastPairOf t ts).1, (lastPairOf t ts).2 + 1) := by
        rw [lastPairOf_append, lastPairOf_cons]
        have hkey := lastPairOf_shift1 ts t.1 t.2
        have hbe : ((t.1 : Nat), (t.2 : Int)) = t := rfl
        rw [hkey, hbe]
      rw [hlp] at h2
      rw [h2]
      ring

/-- The body of `SkipList_Delete` after the key search, given the search
output explicitly. -/
def deleteResolve (sl1 : SL) (u : List Nat) (k : Int) : SL × Int :=
  match forwardN sl1.store (u.getD 0 0) 0 with
  | none => (sl1, 0)
  | some nid =>
    if cmpKO (keyN sl1.store nid) k = 0 then
      let st2 := delLoop u nid sl1.store sl1.level
      let st3 := st2.filter (fun p => decide (p.1 ≠ nid))
      let lvl := shrinkLoop st3 sl1.level
      ({ store := st3, finger := sl1.finger, distance := sl1.distance,
         level := lvl, length := sl1.length - 1, nextId := sl1.nextId }, 1)
    else (sl1, 0)

theorem SkipList_Delete_eq (sl : SL) (k : Int) :
    SkipList_Delete sl k =
      deleteResolve (Search_by_Key sl k).1 (Search_by_Key sl k).2.1 k := rfl

/-- The level-0 forward pointer reached by the key search is the head of
the dropped part of the spine. -/
theorem search_fwd0 (sl : SL) (sp : List Nat) (h : WF sl sp) (k : Int) :
    forwardN sl.store ((Search_by_Key sl k).2.1.getD 0 0) 0 =
      ((sp.dropWhile (fun y => decide (keyD sl.store y < k))).head?).map
        (fun y => y) := by
  have hs := Search_by_Key_spec sl sp k h
  obtain ⟨hlink, hend, _, _⟩ := h.chains 0 h.level_pos
  have hzero : chainF sl.store 0 (numberFrom 1 sp) = numberFrom 1 sp :=
    chainF_zero _ _ (fun p hp => h.sp_hpos p.1 (mem_numberFrom hp).1)
  rw [hzero] at hlink hend
  have hf0 : (Search_by_Key sl k).2.1.getD 0 0 =
      (lastLt sl.store k 0 (numberFrom 1 sp)).1 := hs.fi 0 h.level_pos
  rw [hf0]
  unfold lastLt
  rw [hzero]
  rw [forward_takeWhile_head sl.store 0 _ (numberFrom 1 sp) hlink hend]
  have hdrop : ((numberFrom 1 sp).dropWhile (fun p => decide (keyD sl.store p.1 < k))) =
      numberFrom (1 + ((sp.takeWhile (fun y => decide (keyD sl.store y < k))).length : Int))
        (sp.dropWhile (fun y => decide (keyD sl.store y < k))) :=
    (takeWhile_numberFrom (fun y => decide (keyD sl.store y < k)) sp 1).2
  rw [hdrop]
  cases hD : sp.dropWhile (fun y => decide (keyD sl.store y < k)) with
  | nil => rfl
  | cons b bs => rfl

theorem delete_absent (sl : SL) (sp : List Nat) (h : WF sl sp) (k : Int)
    (hk : ∀ y ∈ sp, keyD sl.store y ≠ k) :
    SkipList_Delete sl k = ((Search_by_Key sl k).1, 0) := by
  have hs := Search_by_Key_spec sl sp k h
  have hf := search_fwd0 sl sp h k
  rw [SkipList_Delete_eq]
  show deleteResolve (Search_by_Key sl k).1 (Search_by_Key sl k).2.1 k = _
  unfold deleteResolve
  rw [hs.store_eq, hf]
  cases hD : sp.dropWhile (fun y => decide (keyD sl.store y < k)) with
  | nil => rfl
  | cons b bs =>
    have hb : b ∈ sp := (List.dropWhile_sublist _).subset (hD ▸ List.mem_cons_self b bs)
    have hkb : keyN sl.store b = some (keyD sl.store b) := h.sp_key b hb
    show (if cmpKO (keyN sl.store b) k = 0 then _ else ((Search_by_Key sl k).1, 0)) = _
    rw [hkb, cmpKO_some, if_neg ?_]
    intro hc
    exact hk b hb ((Member_Compare_eq_zero_iff _ _).mp hc)

theorem fingerDist0_eq (sl : SL) (sp : List Nat) (h : WF sl sp) (k : Int) :
    fingerDist sl k sp 0 =
      ((sp.takeWhile (fun y => decide (keyD sl.store y < k))).length : Int) := by
  have hch0 : chainF sl.store 0 (numberFrom 1 sp) = numberFrom 1 sp :=
    chainF_zero _ _ (fun p hp => h.sp_hpos p.1 (mem_numberFrom hp).1)
  have h2 : fingerDist sl k sp 0 = (lastLt sl.store k 0 (numberFrom 1 sp)).2 := rfl
  rw [h2]
  unfold lastLt
  rw [hch0]
  have hTW1 : (numberFrom 1 sp).takeWhile (fun p => decide (keyD sl.store p.1 < k)) =
      numberFrom 1 (sp.takeWhile (fun y => decide (keyD sl.store y < k))) :=
    (takeWhile_numberFrom (fun y => decide (keyD sl.store y < k)) sp 1).1
  rw [hTW1]
  have hz : ((0 : Nat), (0 : Int)) = ((0 : Nat), (1 : Int) - 1) := by norm_num
  rw [hz, lastPairOf_numberFrom_snd _ 1 0]
  push_cast
  ring

theorem lastLt_split (sl : SL) (sp : List Nat) (h : WF sl sp) (k : Int) (i : Nat) :
    lastPairOf (0, 0) (chainF sl.store i (numberFrom 1
      (sp.takeWhile (fun y => decide (keyD sl.store y < k))))) =
    (fingerU sl k sp i, fingerDist sl k sp i) := by
  have hsplit : sp.takeWhile (fun y => decide (keyD sl.store y < k)) ++
      sp.dropWhile (fun y => decide (keyD sl.store y < k)) = sp :=
    List.takeWhile_append_dropWhile _ sp
  have hspRoldx : numberFrom 1 sp =
      numberFrom 1 (sp.takeWhile (fun y => decide (keyD sl.store y < k))) ++
      numberFrom (1 + ((sp.takeWhile (fun y => decide (keyD sl.store y < k))).length : Int))
        (sp.dropWhile (fun y => decide (keyD sl.store y < k))) := by
    conv_lhs => rw [← hsplit]
    rw [numberFrom_append]
  have hpair : ((fingerU sl k sp i : Nat), fingerDist sl k sp i) =
      lastLt sl.store k i (numberFrom 1 sp) := rfl
  rw [hpair]
  unfold lastLt
  rw [hspRoldx, chainF_append]
  have hPA : ∀ a ∈ chainF sl.store i (numberFrom 1
      (sp.takeWhile (fun y => decide (keyD sl.store y < k)))),
      (fun p : Nat × Int => decide (keyD sl.store p.1 < k)) a = true := by
    intro a ha
    have hm : a.1 ∈ sp.takeWhile (fun y => decide (keyD sl.store y < k)) :=
      (mem_numberFrom (chainF_subset ha).1).1
    simpa using List.mem_takeWhile_imp hm
  have hPB : ∀ b ∈ chainF sl.store i
      (numberFrom (1 + ((sp.takeWhile (fun y => decide (keyD sl.store y < k))).length : Int))
        (sp.dropWhile (fun y => decide (keyD sl.store y < k)))),
      (fun p : Nat × Int => decide (keyD sl.store p.1 < k)) b = false := by
    intro b hb
    have hm : b.1 ∈ sp.dropWhile (fun y => decide (keyD sl.store y < k)) :=
      (mem_numberFrom (chainF_subset hb).1).1
    have := dropWhile_keyGe sl.store k sp h.sorted b.1 hm
    simpa using this
  rw [(takeWhile_all_append _ _ _ hPA hPB).1]

theorem delete_found_eq (sl : SL) (sp : List Nat) (h : WF sl sp) (k : Int)
    (b : Nat) (spT : List Nat)
    (hbs : sp.dropWhile (fun y => decide (keyD sl.store y < k)) = b :: spT)
    (hkey : keyD sl.store b = k) :
    SkipList_Delete sl k =
      ({ store := (delLoop (Search_by_Key sl k).2.1 b sl.store sl.level).filter
            (fun p => decide (p.1 ≠ b)),
         finger := (Search_by_Key sl k).1.finger,
         distance := (Search_by_Key sl k).1.distance,
         level := shrinkLoop ((delLoop (Search_by_Key sl k).2.1 b sl.store sl.level).filter
            (fun p => decide (p.1 ≠ b))) sl.level,
         length := sl.length - 1, nextId := sl.nextId }, 1) := by
  have hs := Search_by_Key_spec sl sp k h
  have hf := search_fwd0 sl sp h k
  have hb : b ∈ sp := (List.dropWhile_sublist _).subset (hbs ▸ List.mem_cons_self b spT)
  have hkb : keyN sl.store b = some (keyD sl.store b) := h.sp_key b hb
  rw [SkipList_Delete_eq]
  unfold deleteResolve
  rw [hs.store_eq, hf, hbs]
  show (if cmpKO (keyN sl.store b) k = 0 then _ else ((Search_by_Key sl k).1, 0)) = _
  rw [hkb, cmpKO_some, if_pos (by rw [Member_Compare_eq_zero_iff]; exact hkey)]
  rw [hs.level_eq, hs.length_eq, hs.nextId_eq]

/-- Deleting a present key removes exactly the first equal-key node from
the spine, preserves well-formedness, and returns 1. -/
theorem WF_delete_found (sl : SL) (sp : List Nat) (k : Int) (b : Nat) (spT : List Nat)
    (h : WF sl sp)
    (hbs : sp.dropWhile (fun y => decide (keyD sl.store y < k)) = b :: spT)
    (hkey : keyD sl.store b = k) :
    WF (SkipList_Delete sl k).1
      (sp.takeWhile (fun y => decide (keyD sl.store y < k)) ++ spT) ∧
    (SkipList_Delete sl k).2 = 1 := by
  have hs := Search_by_Key_spec sl sp k h
  obtain ⟨u, hu⟩ : ∃ x, x = (Search_by_Key sl k).2.1 := ⟨_, rfl⟩
  obtain ⟨F, hF⟩ : ∃ x, x = (Search_by_Key sl k).1.finger := ⟨_, rfl⟩
  obtain ⟨DD, hDDd⟩ : ∃ x, x = (Search_by_Key sl k).1.distance := ⟨_, rfl⟩
  obtain ⟨st2, hst2⟩ : ∃ x, x = delLoop u b sl.store sl.level := ⟨_, rfl⟩
  obtain ⟨st3, hst3⟩ : ∃ x, x = st2.filter (fun p => decide (p.1 ≠ b)) := ⟨_, rfl⟩
  obtain ⟨lvl, hlvl⟩ : ∃ x, x = shrinkLoop st3 sl.level := ⟨_, rfl⟩
  obtain ⟨spA, hspAd⟩ : ∃ x, x = sp.takeWhile (fun y => decide (keyD sl.store y < k)) :=
    ⟨_, rfl⟩
  have heq : SkipList_Delete sl k =
      ({ store := st3, finger := F, distance := DD, level := lvl,
         length := sl.length - 1, nextId := sl.nextId }, 1) := by
    rw [delete_found_eq sl sp h k b spT hbs hkey, ← hu, ← hst2, ← hst3, ← hlvl, ← hF, ← hDDd]
  rw [heq, ← hspAd]
  refine ⟨?_, rfl⟩
  show WF { store := st3, finger := F, distance := DD, level := lvl,
            length := sl.length - 1, nextId := sl.nextId } (spA ++ spT)
  have hML := h.level_le
  have hLpos := h.level_pos
  have hsplit : spA ++ b :: spT = sp := by
    rw [hspAd, ← hbs]
    exact List.takeWhile_append_dropWhile _ sp
  have hsubA : ∀ y ∈ spA, y ∈ sp := by
    intro y hy
    rw [hspAd] at hy
    exact (List.takeWhile_sublist _).subset hy
  have hsubT : ∀ y ∈ spT, y ∈ sp := by
    intro y hy
    rw [← hsplit]
    exact List.mem_append.mpr (Or.inr (List.mem_cons_of_mem _ hy))
  have hbsp : b ∈ sp := by
    rw [← hsplit]
    exact List.mem_append.mpr (Or.inr (List.mem_cons_self _ _))
  have hspnd : sp.Nodup := (List.nodup_cons.mp h.sp_nodup).2
  have h0sp : (0 : Nat) ∉ sp := (List.nodup_cons.mp h.sp_nodup).1
  have hb0 : b ≠ 0 := fun hc => h0sp (hc ▸ hbsp)
  have hndAbT : (spA ++ b :: spT).Nodup := by
    rw [hsplit]
    exact hspnd
  have hbA : b ∉ spA := by
    have hdisj := List.disjoint_of_nodup_append hndAbT
    intro hc
    exact hdisj hc (List.mem_cons_self _ _)
  have hbT : b ∉ spT := by
    have h2 := (List.nodup_append.mp hndAbT).2.1
    exact (List.nodup_cons.mp h2).1
  have hAlt : ∀ y ∈ spA, keyD sl.store y < k := by
    intro y hy
    rw [hspAd] at hy
    simpa using List.mem_takeWhile_imp hy
  have hTge : ∀ y ∈ spT, ¬ keyD sl.store y < k := by
    intro y hy
    refine dropWhile_keyGe sl.store k sp h.sorted y ?_
    rw [hbs]
    exact List.mem_cons_of_mem _ hy
  have hbne_sp : ∀ y, y ∈ spA ∨ y ∈ spT → y ≠ b := by
    intro y hy hc
    subst hc
    rcases hy with h1 | h1
    · exact hbA h1
    · exact hbT h1
  have hufi : ∀ j, j < sl.level → u.getD j 0 = fingerU sl k sp j := by
    intro j hj
    rw [hu]
    exact hs.fi j hj
  have hUneb : ∀ j, fingerU sl k sp j ≠ b := by
    intro j
    rcases fingerU_mem sl k sp j with h0 | ⟨_, hkj⟩
    · rw [h0]
      exact fun hc => hb0 hc.symm
    · intro hc
      rw [hc, hkey] at hkj
      exact absurd hkj (lt_irrefl k)
  have hne' : ∀ j, j < sl.level → u.getD j 0 ≠ b := by
    intro j hj
    rw [hufi j hj]
    exact hUneb j
  have hok' : ∀ j, j < sl.level → (List.lookup (u.getD j 0) sl.store).isSome = true ∧
      j < (nodeGet sl.store (u.getD j 0)).diff.length ∧
      j < (nodeGet sl.store (u.getD j 0)).forward.length := by
    intro j hj
    rw [hufi j hj]
    have hside := fingerU_side sl sp h k 1 (by decide) j
      (lt_of_lt_of_le hj (le_max_left _ _))
    exact ⟨hside.1, hside.2.1, hside.2.2.1⟩
  obtain ⟨d1, d2, d3, d4, d5, d6, d7, d8, d9, d10⟩ :=
    delLoop_desc u b sl.level sl.store hne' hok'
  rw [← hst2] at d1 d2 d3 d4 d5 d6 d7 d8 d9 d10
  have hng3 : ∀ y, y ≠ b → nodeGet st3 y = nodeGet st2 y := by
    intro y hy
    unfold nodeGet
    rw [hst3, lookup_filter_ne _ _ _ hy]
  have hkey3 : ∀ y, y ≠ b → keyN st3 y = keyN sl.store y := by
    intro y hy
    have h1 : keyN st3 y = keyN st2 y := by
      unfold keyN
      rw [hng3 y hy]
    rw [h1, d1]
  have hkeyD3 : ∀ y, y ≠ b → keyD st3 y = keyD sl.store y := by
    intro y hy
    unfold keyD
    rw [hkey3 y hy]
  have hh3 : ∀ y, y ≠ b → heightN st3 y = heightN sl.store y := by
    intro y hy
    have h1 : heightN st3 y = heightN st2 y := by
      unfold heightN
      rw [hng3 y hy]
    rw [h1, d3]
  have hfl3 : ∀ y, y ≠ b → (nodeGet st3 y).forward.length =
      (nodeGet sl.store y).forward.length := by
    intro y hy
    rw [hng3 y hy, d6]
  have hdl3 : ∀ y, y ≠ b → (nodeGet st3 y).diff.length =
      (nodeGet sl.store y).diff.length := by
    intro y hy
    rw [hng3 y hy, d5]
  have hlk3 : ∀ y, y ≠ b →
      (List.lookup y st3).isSome = (List.lookup y sl.store).isSome := by
    intro y hy
    rw [hst3, lookup_filter_ne _ _ _ hy, d4]
  have hfwd3 : ∀ y j, y ≠ b → forwardN st3 y j =
      (if j < sl.level ∧ y = u.getD j 0 ∧ forwardN sl.store (u.getD j 0) j = some b
       then forwardN sl.store b j else forwardN sl.store y j) := by
    intro y j hy
    have h1 : forwardN st3 y j = forwardN st2 y j := by
      unfold forwardN
      rw [hng3 y hy]
    rw [h1, d9]
  have hdiff3 : ∀ y j, y ≠ b → diffN st3 y j =
      (if j < sl.level ∧ y = u.getD j 0 then
        (if forwardN sl.store (u.getD j 0) j = some b
         then diffN sl.store y j + diffN sl.store b j - 1 else diffN sl.store y j - 1)
       else diffN sl.store y j) := by
    intro y j hy
    have h1 : diffN st3 y j = diffN st2 y j := by
      unfold diffN
      rw [hng3 y hy]
    rw [h1, d10]
  have hspRoldx : numberFrom 1 sp =
      numberFrom 1 spA ++ numberFrom (1 + (spA.length : Int)) (b :: spT) := by
    conv_lhs => rw [← hsplit]
    rw [numberFrom_append]
  have hnfB : numberFrom (1 + (spA.length : Int)) (b :: spT) =
      (b, (spA.length : Int) + 1) :: shift1 (numberFrom (1 + (spA.length : Int)) spT) := by
    have h1 : numberFrom (1 + (spA.length : Int)) (b :: spT) =
        (b, 1 + (spA.length : Int)) :: numberFrom (1 + (spA.length : Int) + 1) spT := rfl
    rw [h1, numberFrom_succ]
    have h2 : (1 : Int) + (spA.length : Int) = (spA.length : Int) + 1 := by ring
    rw [h2]
  have hchainOldX : ∀ i, chainF sl.store i (numberFrom 1 sp) =
      chainF sl.store i (numberFrom 1 spA) ++
      chainF sl.store i ((b, (spA.length : Int) + 1) ::
        shift1 (numberFrom (1 + (spA.length : Int)) spT)) := by
    intro i
    rw [hspRoldx, chainF_append, hnfB]
  have hchainOldT : ∀ i, i < heightN sl.store b →
      chainF sl.store i (numberFrom 1 sp) =
      chainF sl.store i (numberFrom 1 spA) ++
      ((b, (spA.length : Int) + 1) ::
        shift1 (chainF sl.store i (numberFrom (1 + (spA.length : Int)) spT))) := by
    intro i hi
    rw [hchainOldX i, chainF_cons_tall _ _ _ _ hi, chainF_shift1]
  have hchainOldS : ∀ i, ¬ i < heightN sl.store b →
      chainF sl.store i (numberFrom 1 sp) =
      chainF sl.store i (numberFrom 1 spA) ++
      shift1 (chainF sl.store i (numberFrom (1 + (spA.length : Int)) spT)) := by
    intro i hi
    rw [hchainOldX i, chainF_cons_short _ _ _ _ hi, chainF_shift1]
  have hchainNew : ∀ i, chainF st3 i (numberFrom 1 (spA ++ spT)) =
      chainF sl.store i (numberFrom 1 spA) ++
      chainF sl.store i (numberFrom (1 + (spA.length : Int)) spT) := by
    intro i
    rw [numberFrom_append, chainF_append]
    congr 1
    · refine chainF_congr ?_
      intro p hp
      exact hh3 p.1 (hbne_sp p.1 (Or.inl (mem_numberFrom hp).1))
    · refine chainF_congr ?_
      intro p hp
      exact hh3 p.1 (hbne_sp p.1 (Or.inr (mem_numberFrom hp).1))
  have hlastAi : ∀ i, lastPairOf (0, 0) (chainF sl.store i (numberFrom 1 spA)) =
      (fingerU sl k sp i, fingerDist sl k sp i) := by
    intro i
    have hx := lastLt_split sl sp h k i
    rw [← hspAd] at hx
    exact hx
  have hhit : ∀ i, i < heightN sl.store b →
      forwardN sl.store (fingerU sl k sp i) i = some b := by
    intro i hi
    have hiL : i < sl.level := lt_of_lt_of_le hi (h.sp_hle b hbsp)
    have hlink := (h.chains i hiL).1
    rw [hchainOldT i hi] at hlink
    have hx := linkedR_extract sl.store i _ 0 hlink
      (chainF sl.store i (numberFrom 1 spA)) (b, (spA.length : Int) + 1)
      (shift1 (chainF sl.store i (numberFrom (1 + (spA.length : Int)) spT))) rfl
    rw [lastIdOf_eq_lastPairOf 0 0 _, hlastAi i] at hx
    exact hx
  have hmiss : ∀ i, heightN sl.store b ≤ i → i < sl.level →
      ¬ forwardN sl.store (fingerU sl k sp i) i = some b := by
    intro i hbi hiL
    have hco := hchainOldS i (by omega)
    cases hT : chainF sl.store i (numberFrom (1 + (spA.length : Int)) spT) with
    | nil =>
      have hend := (h.chains i hiL).2.1
      rw [hco, hT] at hend
      have hs0 : shift1 ([] : List (Nat × Int)) = [] := rfl
      rw [hs0, List.append_nil] at hend
      rw [lastIdOf_eq_lastPairOf 0 0 _, hlastAi i] at hend
      have hend' : forwardN sl.store (fingerU sl k sp i) i = none := hend
      intro hc
      rw [hend'] at hc
      exact Option.noConfusion hc
    | cons t ts =>
      have hlink := (h.chains i hiL).1
      rw [hco, hT] at hlink
      have hsh : shift1 (t :: ts) = (t.1, t.2 + 1) :: shift1 ts := rfl
      rw [hsh] at hlink
      have hx := linkedR_extract sl.store i _ 0 hlink
        (chainF sl.store i (numberFrom 1 spA)) (t.1, t.2 + 1) (shift1 ts) rfl
      rw [lastIdOf_eq_lastPairOf 0 0 _, hlastAi i] at hx
      have hx' : forwardN sl.store (fingerU sl k sp i) i = some t.1 := hx
      intro hc
      rw [hx'] at hc
      have htb : t.1 = b := by
        injection hc
      have htmem : t ∈ chainF sl.store i (numberFrom (1 + (spA.length : Int)) spT) := by
        rw [hT]
        exact List.mem_cons_self t ts
      have htT : t.1 ∈ spT := (mem_numberFrom (chainF_subset htmem).1).1
      exact hbT (htb ▸ htT)
  have hndC : ∀ i, (0 :: (chainF sl.store i (numberFrom 1 sp)).map Prod.fst).Nodup := by
    intro i
    have hsub : ((chainF sl.store i (numberFrom 1 sp)).map Prod.fst).Sublist sp := by
      have h1 := (chainF_sublist sl.store i (numberFrom 1 sp)).map Prod.fst
      rwa [map_fst_numberFrom] at h1
    exact h.sp_nodup.sublist (List.cons_sublist_cons.mpr hsub)
  have hCW : ∀ i, i < sl.level →
      chainWF st3 (sl.length - 1) i (numberFrom 1 (spA ++ spT)) := by
    intro i hiL
    obtain ⟨A, hA⟩ : ∃ x, x = chainF sl.store i (numberFrom 1 spA) := ⟨_, rfl⟩
    obtain ⟨T, hT⟩ : ∃ x, x =
      chainF sl.store i (numberFrom (1 + (spA.length : Int)) spT) := ⟨_, rfl⟩
    have hmemAT : ∀ y, y ∈ (A ++ T).map Prod.fst → y ∈ spA ∨ y ∈ spT := by
      intro y hy
      rw [List.map_append] at hy
      rcases List.mem_append.mp hy with h1 | h1
      · obtain ⟨p, hp, rfl⟩ := List.mem_map.mp h1
        rw [hA] at hp
        exact Or.inl ((mem_numberFrom (chainF_subset hp).1).1)
      · obtain ⟨p, hp, rfl⟩ := List.mem_map.mp h1
        rw [hT] at hp
        exact Or.inr ((mem_numberFrom (chainF_subset hp).1).1)
    have hlastA : lastPairOf (0, 0) A = (fingerU sl k sp i, fingerDist sl k sp i) := by
      rw [hA]
      exact hlastAi i
    have hUneb_i := hUneb i
    have hcnew : chainF st3 i (numberFrom 1 (spA ++ spT)) = A ++ T := by
      rw [hchainNew i, ← hA, ← hT]
    by_cases hib : i < heightN sl.store b
    · have hco : chainF sl.store i (numberFrom 1 sp) =
          A ++ (b, (spA.length : Int) + 1) :: shift1 T := by
        rw [hchainOldT i hib, ← hA, ← hT]
      have hnd : (0 :: (A ++ (b, (spA.length : Int) + 1) :: shift1 T).map Prod.fst).Nodup := by
        rw [← hco]
        exact hndC i
      have hlink := (h.chains i hiL).1
      have hend := (h.chains i hiL).2.1
      have hspan := (h.chains i hiL).2.2.1
      have hlastd := (h.chains i hiL).2.2.2
      rw [hco] at hlink hend hspan hlastd
      have hfN : ∀ y, (y = 0 ∨ y ∈ (A ++ T).map Prod.fst) → y ≠ fingerU sl k sp i →
          forwardN st3 y i = forwardN sl.store y i := by
        intro y hy hyne
        have hyb : y ≠ b := by
          rcases hy with rfl | hm
          · exact fun hc => hb0 hc.symm
          · exact hbne_sp y (hmemAT y hm)
        rw [hfwd3 y i hyb, if_neg (fun hh => hyne (by rw [hh.2.1, hufi i hiL]))]
      have hfU : forwardN st3 (fingerU sl k sp i) i = forwardN sl.store b i := by
        rw [hfwd3 _ i hUneb_i,
          if_pos ⟨hiL, (hufi i hiL).symm, by rw [hufi i hiL]; exact hhit i hib⟩]
      have hdN : ∀ y, (y = 0 ∨ y ∈ (A ++ T).map Prod.fst) → y ≠ fingerU sl k sp i →
          diffN st3 y i = diffN sl.store y i := by
        intro y hy hyne
        have hyb : y ≠ b := by
          rcases hy with rfl | hm
          · exact fun hc => hb0 hc.symm
          · exact hbne_sp y (hmemAT y hm)
        rw [hdiff3 y i hyb, if_neg (fun hh => hyne (by rw [hh.2, hufi i hiL]))]
      have hdU : diffN st3 (fingerU sl k sp i) i =
          diffN sl.store (fingerU sl k sp i) i + diffN sl.store b i - 1 := by
        rw [hdiff3 _ i hUneb_i, if_pos ⟨hiL, (hufi i hiL).symm⟩,
          if_pos (by rw [hufi i hiL]; exact hhit i hib)]
      obtain ⟨g1, g2, g3, g4⟩ := chain_unsplice sl.store st3 i sl.length A T b
        (fingerU sl k sp i) (spA.length : Int) (fingerDist sl k sp i)
        hnd hlastA hlink hend hspan hlastd hfN hfU hdN hdU
      unfold chainWF
      rw [hcnew]
      exact ⟨g1, g2, g3, g4⟩
    · have hco : chainF sl.store i (numberFrom 1 sp) = A ++ shift1 T := by
        rw [hchainOldS i hib, ← hA, ← hT]
      have hnd : (0 :: (A ++ shift1 T).map Prod.fst).Nodup := by
        rw [← hco]
        exact hndC i
      have hlink := (h.chains i hiL).1
      have hend := (h.chains i hiL).2.1
      have hspan := (h.chains i hiL).2.2.1
      have hlastd := (h.chains i hiL).2.2.2
      rw [hco] at hlink hend hspan hlastd
      have hfN : ∀ y, (y = 0 ∨ y ∈ (A ++ T).map Prod.fst) →
          forwardN st3 y i = forwardN sl.store y i := by
        intro y hy
        have hyb : y ≠ b := by
          rcases hy with rfl | hm
          · exact fun hc => hb0 hc.symm
          · exact hbne_sp y (hmemAT y hm)
        rw [hfwd3 y i hyb,
          if_neg (fun hh => hmiss i (by omega) hiL (by rw [← hufi i hiL]; exact hh.2.2))]
      have hdN : ∀ y, (y = 0 ∨ y ∈ (A ++ T).map Prod.fst) → y ≠ fingerU sl k sp i →
          diffN st3 y i = diffN sl.store y i := by
        intro y hy hyne
        have hyb : y ≠ b := by
          rcases hy with rfl | hm
          · exact fun hc => hb0 hc.symm
          · exact hbne_sp y (hmemAT y hm)
        rw [hdiff3 y i hyb, if_neg (fun hh => hyne (by rw [hh.2, hufi i hiL]))]
      have hdU : diffN st3 (fingerU sl k sp i) i =
          diffN sl.store (fingerU sl k sp i) i - 1 := by
        rw [hdiff3 _ i hUneb_i, if_pos ⟨hiL, (hufi i hiL).symm⟩,
          if_neg (by rw [hufi i hiL]; exact hmiss i (by omega) hiL)]
      obtain ⟨g1, g2, g3, g4⟩ := chain_debump sl.store st3 i sl.length A T
        (fingerU sl k sp i) (fingerDist sl k sp i)
        hnd hlastA hlink hend hspan hlastd hfN hdN hdU
      unfold chainWF
      rw [hcnew]
      exact ⟨g1, g2, g3, g4⟩
  obtain ⟨hlv1, hlv2, hlv3⟩ := shrinkLoop_bounds st3 sl.level h.level_pos
  rw [← hlvl] at hlv1 hlv2 hlv3
  have hmemchain : ∀ y, y ∈ spA ++ spT → ∀ i, i < heightN st3 y →
      ∃ r, (y, r) ∈ chainF st3 i (numberFrom 1 (spA ++ spT)) := by
    intro y hy i hi
    have hy2 : y ∈ (numberFrom 1 (spA ++ spT)).map Prod.fst := by
      rw [map_fst_numberFrom]
      exact hy
    obtain ⟨⟨py, pr⟩, hp, hpy⟩ := List.mem_map.mp hy2
    have hpy' : py = y := hpy
    subst hpy'
    refine ⟨pr, ?_⟩
    unfold chainF
    rw [List.mem_filter]
    refine ⟨hp, ?_⟩
    simp only [decide_eq_true_iff]
    exact hi
  have hfwd0 : ∀ i, i < sl.level → ∀ y r,
      (y, r) ∈ chainF st3 i (numberFrom 1 (spA ++ spT)) →
      ∃ c, forwardN st3 0 i = some c := by
    intro i hiL y r hm
    have hlink := (hCW i hiL).1
    cases hc : chainF st3 i (numberFrom 1 (spA ++ spT)) with
    | nil =>
      rw [hc] at hm
      cases hm
    | cons c rest =>
      rw [hc] at hlink
      exact ⟨c.1, hlink.1⟩
  have hsubl : (spA ++ spT).Sublist sp := by
    rw [← hsplit]
    exact (List.Sublist.cons b (List.Sublist.refl spT)).append_left spA
  refine ⟨?_, ?_, ?_, ?_, ?_, ?_, ?_, ?_, ?_, ?_, ?_, ?_, ?_, ?_, ?_, ?_, ?_, ?_, ?_, ?_,
    ?_, ?_, ?_, ?_⟩
  · show (st3.map Prod.fst).Nodup
    rw [hst3]
    exact map_fst_filter_nodup st2 b (by rw [d7]; exact h.ids_nodup)
  · intro x
    show (List.lookup x st3).isSome = true ↔ x = 0 ∨ x ∈ spA ++ spT
    by_cases hxb : x = b
    · subst hxb
      rw [hst3, lookup_filter_self]
      constructor
      · intro hc
        simp at hc
      · intro hc
        exfalso
        rcases hc with h1 | h1
        · exact hb0 h1
        · rcases List.mem_append.mp h1 with h2 | h2
          · exact hbA h2
          · exact hbT h2
    · rw [hlk3 x hxb, h.dom x]
      constructor
      · intro hc
        rcases hc with h1 | h1
        · exact Or.inl h1
        · right
          rw [← hsplit] at h1
          rcases List.mem_append.mp h1 with h2 | h2
          · exact List.mem_append.mpr (Or.inl h2)
          · rcases List.mem_cons.mp h2 with h3 | h3
            · exact absurd h3 hxb
            · exact List.mem_append.mpr (Or.inr h3)
      · intro hc
        rcases hc with h1 | h1
        · exact Or.inl h1
        · right
          rcases List.mem_append.mp h1 with h2 | h2
          · exact hsubA x h2
          · exact hsubT x h2
  · show keyN st3 0 = none
    rw [hkey3 0 (fun hc => hb0 hc.symm)]
    exact h.hdr_key
  · show heightN st3 0 = MAX_LEVEL
    rw [hh3 0 (fun hc => hb0 hc.symm)]
    exact h.hdr_height
  · show (nodeGet st3 0).forward.length = MAX_LEVEL
    rw [hfl3 0 (fun hc => hb0 hc.symm)]
    exact h.hdr_fwd_len
  · show (nodeGet st3 0).diff.length = MAX_LEVEL
    rw [hdl3 0 (fun hc => hb0 hc.symm)]
    exact h.hdr_diff_len
  · exact h.sp_nodup.sublist (List.cons_sublist_cons.mpr hsubl)
  · intro y hy
    have hyb : y ≠ b := hbne_sp y (List.mem_append.mp hy)
    have hysp : y ∈ sp := hsubl.subset hy
    show keyN st3 y = some (keyD st3 y)
    rw [hkey3 y hyb, hkeyD3 y hyb]
    exact h.sp_key y hysp
  · intro y hy
    have hyb : y ≠ b := hbne_sp y (List.mem_append.mp hy)
    have hysp : y ∈ sp := hsubl.subset hy
    show 1 ≤ heightN st3 y
    rw [hh3 y hyb]
    exact h.sp_hpos y hysp
  · intro y hy
    have hyb : y ≠ b := hbne_sp y (List.mem_append.mp hy)
    have hysp : y ∈ sp := hsubl.subset hy
    show heightN st3 y ≤ lvl
    by_contra hgt
    push_neg at hgt
    have hle : heightN st3 y ≤ sl.level := by
      rw [hh3 y hyb]
      exact h.sp_hle y hysp
    have hiL : heightN st3 y - 1 < sl.level := by omega
    obtain ⟨r, hr⟩ := hmemchain y hy (heightN st3 y - 1) (by omega)
    obtain ⟨c, hc⟩ := hfwd0 _ hiL y r hr
    have hnone := hlv3 (heightN st3 y - 1) (by omega) hiL
    rw [hnone] at hc
    exact Option.noConfusion hc
  · intro y hy
    have hyb : y ≠ b := hbne_sp y (List.mem_append.mp hy)
    have hysp : y ∈ sp := hsubl.subset hy
    show (nodeGet st3 y).forward.length = heightN st3 y
    rw [hfl3 y hyb, hh3 y hyb]
    exact h.sp_fwd_len y hysp
  · intro y hy
    have hyb : y ≠ b := hbne_sp y (List.mem_append.mp hy)
    have hysp : y ∈ sp := hsubl.subset hy
    show (nodeGet st3 y).diff.length = heightN st3 y
    rw [hdl3 y hyb, hh3 y hyb]
    exact h.sp_diff_len y hysp
  · show 1 ≤ lvl
    exact hlv1
  · show lvl ≤ MAX_LEVEL
    exact le_trans hlv2 hML
  · show sl.length - 1 = ((spA ++ spT).length : Int)
    have hlen : sp.length = spA.length + spT.length + 1 := by
      rw [← hsplit]
      simp
      omega
    have h2 : ((spA ++ spT).length : Int) = (spA.length : Int) + spT.length := by
      rw [List.length_append]
      push_cast
      ring
    rw [h.len_eq, hlen, h2]
    push_cast
    ring
  · show ((spA ++ spT).map (keyD st3)).Pairwise (· ≤ ·)
    have hmapeq : (spA ++ spT).map (keyD st3) = (spA ++ spT).map (keyD sl.store) :=
      List.map_congr_left (fun y hy => hkeyD3 y (hbne_sp y (List.mem_append.mp hy)))
    rw [hmapeq]
    exact h.sorted.sublist (hsubl.map (keyD sl.store))
  · intro i hi
    show chainWF st3 (sl.length - 1) i (numberFrom 1 (spA ++ spT))
    exact hCW i (lt_of_lt_of_le hi hlv2)
  · intro i h1 h2
    show forwardN st3 0 i = none
    by_cases hiL : i < sl.level
    · exact hlv3 i h1 hiL
    · rw [hfwd3 0 i (fun hc => hb0 hc.symm), if_neg (fun hh => hiL hh.1)]
      exact h.fwd_high i (by omega) h2
  · show F.length = MAX_LEVEL
    rw [hF, hs.cflen]
    exact h.finger_len
  · show DD.length = MAX_LEVEL
    rw [hDDd, hs.cdlen]
    exact h.distance_len
  · intro i hi
    have hiL : i < sl.level := lt_of_lt_of_le hi hlv2
    have hFi : F.getD i 0 = fingerU sl k sp i := by
      rw [hF]
      exact hs.cfi i hiL (by rw [h.finger_len]; omega)
    have hDi : DD.getD i 0 = fingerDist sl k sp i := by
      rw [hDDd]
      exact hs.cdi i hiL (by rw [h.distance_len]; omega)
    show cacheWF st3 i (numberFrom 1 (spA ++ spT)) (F.getD i 0) (DD.getD i 0)
    rw [hFi, hDi]
    unfold cacheWF
    rcases fingerU_mem sl k sp i with h0 | ⟨hm, hkU⟩
    · exact Or.inl h0
    · right
      have hUspT : (fingerU sl k sp i, fingerDist sl k sp i) ∈
          shift1 (chainF sl.store i (numberFrom (1 + (spA.length : Int)) spT)) → False := by
        intro h2
        have hfst : fingerU sl k sp i ∈
            (shift1 (chainF sl.store i
              (numberFrom (1 + (spA.length : Int)) spT))).map Prod.fst :=
          List.mem_map.mpr ⟨_, h2, rfl⟩
        rw [shift1_fst] at hfst
        obtain ⟨p, hp, hpy⟩ := List.mem_map.mp hfst
        have hmem : fingerU sl k sp i ∈ spT := by
          rw [← hpy]
          exact (mem_numberFrom (chainF_subset hp).1).1
        exact hTge _ hmem hkU
      rw [hchainNew i]
      by_cases hib : i < heightN sl.store b
      · rw [hchainOldT i hib] at hm
        rcases List.mem_append.mp hm with h1 | h1
        · exact List.mem_append.mpr (Or.inl h1)
        · exfalso
          rcases List.mem_cons.mp h1 with heq2 | h2
          · have : fingerU sl k sp i = b := congrArg Prod.fst heq2
            exact hUneb i this
          · exact hUspT h2
      · rw [hchainOldS i hib] at hm
        rcases List.mem_append.mp hm with h1 | h1
        · exact List.mem_append.mpr (Or.inl h1)
        · exact absurd h1 (fun hh => hUspT hh)
  · intro i h1 h2
    show F.getD i 0 = 0
    by_cases hiL : i < sl.level
    · have hFi : F.getD i 0 = fingerU sl k sp i := by
        rw [hF]
        exact hs.cfi i hiL (by rw [h.finger_len]; omega)
      have hnone := hlv3 i h1 hiL
      cases hchn : chainF st3 i (numberFrom 1 (spA ++ spT)) with
      | cons c rest =>
        have hlink := (hCW i hiL).1
        rw [hchn] at hlink
        rw [hlink.1] at hnone
        exact Option.noConfusion hnone
      | nil =>
        have hAT := hchainNew i
        rw [hchn] at hAT
        have hAnil : chainF sl.store i (numberFrom 1 spA) = [] :=
          (List.append_eq_nil.mp hAT.symm).1
        have hlast := hlastAi i
        rw [hAnil, lastPairOf_nil] at hlast
        rw [hFi]
        exact (congrArg Prod.fst hlast).symm
    · rw [hF, hs.cfhi i (by omega)]
      exact h.cache_high i (by omega) h2
  · intro y hy
    show y < sl.nextId
    exact h.id_lt y (hsubl.subset hy)
  · show 0 < sl.nextId
    exact h.id_pos

/-- `SkipList_Delete` preserves well-formedness: some spine describes the
resulting state. -/
theorem WF_delete (sl : SL) (sp : List Nat) (k : Int) (h : WF sl sp) :
    ∃ sp2, WF (SkipList_Delete sl k).1 sp2 := by
  cases hbs : sp.dropWhile (fun y => decide (keyD sl.store y < k)) with
  | nil =>
    refine ⟨sp, ?_⟩
    have hk : ∀ y ∈ sp, keyD sl.store y ≠ k := by
      intro y hy
      have hsp : sp.takeWhile (fun y => decide (keyD sl.store y < k)) ++
          sp.dropWhile (fun y => decide (keyD sl.store y < k)) = sp :=
        List.takeWhile_append_dropWhile _ sp
      rw [hbs, List.append_nil] at hsp
      have hmem : y ∈ sp.takeWhile (fun y => decide (keyD sl.store y < k)) := by
        rw [hsp]
        exact hy
      have hlt : keyD sl.store y < k := by
        simpa using List.mem_takeWhile_imp hmem
      omega
    rw [delete_absent sl sp h k hk]
    exact WF_after_search sl sp k h
  | cons b spT =>
    by_cases hkb : keyD sl.store b = k
    · exact ⟨_, (WF_delete_found sl sp k b spT h hbs hkb).1⟩
    · refine ⟨sp, ?_⟩
      have hsp : sp.takeWhile (fun y => decide (keyD sl.store y < k)) ++
          b :: spT = sp := by
        rw [← hbs]
        exact List.takeWhile_append_dropWhile _ sp
      have hk : ∀ y ∈ sp, keyD sl.store y ≠ k := by
        intro y hy
        rw [← hsp] at hy
        rcases List.mem_append.mp hy with h1 | h1
        · have hlt : keyD sl.store y < k := by
            simpa using List.mem_takeWhile_imp h1
          omega
        · have hgeb : ¬ keyD sl.store b < k := by
            refine dropWhile_keyGe sl.store k sp h.sorted b ?_
            rw [hbs]
            exact List.mem_cons_self _ _
          rcases List.mem_cons.mp h1 with rfl | h2
          · exact hkb
          · have hsorted := h.sorted
            rw [← hsp, List.map_append] at hsorted
            have hp2 := (List.pairwise_append.mp hsorted).2.1
            rw [List.map_cons, List.pairwise_cons] at hp2
            have hble : keyD sl.store b ≤ keyD sl.store y :=
              hp2.1 _ (List.mem_map.mpr ⟨y, h2, rfl⟩)
            omega
      rw [delete_absent sl sp h k hk]
      exact WF_after_search sl sp k h

/-- Every reachable state is well-formed with respect to some spine. -/
theorem Reach_WF (sl : SL) (h : Reach sl) : ∃ sp, WF sl sp := by
  induction h with
  | create => exact ⟨[], WF_create⟩
  | insert sl2 k m nl _ hnl1 hnlM ih =>
    obtain ⟨sp, hsp⟩ := ih
    exact ⟨_, WF_insert sl2 sp k m nl hsp hnl1 hnlM⟩
  | delete sl2 k _ ih =>
    obtain ⟨sp, hsp⟩ := ih
    exact WF_delete sl2 sp k hsp

theorem Member_Compare_neg_iff (a b : Int) : Member_Compare a b < 0 ↔ a < b := by
  unfold Member_Compare
  split_ifs with h1 h2
  · constructor
    · intro _
      exact h1
    · intro _
      decide
  · constructor
    · intro hc
      exact absurd hc (by decide)
    · intro hc
      omega
  · constructor
    · intro hc
      exact absurd hc (by decide)
    · intro hc
      omega

/-- After `SkipList_Insert_h sl k v nl` on a well-formed state, searching
for `k` finds the freshly inserted node's data `v`. -/
theorem insert_then_search (sl : SL) (sp : List Nat) (k v : Int) (nl : Nat)
    (hw : WF sl sp) (hnl1 : 1 ≤ nl) (hnlM : nl ≤ MAX_LEVEL) :
    (SkipList_Search (SkipList_Insert_h sl k v nl) k).1 = some v := by
  have D := insert_desc sl sp k v nl hw hnlM
  obtain ⟨S, hSd⟩ : ∃ x, x = SkipList_Insert_h sl k v nl := ⟨_, rfl⟩
  obtain ⟨spA, hspAd⟩ : ∃ x, x = sp.takeWhile (fun y => decide (keyD sl.store y < k)) :=
    ⟨_, rfl⟩
  obtain ⟨spB, hspBd⟩ : ∃ x, x = sp.dropWhile (fun y => decide (keyD sl.store y < k)) :=
    ⟨_, rfl⟩
  have W2 : WF S (spA ++ sl.nextId :: spB) := by
    rw [hSd, hspAd, hspBd]
    exact WF_insert sl sp k v nl hw hnl1 hnlM
  rw [← hSd] at D
  rw [← hSd]
  rw [SkipList_Search_eq S (spA ++ sl.nextId :: spB) W2 k]
  have hspnxt : ∀ y ∈ sp, y ≠ sl.nextId := by
    intro y hy hc
    have := hw.id_lt y hy
    omega
  have hsubA : ∀ y ∈ spA, y ∈ sp := by
    intro y hy
    rw [hspAd] at hy
    exact (List.takeWhile_sublist _).subset hy
  have hsubB : ∀ y ∈ spB, y ∈ sp := by
    intro y hy
    rw [hspBd] at hy
    exact (List.dropWhile_sublist _).subset hy
  have hAlt : ∀ y ∈ spA, keyD sl.store y < k := by
    intro y hy
    rw [hspAd] at hy
    simpa using List.mem_takeWhile_imp hy
  have hBge : ∀ y ∈ spB, ¬ keyD sl.store y < k := by
    intro y hy
    rw [hspBd] at hy
    exact dropWhile_keyGe sl.store k sp hw.sorted y hy
  have hkS : ∀ y ∈ sp, keyD S.store y = keyD sl.store y := by
    intro y hy
    unfold keyD
    rw [D.keyd, if_neg (hspnxt y hy)]
  have hkSn : keyD S.store sl.nextId = k := by
    unfold keyD
    rw [D.keyd, if_pos rfl]
    rfl
  have hPA : ∀ a ∈ spA, (fun y => decide (keyD S.store y < k)) a = true := by
    intro a ha
    simp only [decide_eq_true_iff]
    rw [hkS a (hsubA a ha)]
    exact hAlt a ha
  have hPB : ∀ b2 ∈ sl.nextId :: spB, (fun y => decide (keyD S.store y < k)) b2 = false := by
    intro b2 hb2
    simp only [decide_eq_false_iff_not]
    rcases List.mem_cons.mp hb2 with rfl | h2
    · rw [hkSn]
      exact lt_irrefl k
    · rw [hkS b2 (hsubB b2 h2)]
      exact hBge b2 h2
  rw [(takeWhile_all_append (fun y => decide (keyD S.store y < k)) spA
    (sl.nextId :: spB) hPA hPB).2]
  show (if keyD S.store sl.nextId = k then some (dataN S.store sl.nextId) else none) = some v
  rw [if_pos hkSn, D.datad, if_pos rfl]

/-- After `SkipList_Insert_h sl k v nl` on a well-formed state, the
level-0 iteration is the old iteration with `(k, v)` spliced in right
after the strictly-smaller keys (hence before every equal key). -/
theorem insert_iterate_split (sl : SL) (sp : List Nat) (k v : Int) (nl : Nat)
    (hw : WF sl sp) (hnl1 : 1 ≤ nl) (hnlM : nl ≤ MAX_LEVEL) :
    SkipList_Iterate (SkipList_Insert_h sl k v nl) =
      (SkipList_Iterate sl).takeWhile (fun p => decide (cmpKO p.1 k < 0)) ++
        (some k, v) ::
          (SkipList_Iterate sl).dropWhile (fun p => decide (cmpKO p.1 k < 0)) := by
  have D := insert_desc sl sp k v nl hw hnlM
  obtain ⟨S, hSd⟩ : ∃ x, x = SkipList_Insert_h sl k v nl := ⟨_, rfl⟩
  obtain ⟨spA, hspAd⟩ : ∃ x, x = sp.takeWhile (fun y => decide (keyD sl.store y < k)) :=
    ⟨_, rfl⟩
  obtain ⟨spB, hspBd⟩ : ∃ x, x = sp.dropWhile (fun y => decide (keyD sl.store y < k)) :=
    ⟨_, rfl⟩
  have W2 : WF S (spA ++ sl.nextId :: spB) := by
    rw [hSd, hspAd, hspBd]
    exact WF_insert sl sp k v nl hw hnl1 hnlM
  rw [← hSd] at D
  rw [← hSd]
  have hspnxt : ∀ y ∈ sp, y ≠ sl.nextId := by
    intro y hy hc
    have := hw.id_lt y hy
    omega
  have hsubA : ∀ y ∈ spA, y ∈ sp := by
    intro y hy
    rw [hspAd] at hy
    exact (List.takeWhile_sublist _).subset hy
  have hsubB : ∀ y ∈ spB, y ∈ sp := by
    intro y hy
    rw [hspBd] at hy
    exact (List.dropWhile_sublist _).subset hy
  have hAlt : ∀ y ∈ spA, keyD sl.store y < k := by
    intro y hy
    rw [hspAd] at hy
    simpa using List.mem_takeWhile_imp hy
  have hBge : ∀ y ∈ spB, ¬ keyD sl.store y < k := by
    intro y hy
    rw [hspBd] at hy
    exact dropWhile_keyGe sl.store k sp hw.sorted y hy
  have hsplit : spA ++ spB = sp := by
    rw [hspAd, hspBd]
    exact List.takeWhile_append_dropWhile _ sp
  have hIold : SkipList_Iterate sl =
      spA.map (fun y => (keyN sl.store y, dataN sl.store y)) ++
      spB.map (fun y => (keyN sl.store y, dataN sl.store y)) := by
    rw [iterate_eq sl sp hw]
    conv_lhs => rw [← hsplit]
    rw [List.map_append]
  have hfA : ∀ y ∈ sp,
      (keyN S.store y, dataN S.store y) = (keyN sl.store y, dataN sl.store y) := by
    intro y hy
    rw [D.keyd, if_neg (hspnxt y hy), D.datad, if_neg (hspnxt y hy)]
  have hfn : (keyN S.store sl.nextId, dataN S.store sl.nextId) = (some k, v) := by
    rw [D.keyd, if_pos rfl, D.datad, if_pos rfl]
  have hInew2 : SkipList_Iterate S =
      spA.map (fun y => (keyN sl.store y, dataN sl.store y)) ++
      (some k, v) :: spB.map (fun y => (keyN sl.store y, dataN sl.store y)) := by
    rw [iterate_eq S (spA ++ sl.nextId :: spB) W2, List.map_append, List.map_cons, hfn,
      List.map_congr_left (fun y hy => hfA y (hsubA y hy)),
      List.map_congr_left (fun y hy => hfA y (hsubB y hy))]
  have hQA : ∀ a ∈ spA.map (fun y => (keyN sl.store y, dataN sl.store y)),
      (fun p : Option Int × Int => decide (cmpKO p.1 k < 0)) a = true := by
    intro a ha
    obtain ⟨y, hy, rfl⟩ := List.mem_map.mp ha
    simp only [decide_eq_true_iff]
    show cmpKO (keyN sl.store y) k < 0
    rw [hw.sp_key y (hsubA y hy), cmpKO_some]
    exact (Member_Compare_neg_iff _ _).mpr (hAlt y hy)
  have hQB : ∀ b2 ∈ spB.map (fun y => (keyN sl.store y, dataN sl.store y)),
      (fun p : Option Int × Int => decide (cmpKO p.1 k < 0)) b2 = false := by
    intro b2 hb2
    obtain ⟨y, hy, rfl⟩ := List.mem_map.mp hb2
    simp only [decide_eq_false_iff_not]
    show ¬ cmpKO (keyN sl.store y) k < 0
    rw [hw.sp_key y (hsubB y hy), cmpKO_some]
    intro hc
    exact hBge y hy ((Member_Compare_neg_iff _ _).mp hc)
  obtain ⟨hTW, hDW⟩ := takeWhile_all_append
    (fun p : Option Int × Int => decide (cmpKO p.1 k < 0))
    (spA.map (fun y => (keyN sl.store y, dataN sl.store y)))
    (spB.map (fun y => (keyN sl.store y, dataN sl.store y))) hQA hQB
  rw [hInew2, hIold, hTW, hDW]

/-- C1 (amended): in every reachable state, for every active level `i`
and every member `y` participating in level `i`, the sum of the `diff`
(span) values along the level-`i` chain from the header up to and
including the predecessor of `y` equals the 1-based rank of `y` itself -
not the rank minus 1 as the spec states.  (The header's span already
covers the step to the first node, so the accumulated sum on arrival at
`y` is `rank y`, and the invariant in this form holds after every
insertion and deletion.) -/
theorem C1_rank_consistency_amended (sl : SL) (i y : Nat) (h : Reach sl)
    (hi : i < sl.level) (hy : y ∈ spine sl) (hh : i < heightN sl.store y) :
    spanWalk sl.store i y (sl.store.length + 1) 0 0 = some (rankOf sl y) := by
  obtain ⟨sp, hw⟩ := Reach_WF sl h
  have hsp := spine_eq sl sp hw
  rw [hsp] at hy
  have hy2 : y ∈ (numberFrom 1 sp).map Prod.fst := by
    rw [map_fst_numberFrom]
    exact hy
  obtain ⟨⟨py, pr⟩, hp, hpy⟩ := List.mem_map.mp hy2
  have hpy' : y = py := hpy.symm
  subst hpy'
  have hrank : rankOf sl y = pr := by
    unfold rankOf
    rw [hsp, lookup_of_mem_nodup (numberFrom 1 sp)
      (by rw [map_fst_numberFrom]; exact (List.nodup_cons.mp hw.sp_nodup).2) y pr hp]
    rfl
  have hmemC : (y, pr) ∈ chainF sl.store i (numberFrom 1 sp) := by
    unfold chainF
    rw [List.mem_filter]
    refine ⟨hp, ?_⟩
    simp only [decide_eq_true_iff]
    exact hh
  obtain ⟨hlink, hend, hspan, hlast⟩ := hw.chains i hi
  have hnd : (0 :: (chainF sl.store i (numberFrom 1 sp)).map Prod.fst).Nodup := by
    have hsub : ((chainF sl.store i (numberFrom 1 sp)).map Prod.fst).Sublist sp := by
      have h1 := (chainF_sublist sl.store i (numberFrom 1 sp)).map Prod.fst
      rwa [map_fst_numberFrom] at h1
    exact hw.sp_nodup.sublist (List.cons_sublist_cons.mpr hsub)
  have hfuel : (chainF sl.store i (numberFrom 1 sp)).length + 1 ≤ sl.store.length + 1 := by
    have h1 : (chainF sl.store i (numberFrom 1 sp)).length ≤ (numberFrom 1 sp).length :=
      (chainF_sublist _ _ _).length_le
    rw [length_numberFrom] at h1
    have h2 := WF_store_length sl sp hw
    omega
  rw [hrank]
  exact spanWalk_spec sl.store i (chainF sl.store i (numberFrom 1 sp)) 0 0
    (sl.store.length + 1) y pr hlink hspan hmemC hnd hfuel

theorem C1_rank_consistency_amended_witness :
    Reach oneElem ∧ 0 < oneElem.level ∧ (1 : Nat) ∈ spine oneElem ∧
    0 < heightN oneElem.store 1 ∧
    spanWalk oneElem.store 0 1 (oneElem.store.length + 1) 0 0 = some (rankOf oneElem 1) := by
  have hr : Reach oneElem :=
    Reach.insert SkipList_Create 10 10 (Choose_Random_Level 0).1 Reach.create
      (by decide) (by decide)
  exact ⟨hr, by decide, by decide, by decide,
    C1_rank_consistency_amended oneElem 0 1 hr (by decide) (by decide) (by decide)⟩

/-- C4: in every reachable state, the level-0 iteration visits the
members in non-decreasing key order according to the comparator: every
visited pair carries a real key, and `Member_Compare` of any earlier key
with any later key is at most 0. -/
theorem C4_sorted_iteration (sl : SL) (h : Reach sl) :
    (SkipList_Iterate sl).Pairwise
      (fun p q => ∃ a b, p.1 = some a ∧ q.1 = some b ∧ Member_Compare a b ≤ 0) := by
  obtain ⟨sp, hw⟩ := Reach_WF sl h
  rw [iterate_eq sl sp hw]
  have hsorted : sp.Pairwise (fun y z => keyD sl.store y ≤ keyD sl.store z) := by
    have h1 := hw.sorted
    rwa [List.pairwise_map] at h1
  rw [List.pairwise_map]
  refine hsorted.imp_of_mem ?_
  intro a b ha hb hle
  refine ⟨keyD sl.store a, keyD sl.store b, ?_, ?_, (Member_Compare_le_iff _ _).mpr hle⟩
  · exact hw.sp_key a ha
  · exact hw.sp_key b hb

theorem C4_sorted_iteration_witness :
    Reach fourAsc ∧
    (SkipList_Iterate fourAsc).Pairwise
      (fun p q => ∃ a b, p.1 = some a ∧ q.1 = some b ∧ Member_Compare a b ≤ 0) := by
  have h1 : Reach (SkipList_Insert 0 SkipList_Create 10 10).2 :=
    Reach.insert SkipList_Create 10 10 (Choose_Random_Level 0).1 Reach.create
      (by decide) (by decide)
  have h2 : Reach (SkipList_Insert 1 (SkipList_Insert 0 SkipList_Create 10 10).2 20 20).2 :=
    Reach.insert _ 20 20 (Choose_Random_Level 1).1 h1 (by decide) (by decide)
  have h3 : Reach (SkipList_Insert 2 (SkipList_Insert 1
      (SkipList_Insert 0 SkipList_Create 10 10).2 20 20).2 30 30).2 :=
    Reach.insert _ 30 30 (Choose_Random_Level 2).1 h2 (by decide) (by decide)
  have hr : Reach fourAsc :=
    Reach.insert _ 40 40 (Choose_Random_Level 3).1 h3 (by decide) (by decide)
  exact ⟨hr, C4_sorted_iteration fourAsc hr⟩

/-- C7: on every reachable state, inserting `(k, v)` and then searching
for `k` (with no intervening delete) returns `v`. -/
theorem C7_insert_search_roundtrip (g : Nat) (sl : SL) (k v : Int) (h : Reach sl) :
    (SkipList_Search (SkipList_Insert g sl k v).2 k).1 = some v := by
  obtain ⟨sp, hw⟩ := Reach_WF sl h
  obtain ⟨hnl1, hnlM⟩ := Choose_Random_Level_bounds g
  have h1 : (SkipList_Insert g sl k v).2 =
      SkipList_Insert_h sl k v (Choose_Random_Level g).1 := rfl
  rw [h1]
  exact insert_then_search sl sp k v (Choose_Random_Level g).1 hw hnl1 hnlM

theorem C7_insert_search_roundtrip_witness :
    Reach SkipList_Create ∧
    (SkipList_Search (SkipList_Insert 0 SkipList_Create 10 10).2 10).1 = some 10 :=
  ⟨Reach.create, C7_insert_search_roundtrip 0 SkipList_Create 10 10 Reach.create⟩

/-- C9: on every reachable state holding no member with key `k`,
`SkipList_Delete sl k` returns 0 and leaves the node heap, the level,
the length - hence the elements, their order, and all per-level spans -
unchanged (only the search cache is rewritten). -/
theorem C9_delete_absent (sl : SL) (k : Int) (h : Reach sl)
    (hk : ∀ p ∈ SkipList_Iterate sl, p.1 ≠ some k) :
    (SkipList_Delete sl k).2 = 0 ∧
    (SkipList_Delete sl k).1.store = sl.store ∧
    (SkipList_Delete sl k).1.level = sl.level ∧
    (SkipList_Delete sl k).1.length = sl.length ∧
    SkipList_Iterate (SkipList_Delete sl k).1 = SkipList_Iterate sl := by
  obtain ⟨sp, hw⟩ := Reach_WF sl h
  have hs := Search_by_Key_spec sl sp k hw
  have hk2 : ∀ y ∈ sp, keyD sl.store y ≠ k := by
    intro y hy hc
    have hmem : (keyN sl.store y, dataN sl.store y) ∈ SkipList_Iterate sl := by
      rw [iterate_eq sl sp hw]
      exact List.mem_map.mpr ⟨y, hy, rfl⟩
    refine hk _ hmem ?_
    show keyN sl.store y = some k
    rw [hw.sp_key y hy, hc]
  rw [delete_absent sl sp hw k hk2]
  refine ⟨rfl, hs.store_eq, hs.level_eq, hs.length_eq, ?_⟩
  show SkipList_Iterate (Search_by_Key sl k).1 = SkipList_Iterate sl
  unfold SkipList_Iterate
  rw [hs.store_eq]

theorem C9_delete_absent_witness :
    Reach oneElem ∧ (∀ p ∈ SkipList_Iterate oneElem, p.1 ≠ some 99) ∧
    ((SkipList_Delete oneElem 99).2 = 0 ∧
     (SkipList_Delete oneElem 99).1.store = oneElem.store ∧
     (SkipList_Delete oneElem 99).1.level = oneElem.level ∧
     (SkipList_Delete oneElem 99).1.length = oneElem.length ∧
     SkipList_Iterate (SkipList_Delete oneElem 99).1 = SkipList_Iterate oneElem) := by
  have hr : Reach oneElem :=
    Reach.insert SkipList_Create 10 10 (Choose_Random_Level 0).1 Reach.create
      (by decide) (by decide)
  exact ⟨hr, by decide, C9_delete_absent oneElem 99 hr (by decide)⟩

/-- C10: inserting `(k, v)` into any reachable state splices the new
pair in immediately after the strictly-smaller keys - hence before every
existing member with key equal to `k` in level-0 order - and a search
for `k` performed right afterwards returns `v`, the most recently
inserted value among the duplicates. -/
theorem C10_duplicate_insert_order (g : Nat) (sl : SL) (k v : Int) (h : Reach sl) :
    SkipList_Iterate (SkipList_Insert g sl k v).2 =
      (SkipList_Iterate sl).takeWhile (fun p => decide (cmpKO p.1 k < 0)) ++
        (some k, v) ::
          (SkipList_Iterate sl).dropWhile (fun p => decide (cmpKO p.1 k < 0)) ∧
    (SkipList_Search (SkipList_Insert g sl k v).2 k).1 = some v := by
  obtain ⟨sp, hw⟩ := Reach_WF sl h
  obtain ⟨hnl1, hnlM⟩ := Choose_Random_Level_bounds g
  have h1 : (SkipList_Insert g sl k v).2 =
      SkipList_Insert_h sl k v (Choose_Random_Level g).1 := rfl
  rw [h1]
  exact ⟨insert_iterate_split sl sp k v (Choose_Random_Level g).1 hw hnl1 hnlM,
    insert_then_search sl sp k v (Choose_Random_Level g).1 hw hnl1 hnlM⟩

theorem C10_duplicate_insert_order_witness :
    Reach oneElem ∧
    (SkipList_Iterate (SkipList_Insert 1 oneElem 10 99).2 =
      (SkipList_Iterate oneElem).takeWhile (fun p => decide (cmpKO p.1 10 < 0)) ++
        (some 10, 99) ::
          (SkipList_Iterate oneElem).dropWhile (fun p => decide (cmpKO p.1 10 < 0)) ∧
     (SkipList_Search (SkipList_Insert 1 oneElem 10 99).2 10).1 = some 99) := by
  have hr : Reach oneElem :=
    Reach.insert SkipList_Create 10 10 (Choose_Random_Level 0).1 Reach.create
      (by decide) (by decide)
  exact ⟨hr, C10_duplicate_insert_order 1 oneElem 10 99 hr⟩
